import Mathlib

/-!
A simple bank simulator: account database and transaction log.

Shallow embedding of the account database of `BankServer.c`
(`processDatabaseRequest`, `findAccount`, `createAccount`, `depositToAccount`,
`withdrawFromAccount`, `removeAccount`), of the log utilities of
`bank_utils.c` (`generateBankId`, `updateLogFile`, `readLogFile`,
`restoreDatabaseFromLog`), of what `initializeServer` and `cleanupServer`
do to the database and the log, of the ingress loop `waitForClients` with the
guard of `processBatch`, of `tellerProcess`, and of the sending loop of
`sendOperationBatch` in `BankClient.c`.

Conventions of the embedding.

* A C `int` is an `Int`; every arithmetic result that is stored in an `int`
  goes through `wrapInt` (32-bit two's complement).
* A C string (`char[20]`, `char[100]`, a text line) is the `List Char` of the
  characters before its terminating NUL.
* The globals `bankDb`, `lastClientId` and the contents of `logFile` are the
  three fields of `ServerState`; `bankDb.numAccounts` is the length of
  `bankDb.accounts` (array slots at or beyond `numAccounts` are never read).
* Functions that mutate the globals take a `ServerState` and return the new one
  together with their C return value.  Output to the terminal is not modelled.
* The log file is its text, a `List Char`; `fgets`, `sscanf` and `printf` are
  modelled on that text for the formats the program uses.  `%s` is modelled
  with a buffer that is large enough; statements about arbitrary logs carry
  the condition `IdsFit` under which the 20-byte buffer of the program is.
* Processes and system calls are not executed: the records read from the
  server FIFO and the outcomes of the system calls of a teller or of the client
  are parameters, and the batches handed to `processBatch` are recorded in the
  state of the ingress loop.
-/

namespace Bank

/-! ## C integers -/

/-- Largest value of a C `int`. -/
def INT_MAX : Int := 2147483647

/-- Smallest value of a C `int`. -/
def INT_MIN : Int := -2147483648

/-- Reduction of an exact integer result to a 32-bit two's complement `int`.
(C leaves signed overflow undefined; this is the value that the usual
compilers for two's complement machines produce.) -/
def wrapInt (x : Int) : Int := (x + 2147483648) % 4294967296 - 2147483648

/-- The value is representable as a C `int`. -/
def IsInt (x : Int) : Prop := INT_MIN ≤ x ∧ x ≤ INT_MAX

instance (x : Int) : Decidable (IsInt x) := by
  unfold IsInt; exact inferInstance

/-! ## Constants of `bank_shared.h` and `bank_utils.h` -/

def OP_DEPOSIT : Int := 1
def OP_WITHDRAW : Int := 2
def ERR_INSUFFICIENT_FUNDS : Int := -1
def ERR_INVALID_OPERATION : Int := -2
def ERR_INVALID_ACCOUNT : Int := -3
def MAX_BATCH_SIZE : Nat := 500

/-! ## `printf` conversions used by the server -/

/-- The decimal digit character of `d < 10`. -/
def digitChar (d : Nat) : Char := Char.ofNat (48 + d)

/-- Decimal digits of `n`, most significant first, pushed in front of `acc`. -/
def natDigitsAux : Nat → Nat → List Char → List Char
  | 0, _, acc => acc
  | fuel + 1, n, acc =>
    if n < 10 then digitChar n :: acc
    else natDigitsAux fuel (n / 10) (digitChar (n % 10) :: acc)

/-- Decimal representation of a natural number. -/
def natDigits (n : Nat) : List Char := natDigitsAux (n + 1) n []

/-- Conversion `%d` of `printf`. -/
def fmtInt (x : Int) : List Char :=
  if x < 0 then '-' :: natDigits (-x).toNat else natDigits x.toNat

/-- Conversion `%02d` of `printf`: minimum field width 2, padded with zeros. -/
def fmtInt02 (x : Int) : List Char :=
  if x < 0 then '-' :: natDigits (-x).toNat
  else if x < 10 then '0' :: natDigits x.toNat
  else natDigits x.toNat

/-- The literal text `BankID_`. -/
def bankIdPrefix : List Char := ['B', 'a', 'n', 'k', 'I', 'D', '_']

/-- `generateBankId`: `snprintf(bankId, 20, "BankID_%02d", clientNum)`. -/
def generateBankId (clientNum : Int) : List Char :=
  (bankIdPrefix ++ fmtInt02 clientNum).take 19

/-! ## Data model (`BankServer.h`, `bank_shared.h`) -/

/-- `Account`: one slot of `bankDb.accounts`. -/
structure Account where
  bankId : List Char
  balance : Int
  active : Bool
deriving DecidableEq, Repr

/-- `BankDatabase`: the used prefix `accounts[0 .. numAccounts-1]`. -/
structure BankDatabase where
  accounts : List Account
deriving DecidableEq, Repr

/-- The field `numAccounts`. -/
def BankDatabase.numAccounts (db : BankDatabase) : Nat := db.accounts.length

/-- `TellerRequest`: what a teller sends to the dispatcher. -/
structure TellerRequest where
  operation : Int
  bankId : List Char
  amount : Int
  isNewClient : Int
  clientPid : Int
  clientIndex : Int
deriving DecidableEq, Repr

/-- `ServerResponse`: what the dispatcher answers. -/
structure ServerResponse where
  status : Int
  balance : Int
  bankId : List Char
  message : List Char
  clientIndex : Int
deriving DecidableEq, Repr

/-- The globals of `BankServer.c` touched by the database operations. -/
structure ServerState where
  bankDb : BankDatabase
  lastClientId : Int
  logFile : List Char
deriving DecidableEq, Repr

/-- `initializeDatabase` on a fresh process with a fresh, empty log. -/
def initialState : ServerState :=
  { bankDb := { accounts := [] }, lastClientId := 0, logFile := [] }

/-- A response buffer after `memset(&resp, 0, sizeof resp)`. -/
def zeroResponse : ServerResponse :=
  { status := 0, balance := 0, bankId := [], message := [], clientIndex := 0 }

/-! ## `updateLogFile` -/

/-- One log record `"%s %c %d %d\n"`. -/
def logRecord (bankId : List Char) (opType : Char) (amount balance : Int) : List Char :=
  bankId ++ [' ', opType, ' '] ++ fmtInt amount ++ [' '] ++ fmtInt balance ++ ['\n']

/-- `updateLogFile`: nothing is written for `amount <= 0`. -/
def updateLogFile (logFile : List Char) (bankId : List Char) (opType : Char)
    (amount balance : Int) : List Char :=
  if amount ≤ 0 then logFile
  else logFile ++ logRecord bankId opType amount balance

/-! ## Database operations -/

/-- First index of an active account with the given id in a slice of the array. -/
def findAccountIn : List Account → List Char → Option Nat
  | [], _ => none
  | a :: rest, bankId =>
    if a.active = true ∧ a.bankId = bankId then some 0
    else (findAccountIn rest bankId).map (· + 1)

/-- `findAccount`: index of the first active account with this id, `none` for `-1`. -/
def findAccount (s : ServerState) (bankId : List Char) : Option Nat :=
  findAccountIn s.bankDb.accounts bankId

/-- `accounts[index].balance` (0 outside the used prefix, never consulted there). -/
def balanceAt : List Account → Nat → Int
  | [], _ => 0
  | a :: _, 0 => a.balance
  | _ :: rest, i + 1 => balanceAt rest i

/-- `accounts[index].bankId`. -/
def bankIdAt : List Account → Nat → List Char
  | [], _ => []
  | a :: _, 0 => a.bankId
  | _ :: rest, i + 1 => bankIdAt rest i

/-- In-place update of `accounts[index]`. -/
def modifyAt (f : Account → Account) : List Account → Nat → List Account
  | [], _ => []
  | a :: rest, 0 => f a :: rest
  | a :: rest, i + 1 => a :: modifyAt f rest i

/-- `createAccount`: returns the new index, `none` for `-1`. -/
def createAccount (s : ServerState) (amount : Int) : Option Nat × ServerState :=
  if s.bankDb.numAccounts ≥ 100 then (none, s)
  else
    let last := wrapInt (s.lastClientId + 1)
    let index := s.bankDb.numAccounts
    let bankId := generateBankId last
    (some index,
      { bankDb := { accounts := s.bankDb.accounts ++
                      [{ bankId := bankId, balance := amount, active := true }] },
        lastClientId := last,
        logFile := updateLogFile s.logFile bankId 'D' amount amount })

/-- `depositToAccount`: returns `-1` or the balance after the deposit. -/
def depositToAccount (s : ServerState) (bankId : List Char) (amount : Int) :
    Int × ServerState :=
  match findAccount s bankId with
  | none => (-1, s)
  | some index =>
    let newBalance := wrapInt (balanceAt s.bankDb.accounts index + amount)
    (newBalance,
      { s with
        bankDb := { accounts := modifyAt (fun a => { a with balance := newBalance })
                      s.bankDb.accounts index },
        logFile := updateLogFile s.logFile bankId 'D' amount newBalance })

/-- `withdrawFromAccount`: `-1`, `ERR_INSUFFICIENT_FUNDS` or the balance after. -/
def withdrawFromAccount (s : ServerState) (bankId : List Char) (amount : Int) :
    Int × ServerState :=
  match findAccount s bankId with
  | none => (-1, s)
  | some index =>
    if balanceAt s.bankDb.accounts index < amount then (ERR_INSUFFICIENT_FUNDS, s)
    else
      let newBalance := wrapInt (balanceAt s.bankDb.accounts index - amount)
      (newBalance,
        { s with
          bankDb := { accounts := modifyAt (fun a => { a with balance := newBalance })
                        s.bankDb.accounts index },
          logFile := updateLogFile s.logFile bankId 'W' amount newBalance })

/-- `removeAccount`: clears the active flag of the account found. -/
def removeAccount (s : ServerState) (bankId : List Char) : ServerState :=
  match findAccount s bankId with
  | none => s
  | some index =>
    { s with
      bankDb := { accounts := modifyAt (fun a => { a with active := false })
                    s.bankDb.accounts index } }

/-- `snprintf(resp->message, sizeof(resp->message), ...)` keeps 99 characters. -/
def setMessage (resp : ServerResponse) (text : List Char) : ServerResponse :=
  { resp with message := text.take 99 }

/-- `processDatabaseRequest(req, resp, clientNum)`: the response and the new globals. -/
def processDatabaseRequest (req : TellerRequest) (resp : ServerResponse)
    (s : ServerState) : ServerResponse × ServerState :=
  let resp := { resp with status := 0, clientIndex := req.clientIndex }
  if req.operation = OP_DEPOSIT then
    if req.isNewClient ≠ 0 then
      match createAccount s req.amount with
      | (some accountIndex, s1) =>
        (setMessage
          { resp with bankId := bankIdAt s1.bankDb.accounts accountIndex,
                      balance := balanceAt s1.bankDb.accounts accountIndex }
          ("New account created with ".toList ++ fmtInt req.amount ++ " credits".toList),
         s1)
      | (none, s1) =>
        ({ resp with status := ERR_INVALID_OPERATION,
                     message := "Failed to create account".toList }, s1)
    else
      match findAccount s req.bankId with
      | some _ =>
        let (newBalance, s1) := depositToAccount s req.bankId req.amount
        if newBalance ≥ 0 then
          (setMessage { resp with bankId := req.bankId, balance := newBalance }
            ("Deposited ".toList ++ fmtInt req.amount ++ " credits. New balance: ".toList
              ++ fmtInt newBalance), s1)
        else
          ({ resp with status := ERR_INVALID_OPERATION,
                       message := "Deposit operation failed".toList }, s1)
      | none =>
        ({ resp with status := ERR_INVALID_ACCOUNT,
                     message := "Account not found".toList }, s)
  else if req.operation = OP_WITHDRAW then
    match findAccount s req.bankId with
    | some _ =>
      let (newBalance, s1) := withdrawFromAccount s req.bankId req.amount
      if newBalance ≥ 0 then
        let resp := { resp with bankId := req.bankId, balance := newBalance }
        if newBalance = 0 then
          (setMessage resp
            ("Withdrew ".toList ++ fmtInt req.amount ++ " credits. Account closed.".toList),
           removeAccount s1 req.bankId)
        else
          (setMessage resp
            ("Withdrew ".toList ++ fmtInt req.amount ++ " credits. New balance: ".toList
              ++ fmtInt newBalance), s1)
      else if newBalance = ERR_INSUFFICIENT_FUNDS then
        ({ resp with status := ERR_INSUFFICIENT_FUNDS,
                     message := "Insufficient funds for withdrawal".toList }, s1)
      else
        ({ resp with status := ERR_INVALID_OPERATION,
                     message := "Withdraw operation failed".toList }, s1)
    | none =>
      ({ resp with status := ERR_INVALID_ACCOUNT,
                   message := "Account not found".toList }, s)
  else
    ({ resp with status := ERR_INVALID_OPERATION,
                 message := "Invalid operation".toList }, s)

/-- Serving a sequence of requests, each with a zeroed response buffer. -/
def serveAll (s : ServerState) : List TellerRequest → ServerState
  | [] => s
  | req :: rest => serveAll (processDatabaseRequest req zeroResponse s).2 rest

/-- A new-client deposit (`N deposit amount`). -/
def openReq (amount : Int) : TellerRequest :=
  { operation := OP_DEPOSIT, bankId := [], amount := amount, isNewClient := 1,
    clientPid := 0, clientIndex := 0 }

/-- A deposit to an existing account. -/
def depositReq (bankId : List Char) (amount : Int) : TellerRequest :=
  { operation := OP_DEPOSIT, bankId := bankId, amount := amount, isNewClient := 0,
    clientPid := 0, clientIndex := 0 }

/-- A withdrawal from an existing account. -/
def withdrawReq (bankId : List Char) (amount : Int) : TellerRequest :=
  { operation := OP_WITHDRAW, bankId := bankId, amount := amount, isNewClient := 0,
    clientPid := 0, clientIndex := 0 }

/-! ## Reading the log back (`bank_utils.c`) -/

/-- `fgets(line, room + 1, file)` on the unread rest of the file: the characters
read (through the first newline, at most `room`) and what stays unread. -/
def fgets : Nat → List Char → List Char × List Char
  | 0, s => ([], s)
  | _ + 1, [] => ([], [])
  | room + 1, c :: cs =>
    if c = '\n' then ([c], cs)
    else ((c :: (fgets room cs).1), (fgets room cs).2)

/-- The C string held by a buffer: the characters before the first NUL. -/
def cstr (buf : List Char) : List Char := buf.takeWhile (fun c => c ≠ Char.ofNat 0)

/-- The successive values of `line` in `while (fgets(line, sizeof(line), file))`
with `char line[256]`; `fuel` bounds the number of iterations. -/
def readLinesAux : Nat → List Char → List (List Char)
  | 0, _ => []
  | _ + 1, [] => []
  | fuel + 1, c :: cs =>
    cstr (fgets 255 (c :: cs)).1 :: readLinesAux fuel (fgets 255 (c :: cs)).2

/-- All lines of a file; every `fgets` consumes a character, so the length of
the file is enough fuel. -/
def fileLines (text : List Char) : List (List Char) := readLinesAux text.length text

/-- `isspace` in the C locale. -/
def isspace (c : Char) : Bool := c.toNat = 32 ∨ (9 ≤ c.toNat ∧ c.toNat ≤ 13)

/-- `isdigit`. -/
def isdigit (c : Char) : Bool := 48 ≤ c.toNat ∧ c.toNat ≤ 57

/-- White space skipped by a `scanf` directive. -/
def skipSpaces : List Char → List Char
  | [] => []
  | c :: cs => if isspace c then skipSpaces cs else c :: cs

/-- The digits at the front of the input, accumulated in base ten. -/
def scanDigits : List Char → Nat → Nat × List Char
  | [], acc => (acc, [])
  | c :: cs, acc =>
    if isdigit c then scanDigits cs (acc * 10 + (c.toNat - 48)) else (acc, c :: cs)

/-- Largest value of a `long` (64 bits). -/
def LONG_MAX : Int := 9223372036854775807

/-- Smallest value of a `long` (64 bits). -/
def LONG_MIN : Int := -9223372036854775808

/-- What `%d` stores for a numeral whose exact value is `v`: the C library
converts the digits with `strtol`, which delivers `LONG_MAX` or `LONG_MIN` when
the value is out of the range of `long`, and the `long` is stored in the `int`,
which keeps its low 32 bits.  (A numeral beyond the range of `long` is thus read
as -1 or 0; every number that `printf` wrote from an `int` is read back
exactly.) -/
def scanfInt (v : Int) : Int :=
  wrapInt (if v > LONG_MAX then LONG_MAX else if v < LONG_MIN then LONG_MIN else v)

/-- Conversion `%d` of `scanf`: optional white space, optional sign, at least
one digit; the value is stored as `scanfInt` says. -/
def scanInt (s : List Char) : Option (Int × List Char) :=
  match skipSpaces s with
  | [] => none
  | c :: cs =>
    if c = '-' then
      match cs with
      | [] => none
      | d :: _ =>
        if isdigit d then
          some (scanfInt (-((scanDigits cs 0).1 : Int)), (scanDigits cs 0).2)
        else none
    else if c = '+' then
      match cs with
      | [] => none
      | d :: _ =>
        if isdigit d then some (scanfInt ((scanDigits cs 0).1 : Int), (scanDigits cs 0).2)
        else none
    else if isdigit c then
      some (scanfInt ((scanDigits (c :: cs) 0).1 : Int), (scanDigits (c :: cs) 0).2)
    else none

/-- The characters of a `%s` token: up to the next white space. -/
def scanToken : List Char → List Char × List Char
  | [] => ([], [])
  | c :: cs =>
    if isspace c then ([], c :: cs) else (c :: (scanToken cs).1, (scanToken cs).2)

/-- Conversion `%s` of `scanf`: optional white space, then a non-empty token. -/
def scanStr (s : List Char) : Option (List Char × List Char) :=
  match skipSpaces s with
  | [] => none
  | c :: cs => some (scanToken (c :: cs))

/-- Directive ` %c` of `scanf`: optional white space, then one character. -/
def scanChar (s : List Char) : Option (Char × List Char) :=
  match skipSpaces s with
  | [] => none
  | c :: cs => some (c, cs)

/-- Literal characters of a `scanf` format: each must be the next input character. -/
def scanLiteral : List Char → List Char → Option (List Char)
  | [], s => some s
  | _ :: _, [] => none
  | p :: ps, c :: cs => if p = c then scanLiteral ps cs else none

/-- `sscanf(line, "BankID_%d", &clientNum) == 1`, with the value read. -/
def sscanfBankId (line : List Char) : Option Int :=
  match scanLiteral bankIdPrefix line with
  | none => none
  | some rest =>
    match scanInt rest with
    | none => none
    | some r => some r.1

/-- `sscanf(line, "%s %c %d %d", bankId, &opType, &amount, &balance) == 4`,
with the four values read. -/
def sscanfRecord (line : List Char) : Option (List Char × Char × Int × Int) :=
  match scanStr line with
  | none => none
  | some (bankId, r1) =>
    match scanChar r1 with
    | none => none
    | some (opType, r2) =>
      match scanInt r2 with
      | none => none
      | some (amount, r3) =>
        match scanInt r3 with
        | none => none
        | some (balance, _) => some (bankId, opType, amount, balance)

/-- Body of the loop of `readLogFile`: the new `maxClientNum`. -/
def readLogLine (maxClientNum : Int) (line : List Char) : Int :=
  if line.head? ≠ some '#' ∧ line.length > 10 then
    match sscanfBankId line with
    | some clientNum => if clientNum > maxClientNum then clientNum else maxClientNum
    | none => maxClientNum
  else maxClientNum

/-- `readLogFile`: the return value and the value stored in `*lastClientNum`;
`none` is a file that `fopen` cannot open. -/
def readLogFile (file : Option (List Char)) : Int × Int :=
  match file with
  | none => (0, 0)
  | some text => (1, (fileLines text).foldl readLogLine 0)

/-- Index of the first account with this id, active or not (the search loop of
`restoreDatabaseFromLog`). -/
def findById : List Account → List Char → Option Nat
  | [], _ => none
  | a :: rest, bankId =>
    if a.bankId = bankId then some 0 else (findById rest bankId).map (· + 1)

/-- `accounts[index].active`. -/
def activeAt : List Account → Nat → Bool
  | [], _ => false
  | a :: _, 0 => a.active
  | _ :: rest, i + 1 => activeAt rest i

/-- The tail of the loop body of `restoreDatabaseFromLog`, once `index` is known. -/
def restoreBalance (accounts : List Account) (accountsRestored : Int) (index : Nat)
    (balance : Int) : List Account × Int :=
  let accounts := modifyAt (fun a => { a with balance := balance }) accounts index
  if balance = 0 then
    (modifyAt (fun a => { a with active := false }) accounts index, accountsRestored)
  else if activeAt accounts index then (accounts, wrapInt (accountsRestored + 1))
  else (accounts, accountsRestored)

/-- Body of the loop of `restoreDatabaseFromLog` on the state
`(db->accounts, accountsRestored)`. -/
def restoreLine (st : List Account × Int) (line : List Char) : List Account × Int :=
  if line.head? = some '#' ∨ line.length ≤ 1 then st
  else
    match sscanfRecord line with
    | none => st
    | some (bankId, _, _, balance) =>
      match findById st.1 bankId with
      | some index => restoreBalance st.1 st.2 index balance
      | none =>
        if st.1.length ≥ 100 then st
        else
          restoreBalance
            (st.1 ++ [{ bankId := bankId.take 19, balance := 0, active := true }])
            st.2 st.1.length balance

/-- `restoreDatabaseFromLog`: the return value (`accountsRestored`) and the
database; `none` is a file that `fopen` cannot open. -/
def restoreDatabaseFromLog (file : Option (List Char)) (db : BankDatabase) :
    Int × BankDatabase :=
  match file with
  | none => (0, db)
  | some text =>
    ((((fileLines text).foldl restoreLine ([], 0)).2),
      { accounts := ((fileLines text).foldl restoreLine ([], 0)).1 })

/-- The live accounts of a database: id and balance of each active account. -/
def liveAccounts (db : BankDatabase) : List (List Char × Int) :=
  (db.accounts.filter (fun a => a.active)).map (fun a => (a.bankId, a.balance))

/-! ## Boot and shutdown (`initializeServer`, `cleanupServer`) -/

/-- The line `"# %s Log file updated @%s\n"`. -/
def logHeaderLine (bankName timeStr : List Char) : List Char :=
  ['#', ' '] ++ bankName ++ " Log file updated @".toList ++ timeStr ++ ['\n']

/-- `initializeServer` in a fresh process: `log` is the content of
`<BankName>.bankLog` if the file exists, `buildTime` the literal `__TIME__`,
`timeStr` what `getCurrentTimeStr` puts in its 30-byte buffer. -/
def initializeServer (name buildTime timeStr : List Char) (log : Option (List Char)) :
    ServerState :=
  let bankName := name.take 49
  match log with
  | some text =>
    { bankDb := (restoreDatabaseFromLog (some text) { accounts := [] }).2,
      lastClientId := (readLogFile (some text)).2,
      logFile := text ++ logHeaderLine bankName (buildTime.take 8) }
  | none =>
    { bankDb := { accounts := [] },
      lastClientId := 0,
      logFile := logHeaderLine bankName (timeStr.take 29) ++ ['\n'] }

/-- The loop of `cleanupServer`: one line `"%s D 0 %d\n"` per active account. -/
def snapshotLines : List Account → List Char
  | [] => []
  | a :: rest =>
    if a.active then
      (a.bankId ++ [' ', 'D', ' ', '0', ' '] ++ fmtInt a.balance ++ ['\n']) ++ snapshotLines rest
    else snapshotLines rest

/-- The text `"\n## end of log.\n\n"`. -/
def endOfLog : List Char :=
  ['\n'] ++ "## end of log.".toList ++ ['\n', '\n']

/-- `cleanupServer`: the content of the log file when it is closed. -/
def cleanupServer (name timeStr : List Char) (s : ServerState) : List Char :=
  s.logFile ++ (logHeaderLine (name.take 49) (timeStr.take 29) ++ ['\n'])
    ++ snapshotLines s.bankDb.accounts ++ endOfLog

/-- States the server can be in: it starts without a log, serves requests
(whose amounts are C `int`s), and may be restarted on the log it wrote, after
a clean shutdown (`cleanupServer`) or after being killed.  The bank name and
the time strings are single-line texts. -/
inductive Reachable : ServerState → Prop
  | empty : Reachable initialState
  | fresh (name buildTime timeStr : List Char) :
      '\n' ∉ name → '\n' ∉ timeStr →
      Reachable (initializeServer name buildTime timeStr none)
  | serve (s : ServerState) (req : TellerRequest) (resp : ServerResponse) :
      Reachable s → IsInt req.amount →
      Reachable (processDatabaseRequest req resp s).2
  | restart (s : ServerState) (name buildTime timeStr : List Char) :
      Reachable s → '\n' ∉ name → '\n' ∉ buildTime →
      Reachable (initializeServer name buildTime timeStr (some s.logFile))
  | shutdownRestart (s : ServerState) (name buildTime timeStr timeStr2 : List Char) :
      Reachable s → '\n' ∉ name → '\n' ∉ buildTime → '\n' ∉ timeStr →
      Reachable (initializeServer name buildTime timeStr2
        (some (cleanupServer name timeStr s)))

/-- The request opens an account: a deposit with the new-client flag. -/
def isOpen (req : TellerRequest) : Bool :=
  req.operation = OP_DEPOSIT ∧ req.isNewClient ≠ 0

/-- The ids returned by the successful opens among a sequence of requests. -/
def openedIds (s : ServerState) : List TellerRequest → List (List Char)
  | [] => []
  | req :: rest =>
    if isOpen req ∧ (processDatabaseRequest req zeroResponse s).1.status = 0 then
      (processDatabaseRequest req zeroResponse s).1.bankId ::
        openedIds (processDatabaseRequest req zeroResponse s).2 rest
    else openedIds (processDatabaseRequest req zeroResponse s).2 rest

/-- Invariant I1 of the specification for one account. -/
def I1 (a : Account) : Prop := a.active = true ↔ a.balance > 0

/-! ## The lines of a log written by the server -/

/-- What the server appends to its log, line by line: a line that replay
skips (a `#` header, the end marker, a blank line) or a record for the account
whose id is `generateBankId n`. -/
inductive LogEntry where
  | comment (line : List Char)
  | record (n : Int) (opType : Char) (amount balance : Int)

/-- The text of a log entry. -/
def LogEntry.render : LogEntry → List Char
  | .comment line => line
  | .record n opType amount balance => logRecord (generateBankId n) opType amount balance

/-- The account numbers of the records among the entries, in order. -/
def LogEntry.nums : List LogEntry → List Int
  | [] => []
  | .comment _ :: rest => LogEntry.nums rest
  | .record n _ _ _ :: rest => n :: LogEntry.nums rest

/-- A line that `fgets` returns whole: it ends with its only newline and fits
in the 256-byte buffer. -/
def GoodLine (l : List Char) : Prop :=
  ∃ body, l = body ++ ['\n'] ∧ '\n' ∉ body ∧ body.length < 255

/-- A blank line or a single-line `#` comment. -/
def CommentLine (l : List Char) : Prop :=
  l = ['\n'] ∨ ∃ body, l = '#' :: body ++ ['\n'] ∧ '\n' ∉ body ∧ body.length < 254

/-- A well-formed entry: a comment line, or a record with a positive account
number, operation `D` or `W`, and `int` amount and balance. -/
def LogEntry.Valid : LogEntry → Prop
  | .comment line => CommentLine line
  | .record n opType amount balance =>
    1 ≤ n ∧ IsInt n ∧ (opType = 'D' ∨ opType = 'W') ∧ IsInt amount ∧ IsInt balance

/-- Number of distinct accounts that have a record among the entries. -/
def LogEntry.distinct (es : List LogEntry) : Nat := (LogEntry.nums es).toFinset.card

/-- The invariant that links the globals of a running server with the entries
`es` of its log: every account id was issued by `generateBankId` for a number
in `1 .. lastClientId`, ids are pairwise different, every record belongs to an
account of the database, and `lastClientId` stays small. -/
structure LogInv (s : ServerState) (es : List LogEntry) : Prop where
  log_eq : s.logFile = (es.map LogEntry.render).flatten
  valid : ∀ e ∈ es, e.Valid
  rec_mem : ∀ n ∈ LogEntry.nums es, generateBankId n ∈ s.bankDb.accounts.map Account.bankId
  rec_le : ∀ n ∈ LogEntry.nums es, n ≤ 100 * (LogEntry.distinct es : Int)
  db_ids : ∀ a ∈ s.bankDb.accounts,
    ∃ n : Int, 1 ≤ n ∧ n ≤ s.lastClientId ∧ a.bankId = generateBankId n
  db_nodup : (s.bankDb.accounts.map Account.bankId).Nodup
  db_len : s.bankDb.accounts.length ≤ 100
  db_int : ∀ a ∈ s.bankDb.accounts, IsInt a.balance
  last_nonneg : 0 ≤ s.lastClientId
  last_le : s.lastClientId ≤ 99 * (LogEntry.distinct es : Int) + s.bankDb.accounts.length

/-- Loop invariant of `restoreDatabaseFromLog` after the records of the
accounts numbered `seen`: the accounts restored so far are exactly those. -/
structure RestoreInv (seen : List Int) (accounts : List Account) : Prop where
  ids : ∀ a ∈ accounts, ∃ n ∈ seen, a.bankId = generateBankId n
  nodup : (accounts.map Account.bankId).Nodup
  mem : ∀ n ∈ seen, generateBankId n ∈ accounts.map Account.bankId
  len : accounts.length ≤ seen.toFinset.card
  ints : ∀ a ∈ accounts, IsInt a.balance

/-- The loop of `readLogFile` on the account numbers of the records. -/
def maxNum (m : Int) (ns : List Int) : Int :=
  ns.foldl (fun m n => if n > m then n else m) m

/-- The exact sum of the amounts of a request sequence. -/
def totalAmount : List TellerRequest → Int
  | [] => 0
  | req :: rest => req.amount + totalAmount rest

/-- Every account satisfies I1 and has a balance between 0 and `bound`. -/
def BalancesOk (s : ServerState) (bound : Int) : Prop :=
  ∀ a ∈ s.bankDb.accounts, I1 a ∧ 0 ≤ a.balance ∧ a.balance ≤ bound

/-- Replaying the entries `es` of the log gives back the globals of the
running server: the same array of accounts and the same `lastClientId`. -/
structure ReplayInv (s : ServerState) (es : List LogEntry) : Prop where
  inv : LogInv s es
  restored :
    ((es.map (fun e => cstr e.render)).foldl restoreLine ([], 0)).1 = s.bankDb.accounts
  last : maxNum 0 (LogEntry.nums es) = s.lastClientId

/-! ## Client requests and the ingress loop (`waitForClients`) -/

/-- `MSG_OPERATION`. -/
def MSG_OPERATION : Int := 0

/-- `ClientRequest`: one record of the server FIFO. -/
structure ClientRequest where
  pid : Int
  msgType : Int
  op : Int
  amount : Int
  bankId : List Char
  isNewClient : Int
  batchSize : Int
  operationIndex : Int
deriving DecidableEq, Repr

/-- A request buffer after `memset(&req, 0, sizeof(ClientRequest))`. -/
def zeroRequest : ClientRequest :=
  { pid := 0, msgType := 0, op := 0, amount := 0, bankId := [], isNewClient := 0,
    batchSize := 0, operationIndex := 0 }

/-- `BatchInfo`: the descriptor of the batch being received. -/
structure BatchInfo where
  pid : Int
  total : Int
  received : Int
deriving DecidableEq, Repr

/-- The globals of the ingress loop: `currentBatch`, the array `batchRequests`
(a slot for every index), and the batches handed to the tellers so far: one
entry for every call of `processBatch` that passes its guard, holding the
records `batchRequests[0 .. received-1]` that the call serves. -/
structure IngressState where
  currentBatch : BatchInfo
  batchRequests : Nat → ClientRequest
  dispatched : List (List ClientRequest)

/-- The globals when `waitForClients` is entered. -/
def ingressInit : IngressState :=
  { currentBatch := { pid := 0, total := 0, received := 0 },
    batchRequests := fun _ => zeroRequest,
    dispatched := [] }

/-- `resetBatchInfo`. -/
def resetBatchInfo (_batch : BatchInfo) : BatchInfo :=
  { pid := 0, total := 0, received := 0 }

/-- The records `batchRequests[0 .. received-1]` of the current batch. -/
def batchRecords (st : IngressState) : List ClientRequest :=
  (List.range st.currentBatch.received.toNat).map st.batchRequests

/-- `processBatch` as the ingress loop sees it: it returns at once for
`pid == 0` or `received == 0`, and otherwise serves the records of the current
batch. -/
def processBatch (st : IngressState) : IngressState :=
  if st.currentBatch.pid = 0 ∨ st.currentBatch.received = 0 then st
  else { st with dispatched := st.dispatched ++ [batchRecords st] }

/-- Lines 315 to 332 of `waitForClients`, for a record that was read whole: a
record of another client (or the first record) flushes the batch in progress
and starts a new one; the record is stored if there is room.  (`received` is
below `MAX_BATCH_SIZE` when it is incremented.) -/
def storeRequest (st : IngressState) (req : ClientRequest) : IngressState :=
  let st1 :=
    if st.currentBatch.pid ≠ req.pid ∨ st.currentBatch.total = 0 then
      let st0 :=
        if st.currentBatch.pid ≠ 0 ∧ st.currentBatch.received > 0 then processBatch st
        else st
      { st0 with currentBatch := { pid := req.pid, total := req.batchSize, received := 0 } }
    else st
  if st1.currentBatch.received < (MAX_BATCH_SIZE : Int) then
    { st1 with
      batchRequests := fun i =>
        if i = st1.currentBatch.received.toNat then req else st1.batchRequests i,
      currentBatch := { st1.currentBatch with received := st1.currentBatch.received + 1 } }
  else st1

/-- Lines 334 to 339 of `waitForClients`: a batch that has all its records is
served and the descriptor is reset. -/
def completeBatch (st : IngressState) : IngressState :=
  if st.currentBatch.received ≥ st.currentBatch.total then
    { processBatch st with currentBatch := resetBatchInfo st.currentBatch }
  else st

/-- What one `read_mutually_exclusive` on the server FIFO delivers: a whole
record, or anything else (an error, an interruption, a short read). -/
inductive ReadResult where
  | record (req : ClientRequest)
  | failed

/-- One iteration of the read loop of `waitForClients`.  After a read that did
not deliver a whole record the loop is left, and the outer loop enters it again
after `resetBatchInfo(&currentBatch)`. -/
def ingressStep (st : IngressState) : ReadResult → IngressState
  | .record req => completeBatch (storeRequest st req)
  | .failed => { st with currentBatch := resetBatchInfo st.currentBatch }

/-- `waitForClients` on the successive results of its reads. -/
def waitForClients (st : IngressState) (reads : List ReadResult) : IngressState :=
  reads.foldl ingressStep st

/-- A complete batch: one to `MAX_BATCH_SIZE` records that carry the same
non-zero pid and the number of records as `batchSize`. -/
def CompleteBatch (b : List ClientRequest) : Prop :=
  1 ≤ b.length ∧ b.length ≤ MAX_BATCH_SIZE ∧
    ∃ pid : Int, pid ≠ 0 ∧ ∀ r ∈ b, r.pid = pid ∧ r.batchSize = (b.length : Int)

/-! ## The client (`BankClient.c`) -/

/-- `ClientOperation`: one parsed line of the client file. -/
structure ClientOperation where
  operation : List Char
  amount : Int
  bankId : List Char
deriving DecidableEq, Repr

/-- `isNewClient`: `strcmp(bankId, "N") == 0`. -/
def isNewClient (bankId : List Char) : Int := if bankId = ['N'] then 1 else 0

/-- Result of one `write(serverFd, &req, sizeof(ClientRequest))`: the whole
record, a failure with `EAGAIN` or `EINTR`, or any other failure. -/
inductive WriteResult where
  | whole
  | temporary
  | permanent
deriving DecidableEq, Repr

/-- The loop `while (retries--)` around the write of one record; `results j`
is the result of the call number `j`.  True if the record was written. -/
def writeWithRetries (results : Nat → WriteResult) : Nat → Nat → Bool
  | 0, _ => false
  | retries + 1, j =>
    match results j with
    | .whole => true
    | .temporary => writeWithRetries results retries (j + 1)
    | .permanent => false

/-- The request that `sendOperationBatch` sets up for `operations[i]`; `none`
when the operation is neither `deposit` nor `withdraw` (the loop goes on with
the next operation). -/
def buildRequest (pid numOperations : Int) (i : Nat) (op : ClientOperation) :
    Option ClientRequest :=
  let req : ClientRequest :=
    { zeroRequest with
      pid := pid, msgType := MSG_OPERATION, isNewClient := isNewClient op.bankId,
      batchSize := numOperations, operationIndex := (i : Int) + 1 }
  let bankId := if req.isNewClient ≠ 0 then req.bankId else op.bankId.take 19
  if op.operation = "deposit".toList then
    some { req with op := OP_DEPOSIT, amount := op.amount, bankId := bankId }
  else if op.operation = "withdraw".toList then
    some { req with op := OP_WITHDRAW, amount := op.amount, bankId := bankId }
  else none

/-- The sending loop of `sendOperationBatch` from index `i` on: the records
written to the server FIFO, in order.  `writes i j` is the result of the call
number `j` of `write` for `operations[i]`. -/
def sendLoop (pid numOperations : Int) (writes : Nat → Nat → WriteResult) :
    Nat → List ClientOperation → List ClientRequest
  | _, [] => []
  | i, op :: rest =>
    match buildRequest pid numOperations i op with
    | none => sendLoop pid numOperations writes (i + 1) rest
    | some req =>
      if writeWithRetries (writes i) 3 0 then
        req :: sendLoop pid numOperations writes (i + 1) rest
      else sendLoop pid numOperations writes (i + 1) rest

/-- `sendOperationBatch`: the records that the client with process id `pid`
writes to the server FIFO for its parsed operations. -/
def sendOperationBatch (pid : Int) (writes : Nat → Nat → WriteResult)
    (operations : List ClientOperation) : List ClientRequest :=
  sendLoop pid (operations.length : Int) writes 0 operations

/-! ## Tellers (`processBatch`, `tellerProcess`) -/

/-- The teller that `processBatch` starts for a request: `depositTeller` for
`OP_DEPOSIT`, `withdrawTeller` for every other code.  The value is the argument
`isDeposit` that `tellerProcess` receives. -/
def tellerFor (req : ClientRequest) : Bool := req.op = OP_DEPOSIT

/-- Outcomes of the system calls of one teller: whether the client FIFO could
be opened, whether `select` found the pipe to the dispatcher writable, whether
the `TellerRequest` was written whole, whether `select` saw the reply in time,
whether the reply was read whole, and what a short read left in the buffer. -/
structure TellerCalls where
  fifoOpened : Bool
  writeReady : Bool
  requestWritten : Bool
  replyReady : Bool
  replyRead : Bool
  shortReply : ServerResponse

/-- What a teller has done when it exits: the `TellerRequest` that reached the
dispatcher (if any), the responses it wrote to the client FIFO, and its exit
status. -/
structure TellerRun where
  sent : Option TellerRequest
  responses : List ServerResponse
  exitCode : Int
deriving DecidableEq, Repr

/-- The `TellerRequest` that `tellerProcess` prepares. -/
def tellerRequest (req : ClientRequest) (isDeposit : Bool) : TellerRequest :=
  { operation := if isDeposit then OP_DEPOSIT else OP_WITHDRAW,
    bankId := req.bankId.take 19,
    amount := req.amount,
    isNewClient := req.isNewClient,
    clientPid := req.pid,
    clientIndex := req.operationIndex }

/-- A response that the teller makes up itself. -/
def tellerError (req : ClientRequest) (text : List Char) : ServerResponse :=
  { zeroResponse with
    status := ERR_INVALID_OPERATION, message := text, clientIndex := req.operationIndex }

/-- `tellerProcess(arg, isDeposit)` for valid arguments; `reply` is the
response that the dispatcher writes back when it has received the request. -/
def tellerProcess (calls : TellerCalls) (reply : ServerResponse) (req : ClientRequest)
    (isDeposit : Bool) : TellerRun :=
  if calls.fifoOpened = false then { sent := none, responses := [], exitCode := 2 }
  else if isDeposit = false ∧ req.isNewClient ≠ 0 then
    { sent := none,
      responses :=
        [tellerError req "New clients cannot withdraw. Please deposit first.".toList],
      exitCode := 0 }
  else if calls.writeReady = false then
    { sent := none,
      responses := [tellerError req "Server communication error".toList],
      exitCode := 3 }
  else if calls.requestWritten = false then
    { sent := none,
      responses := [tellerError req "Failed to communicate with server".toList],
      exitCode := 4 }
  else if calls.replyReady = false then
    { sent := some (tellerRequest req isDeposit),
      responses := [tellerError req "Server response timeout".toList],
      exitCode := 0 }
  else if calls.replyRead = false then
    { sent := some (tellerRequest req isDeposit),
      responses :=
        [{ calls.shortReply with
           status := ERR_INVALID_OPERATION,
           message := "Error reading server response".toList,
           clientIndex := req.operationIndex }],
      exitCode := 0 }
  else
    { sent := some (tellerRequest req isDeposit), responses := [reply], exitCode := 0 }

/-- System calls that all succeed. -/
def allCallsSucceed : TellerCalls :=
  { fifoOpened := true, writeReady := true, requestWritten := true, replyReady := true,
    replyRead := true, shortReply := zeroResponse }

/-- The server path of one request of a batch: `processBatch` picks the
teller; if the teller gets its `TellerRequest` through, the dispatcher serves
it with `processDatabaseRequest` on a zeroed response and writes the response
back; the teller answers the client. -/
def serveClientRequest (calls : TellerCalls) (req : ClientRequest) (s : ServerState) :
    TellerRun × ServerState :=
  match (tellerProcess calls zeroResponse req (tellerFor req)).sent with
  | none => (tellerProcess calls zeroResponse req (tellerFor req), s)
  | some teller_req =>
    (tellerProcess calls (processDatabaseRequest teller_req zeroResponse s).1 req
        (tellerFor req),
      (processDatabaseRequest teller_req zeroResponse s).2)

/-- A deposit record of a batch. -/
def sampleRecord (pid batchSize operationIndex : Int) : ClientRequest :=
  { pid := pid, msgType := MSG_OPERATION, op := OP_DEPOSIT, amount := 10, bankId := [],
    isNewClient := 1, batchSize := batchSize, operationIndex := operationIndex }

/-- The globals after the first record of a batch of three of the client with
pid 7. -/
def sampleBatchState : IngressState :=
  waitForClients ingressInit [ReadResult.record (sampleRecord 7 3 1)]

/-! ## Replay as a function of the records of the log -/

/-- A text that is empty or ends with a newline: appending to it starts a new
line. -/
def Terminated (t : List Char) : Prop := t = [] ∨ ∃ p, t = p ++ ['\n']

/-- What the loop body of `restoreDatabaseFromLog` reads from a line: the id
and the balance, when the line is not skipped and `sscanf` returns 4. -/
def parsedRecord (line : List Char) : Option (List Char × Int) :=
  if line.head? = some '#' ∨ line.length ≤ 1 then none
  else
    match sscanfRecord line with
    | none => none
    | some (bankId, _, _, balance) => some (bankId, balance)

/-- The loop body of `restoreDatabaseFromLog` after a successful `sscanf`. -/
def restoreRecord (st : List Account × Int) (bankId : List Char) (balance : Int) :
    List Account × Int :=
  match findById st.1 bankId with
  | some index => restoreBalance st.1 st.2 index balance
  | none =>
    if st.1.length ≥ 100 then st
    else
      restoreBalance
        (st.1 ++ [{ bankId := bankId.take 19, balance := 0, active := true }])
        st.2 st.1.length balance

/-- The records of a log, in order: id and balance of every line from which
`restoreDatabaseFromLog` reads its four fields. -/
def logRecords (text : List Char) : List (List Char × Int) :=
  (fileLines text).filterMap parsedRecord

/-- The ids of a sequence in order of first occurrence. -/
def firstOccurrences (ids : List (List Char)) : List (List Char) :=
  ids.foldl (fun seen id => if id ∈ seen then seen else seen ++ [id]) []

/-- The balance of the last record for an id (0 if there is none). -/
def lastBalance (recs : List (List Char × Int)) (bankId : List Char) : Int :=
  (((recs.filter (fun r => r.1 = bankId)).getLast?).map Prod.snd).getD 0

/-- No record for the id has balance 0. -/
def neverZero (recs : List (List Char × Int)) (bankId : List Char) : Bool :=
  (recs.filter (fun r => r.1 = bankId)).all (fun r => r.2 ≠ 0)

/-- Replay stated on the records: one account for each of the first 100 ids, in
order of first occurrence, with the balance of the last record for the id,
active if no record for the id has balance 0. -/
def replayedAccounts (recs : List (List Char × Int)) : List Account :=
  ((firstOccurrences (recs.map Prod.fst)).take 100).map
    (fun id => { bankId := id, balance := lastBalance recs id, active := neverZero recs id })

/-- A line that the loop of `restoreDatabaseFromLog` passes over: a `#` line, a
blank line, or a line from which `sscanf` does not read four fields. -/
def IgnoredByRestore (line : List Char) : Prop :=
  line.head? = some '#' ∨ line = ['\n'] ∨ sscanfRecord (cstr line) = none

/-- A line that the loop of `readLogFile` passes over: a `#` line, a line of at
most 10 characters (newline included), or a line that does not begin with
`BankID_` and a number. -/
def IgnoredByReadLog (line : List Char) : Prop :=
  line.head? = some '#' ∨ line.length ≤ 10 ∨ sscanfBankId (cstr line) = none

/-- Id and balance of the records among the entries, in order. -/
def LogEntry.records : List LogEntry → List (List Char × Int)
  | [] => []
  | .comment _ :: rest => LogEntry.records rest
  | .record n _ _ balance :: rest => (generateBankId n, balance) :: LogEntry.records rest

/-- The text of a log made of the given entries. -/
def LogEntry.text (es : List LogEntry) : List Char := (es.map LogEntry.render).flatten

/-- The number that the loop body of `readLogFile` reads from a line: the line
does not start with `#`, is longer than 10 characters, and begins with
`BankID_` and a number. -/
def lineNumber (line : List Char) : Option Int :=
  if line.head? ≠ some '#' ∧ line.length > 10 then sscanfBankId line else none

/-- The numbers that `readLogFile` reads from a log, line by line. -/
def lineNumbers (text : List Char) : List Int := (fileLines text).filterMap lineNumber

/-- The lines that the loop of `cleanupServer` writes, one by one. -/
def snapshotLineList (accounts : List Account) : List (List Char) :=
  (accounts.filter (fun a => a.active)).map (fun a => logRecord a.bankId 'D' 0 a.balance)

/-- The first word of a line, as `%s` reads it. -/
def firstWord (line : List Char) : List Char := (scanToken (skipSpaces line)).1

/-- Every id that `restoreDatabaseFromLog` reads with `%s` fits its 20-byte
buffer `bankId`: in every line of the log that is not skipped, the first word
has at most 19 characters.  (With a longer word `sscanf` writes beyond the
buffer, and the behaviour of the C code is undefined.) -/
def IdsFit (text : List Char) : Prop :=
  ∀ line ∈ fileLines text,
    line.head? = some '#' ∨ line.length ≤ 1 ∨ (firstWord line).length ≤ 19

instance (text : List Char) : Decidable (IdsFit text) := by
  unfold IdsFit; exact inferInstance

/-! ## Processing a response in the client (`processResponse`) -/

/-- Which of the three `printf` calls of `processResponse` is executed. -/
inductive ClientReport where
  | accountClosed
  | served (bankId : List Char)
  | wentWrong (message : List Char)
deriving DecidableEq, Repr

/-- The line that `processResponse` prints for a report:
`"Client%02d served.. account closed\n"`, `"Client%02d served.. %s\n"` or
`"Client%02d something went WRONG: %s\n"`. -/
def reportLine (clientIndex : Int) : ClientReport → List Char
  | .accountClosed =>
    "Client".toList ++ fmtInt02 clientIndex ++ " served.. account closed\n".toList
  | .served bankId =>
    "Client".toList ++ fmtInt02 clientIndex ++ " served.. ".toList ++ bankId ++ ['\n']
  | .wentWrong message =>
    "Client".toList ++ fmtInt02 clientIndex ++ " something went WRONG: ".toList ++ message
      ++ ['\n']

/-- What `processResponse` has done when it returns: the report, the line
printed and the operation record. -/
structure ProcessedResponse where
  report : ClientReport
  printed : List Char
  op : ClientOperation
deriving DecidableEq, Repr

/-- `processResponse(resp, op, clientIndex)`. -/
def processResponse (resp : ServerResponse) (op : ClientOperation) (clientIndex : Int) :
    ProcessedResponse :=
  if resp.status = 0 then
    if resp.balance = 0 ∧ op.operation = "withdraw".toList then
      { report := .accountClosed, printed := reportLine clientIndex .accountClosed, op := op }
    else
      { report := .served resp.bankId,
        printed := reportLine clientIndex (.served resp.bankId),
        op := if op.bankId = ['N'] then { op with bankId := resp.bankId.take 19 } else op }
  else
    { report := .wentWrong resp.message,
      printed := reportLine clientIndex (.wentWrong resp.message),
      op := op }

/-! ## Record lines, in the words of the log format -/

/-- A run of white space (possibly empty). -/
def Blank (s : List Char) : Prop := ∀ c ∈ s, isspace c = true

/-- A word: a non-empty run of characters that are not white space. -/
def Word (s : List Char) : Prop := s ≠ [] ∧ ∀ c ∈ s, isspace c = false

/-- The number that a run of decimal digits writes. -/
def decimalValue (ds : List Char) : Nat :=
  ds.foldl (fun acc c => acc * 10 + (c.toNat - 48)) 0

/-- A decimal numeral, that is an optional sign followed by at least one digit,
and the `int` that `%d` stores for it. -/
def Numeral (s : List Char) (v : Int) : Prop :=
  ∃ ds : List Char, ds ≠ [] ∧ (∀ c ∈ ds, isdigit c = true) ∧
    ((s = ds ∧ v = scanfInt (decimalValue ds)) ∨
     (s = '+' :: ds ∧ v = scanfInt (decimalValue ds)) ∨
     (s = '-' :: ds ∧ v = scanfInt (-(decimalValue ds : Int))))

/-- A record line with the given id and balance: a line that does not start
with `#`, has more than one character, and consists of optional white space,
the id (a word), white space, one character that is not white space (the
operation), optional white space, a numeral (the amount), optional white
space, a numeral (the balance), and a rest that does not continue the balance.
The two numerals are separate: what follows the amount does not start with a
digit. -/
def IsRecordLine (line id : List Char) (balance : Int) : Prop :=
  line.head? ≠ some '#' ∧ 1 < line.length ∧
  ∃ (ws0 ws1 ws2 n1 ws3 n2 rest : List Char) (op : Char) (amount : Int),
    line = ws0 ++ (id ++ (ws1 ++ op :: (ws2 ++ (n1 ++ (ws3 ++ (n2 ++ rest)))))) ∧
    Blank ws0 ∧ Word id ∧ Blank ws1 ∧ ws1 ≠ [] ∧ isspace op = false ∧
    Blank ws2 ∧ Numeral n1 amount ∧ Blank ws3 ∧ Numeral n2 balance ∧
    (∀ c ∈ (ws3 ++ n2).head?, isdigit c = false) ∧
    (∀ c ∈ rest.head?, isdigit c = false)

theorem wrapInt_of_isInt {x : Int} (h : IsInt x) : wrapInt x = x := by
  unfold IsInt INT_MIN INT_MAX at h
  unfold wrapInt
  omega

theorem isInt_wrapInt (x : Int) : IsInt (wrapInt x) := by
  unfold IsInt INT_MIN INT_MAX wrapInt
  omega

theorem scanfInt_of_isInt {x : Int} (h : IsInt x) : scanfInt x = x := by
  unfold IsInt INT_MIN INT_MAX at h
  unfold scanfInt LONG_MAX LONG_MIN
  rw [if_neg (by omega), if_neg (by omega)]
  exact wrapInt_of_isInt (by unfold IsInt INT_MIN INT_MAX; omega)

theorem isInt_scanfInt (x : Int) : IsInt (scanfInt x) := by
  unfold scanfInt
  exact isInt_wrapInt _

theorem findAccountIn_some {l : List Account} {bankId : List Char} {k : Nat}
    (h : findAccountIn l bankId = some k) :
    ∃ a, l[k]? = some a ∧ a.active = true ∧ a.bankId = bankId := by
  induction l generalizing k with
  | nil => simp [findAccountIn] at h
  | cons a rest ih =>
    unfold findAccountIn at h
    split at h
    · rename_i hc
      cases h
      exact ⟨a, by simp, hc.1, hc.2⟩
    · cases hr : findAccountIn rest bankId with
      | none => simp [hr] at h
      | some j =>
        simp [hr] at h
        subst h
        obtain ⟨b, hb, hact, hid⟩ := ih hr
        exact ⟨b, by simpa using hb, hact, hid⟩

theorem findAccountIn_none {l : List Account} {bankId : List Char} :
    findAccountIn l bankId = none ↔ ∀ a ∈ l, a.bankId = bankId → a.active = false := by
  induction l with
  | nil => simp [findAccountIn]
  | cons a rest ih =>
    unfold findAccountIn
    by_cases hc : a.active = true ∧ a.bankId = bankId
    · simp only [hc, and_self, if_true]
      constructor
      · intro h; cases h
      · intro h
        have := h a (List.mem_cons_self _ _) hc.2
        simp [hc.1] at this
    · simp only [hc, if_false, Option.map_eq_none', ih, List.mem_cons, forall_eq_or_imp]
      constructor
      · intro h
        refine ⟨?_, h⟩
        intro hid
        cases hact : a.active with
        | false => rfl
        | true => exact absurd ⟨hact, hid⟩ hc
      · intro h; exact h.2

theorem balanceAt_eq {l : List Account} {k : Nat} {a : Account} (h : l[k]? = some a) :
    balanceAt l k = a.balance := by
  induction l generalizing k with
  | nil => simp at h
  | cons b rest ih =>
    cases k with
    | zero => simp at h; simp [balanceAt, h]
    | succ j => simp at h; simpa [balanceAt] using ih h

theorem bankIdAt_eq {l : List Account} {k : Nat} {a : Account} (h : l[k]? = some a) :
    bankIdAt l k = a.bankId := by
  induction l generalizing k with
  | nil => simp at h
  | cons b rest ih =>
    cases k with
    | zero => simp at h; simp [bankIdAt, h]
    | succ j => simp at h; simpa [bankIdAt] using ih h

theorem activeAt_eq {l : List Account} {k : Nat} {a : Account} (h : l[k]? = some a) :
    activeAt l k = a.active := by
  induction l generalizing k with
  | nil => simp at h
  | cons b rest ih =>
    cases k with
    | zero => simp at h; simp [activeAt, h]
    | succ j => simp at h; simpa [activeAt] using ih h

theorem modifyAt_eq_set (f : Account → Account) {l : List Account} {k : Nat} {a : Account}
    (h : l[k]? = some a) : modifyAt f l k = l.set k (f a) := by
  induction l generalizing k with
  | nil => simp at h
  | cons b rest ih =>
    cases k with
    | zero => simp at h; simp [modifyAt, h]
    | succ j => simp at h; simp [modifyAt, ih h]

theorem modifyAt_map_bankId (f : Account → Account) (hf : ∀ a, (f a).bankId = a.bankId)
    (l : List Account) (k : Nat) :
    (modifyAt f l k).map Account.bankId = l.map Account.bankId := by
  induction l generalizing k with
  | nil => simp [modifyAt]
  | cons b rest ih =>
    cases k with
    | zero => simp [modifyAt, hf]
    | succ j => simp [modifyAt, ih]

theorem modifyAt_length (f : Account → Account) (l : List Account) (k : Nat) :
    (modifyAt f l k).length = l.length := by
  induction l generalizing k with
  | nil => simp [modifyAt]
  | cons b rest ih =>
    cases k with
    | zero => simp [modifyAt]
    | succ j => simp [modifyAt, ih]

theorem findAccountIn_modifyAt (f : Account → Account)
    (hid : ∀ a, (f a).bankId = a.bankId) (hact : ∀ a, (f a).active = a.active)
    (l : List Account) (k : Nat) (bankId : List Char) :
    findAccountIn (modifyAt f l k) bankId = findAccountIn l bankId := by
  induction l generalizing k with
  | nil => simp [modifyAt]
  | cons b rest ih =>
    cases k with
    | zero => simp [modifyAt, findAccountIn, hid, hact]
    | succ j => simp [modifyAt, findAccountIn, ih]

/-! ## Withdrawals -/

/-- C6: a withdrawal of `0 < a ≤ b` from the active account that id `i`
designates (balance `b`) returns status 0, balance `b - a` and id `i`; the
stored balance becomes `b - a` and the account becomes inactive exactly when
`b - a = 0`. -/
theorem withdraw_success (s : ServerState) (req : TellerRequest) (resp : ServerResponse)
    (k : Nat) (b : Int)
    (hop : req.operation = OP_WITHDRAW)
    (hacc : s.bankDb.accounts[k]? = some { bankId := req.bankId, balance := b, active := true })
    (hkey : findAccount s req.bankId = some k)
    (hb : b ≤ INT_MAX) (hpos : 0 < req.amount) (hle : req.amount ≤ b) :
    (processDatabaseRequest req resp s).1.status = 0 ∧
    (processDatabaseRequest req resp s).1.balance = b - req.amount ∧
    (processDatabaseRequest req resp s).1.bankId = req.bankId ∧
    ∃ acc, (processDatabaseRequest req resp s).2.bankDb.accounts[k]? = some acc ∧
      acc.bankId = req.bankId ∧ acc.balance = b - req.amount ∧
      (acc.active = false ↔ b - req.amount = 0) := by
  have hw : wrapInt (b - req.amount) = b - req.amount := by
    apply wrapInt_of_isInt
    unfold IsInt INT_MIN
    unfold INT_MAX at *
    omega
  have hk : k < s.bankDb.accounts.length := by
    rcases Nat.lt_or_ge k s.bankDb.accounts.length with h | h
    · exact h
    · rw [List.getElem?_eq_none h] at hacc; cases hacc
  have hbal := balanceAt_eq hacc
  simp only at hbal
  have hne : OP_WITHDRAW ≠ OP_DEPOSIT := by decide
  have hnlt : ¬ (b < req.amount) := by omega
  have hge : 0 ≤ b - req.amount := by omega
  simp only [findAccount] at hkey
  by_cases hz : b - req.amount = 0
  · have hfind2 : findAccountIn
        (modifyAt (fun a => { a with balance := 0 }) s.bankDb.accounts k) req.bankId
        = some k := by
      rw [findAccountIn_modifyAt (fun a => { a with balance := 0 })
        (fun _ => rfl) (fun _ => rfl)]
      exact hkey
    have hget2 : (modifyAt (fun a => { a with balance := 0 }) s.bankDb.accounts k)[k]?
        = some { bankId := req.bankId, balance := 0, active := true } := by
      rw [modifyAt_eq_set _ hacc]
      simp [hk]
    have hw0 : wrapInt (b - req.amount) = 0 := by rw [hw, hz]
    simp only [processDatabaseRequest, hop, hne, if_false, if_true, hkey,
      withdrawFromAccount, hbal, hnlt, hw0, ge_iff_le, le_refl, setMessage,
      removeAccount, findAccount, hfind2]
    refine ⟨trivial, hz.symm, trivial, ?_⟩
    rw [modifyAt_eq_set _ hget2]
    refine ⟨{ bankId := req.bankId, balance := 0, active := false }, ?_, rfl, hz.symm, ?_⟩
    · simp [modifyAt_length, hk]
    · simp [hz]
  · simp only [processDatabaseRequest, hop, hne, if_false, if_true, hkey,
      withdrawFromAccount, hbal, hnlt, hw, hz, hge, setMessage, findAccount, ge_iff_le]
    refine ⟨trivial, trivial, trivial, ?_⟩
    rw [modifyAt_eq_set _ hacc]
    refine ⟨{ bankId := req.bankId, balance := b - req.amount, active := true },
      ?_, rfl, rfl, ?_⟩
    · simp [hk]
    · simp [hz]

/-- Witness of `withdraw_success`: withdrawing the whole balance 500 of
`BankID_01` closes the account. -/
theorem withdraw_success_witness :
    (processDatabaseRequest (withdrawReq "BankID_01".toList 500) zeroResponse
      { bankDb := { accounts := [{ bankId := "BankID_01".toList, balance := 500,
                                   active := true }] },
        lastClientId := 1, logFile := [] }).1.balance = 500 - 500 :=
  (withdraw_success
      { bankDb := { accounts := [{ bankId := "BankID_01".toList, balance := 500,
                                   active := true }] },
        lastClientId := 1, logFile := [] }
      (withdrawReq "BankID_01".toList 500) zeroResponse 0 500
      rfl rfl (by decide) (by decide) (by decide) (by decide)).2.1

/-- C7: a withdrawal of more than the balance of the active account that the
id designates returns `ERR_INSUFFICIENT_FUNDS` (-1) and changes nothing: the
database, `lastClientId` and the log are as before. -/
theorem withdraw_insufficient (s : ServerState) (req : TellerRequest) (resp : ServerResponse)
    (k : Nat) (b : Int)
    (hop : req.operation = OP_WITHDRAW)
    (hacc : s.bankDb.accounts[k]? = some { bankId := req.bankId, balance := b, active := true })
    (hkey : findAccount s req.bankId = some k)
    (hgt : req.amount > b) :
    (processDatabaseRequest req resp s).1.status = ERR_INSUFFICIENT_FUNDS ∧
    (processDatabaseRequest req resp s).1.status = -1 ∧
    (processDatabaseRequest req resp s).2 = s := by
  have hbal := balanceAt_eq hacc
  simp only at hbal
  have hne : OP_WITHDRAW ≠ OP_DEPOSIT := by decide
  have hlt : b < req.amount := hgt
  have hneg : ¬ (0 ≤ ERR_INSUFFICIENT_FUNDS) := by decide
  simp only [findAccount] at hkey
  simp only [processDatabaseRequest, hop, hne, if_false, if_true, hkey,
    withdrawFromAccount, hbal, hlt, findAccount, ge_iff_le, hneg]
  exact ⟨trivial, rfl, trivial⟩

/-- Witness of `withdraw_insufficient`: withdrawing 501 (balance + 1) from an
account holding 500 is rejected. -/
theorem withdraw_insufficient_witness :
    (processDatabaseRequest (withdrawReq "BankID_02".toList 501) zeroResponse
      { bankDb := { accounts := [{ bankId := "BankID_02".toList, balance := 500,
                                   active := true }] },
        lastClientId := 2, logFile := [] }).1.status = -1 :=
  (withdraw_insufficient
      { bankDb := { accounts := [{ bankId := "BankID_02".toList, balance := 500,
                                   active := true }] },
        lastClientId := 2, logFile := [] }
      (withdrawReq "BankID_02".toList 501) zeroResponse 0 500
      rfl rfl (by decide) (by decide)).2.1

/-! ## Unknown and closed accounts -/

/-- C8: a deposit without the new-client flag, or a withdrawal, whose target id
belongs to no account or only to inactive (closed) accounts, is answered with
`ERR_INVALID_ACCOUNT` (-3) and changes nothing: the database, `lastClientId`
and the log are as before. -/
theorem no_account (s : ServerState) (req : TellerRequest) (resp : ServerResponse)
    (hop : (req.operation = OP_DEPOSIT ∧ req.isNewClient = 0) ∨ req.operation = OP_WITHDRAW)
    (hno : ∀ a ∈ s.bankDb.accounts, a.bankId = req.bankId → a.active = false) :
    (processDatabaseRequest req resp s).1.status = ERR_INVALID_ACCOUNT ∧
    (processDatabaseRequest req resp s).1.status = -3 ∧
    (processDatabaseRequest req resp s).2 = s := by
  have hfind : findAccountIn s.bankDb.accounts req.bankId = none :=
    findAccountIn_none.mpr hno
  have hne : OP_WITHDRAW ≠ OP_DEPOSIT := by decide
  rcases hop with ⟨hd, hn⟩ | hw
  · simp only [processDatabaseRequest, hd, hn, if_true, ne_eq, not_true_eq_false,
      if_false, findAccount, hfind]
    exact ⟨trivial, rfl, trivial⟩
  · simp only [processDatabaseRequest, hw, hne, if_true, if_false, findAccount, hfind]
    exact ⟨trivial, rfl, trivial⟩

/-- Witness of `no_account`: `BankID_99 deposit 10` on a database that holds
only the closed account `BankID_01`. -/
theorem no_account_witness :
    (processDatabaseRequest (depositReq "BankID_99".toList 10) zeroResponse
      { bankDb := { accounts := [{ bankId := "BankID_01".toList, balance := 0,
                                   active := false }] },
        lastClientId := 1, logFile := [] }).1.status = -3 :=
  (no_account
      { bankDb := { accounts := [{ bankId := "BankID_01".toList, balance := 0,
                                   active := false }] },
        lastClientId := 1, logFile := [] }
      (depositReq "BankID_99".toList 10) zeroResponse
      (Or.inl ⟨rfl, rfl⟩) (by decide)).2.1

/-! ## Deposits -/

/-- C9, as the claim states it, fails: a deposit of 1 to an active account
holding `INT_MAX` is answered with `ERR_INVALID_OPERATION`, and the stored
balance becomes `INT_MIN`, not `INT_MAX + 1`. -/
theorem deposit_overflow_counterexample :
    (processDatabaseRequest (depositReq "BankID_01".toList 1) zeroResponse
      { bankDb := { accounts := [{ bankId := "BankID_01".toList, balance := 2147483647,
                                   active := true }] },
        lastClientId := 1, logFile := [] }).1.status = ERR_INVALID_OPERATION ∧
    (processDatabaseRequest (depositReq "BankID_01".toList 1) zeroResponse
      { bankDb := { accounts := [{ bankId := "BankID_01".toList, balance := 2147483647,
                                   active := true }] },
        lastClientId := 1, logFile := [] }).2.bankDb.accounts
      = [{ bankId := "BankID_01".toList, balance := -2147483648, active := true }] := by
  decide

/-- C9 (amended): a deposit of `a > 0` to the active account that id `i`
designates (balance `b`), with `0 ≤ b + a ≤ INT_MAX`, returns status 0, id `i`
and balance `b + a`; the stored balance becomes `b + a` and the account stays
active. -/
theorem deposit_success (s : ServerState) (req : TellerRequest) (resp : ServerResponse)
    (k : Nat) (b : Int)
    (hop : req.operation = OP_DEPOSIT) (hnew : req.isNewClient = 0)
    (hacc : s.bankDb.accounts[k]? = some { bankId := req.bankId, balance := b, active := true })
    (hkey : findAccount s req.bankId = some k)
    (_hpos : 0 < req.amount) (hlo : 0 ≤ b + req.amount) (hhi : b + req.amount ≤ INT_MAX) :
    (processDatabaseRequest req resp s).1.status = 0 ∧
    (processDatabaseRequest req resp s).1.bankId = req.bankId ∧
    (processDatabaseRequest req resp s).1.balance = b + req.amount ∧
    (processDatabaseRequest req resp s).2.bankDb.accounts[k]?
      = some { bankId := req.bankId, balance := b + req.amount, active := true } := by
  have hw : wrapInt (b + req.amount) = b + req.amount := by
    apply wrapInt_of_isInt
    unfold IsInt INT_MIN
    unfold INT_MAX at *
    omega
  have hk : k < s.bankDb.accounts.length := by
    rcases Nat.lt_or_ge k s.bankDb.accounts.length with h | h
    · exact h
    · rw [List.getElem?_eq_none h] at hacc; cases hacc
  have hbal := balanceAt_eq hacc
  simp only at hbal
  simp only [findAccount] at hkey
  simp only [processDatabaseRequest, hop, hnew, if_true, ne_eq, not_true_eq_false,
    if_false, findAccount, hkey, depositToAccount, hbal, hw, ge_iff_le, hlo, setMessage]
  refine ⟨trivial, trivial, trivial, ?_⟩
  rw [modifyAt_eq_set _ hacc]
  simp [hk]

/-- Witness of `deposit_success`: 200 deposited on top of 300 gives 500. -/
theorem deposit_success_witness :
    (processDatabaseRequest (depositReq "BankID_01".toList 200) zeroResponse
      { bankDb := { accounts := [{ bankId := "BankID_01".toList, balance := 300,
                                   active := true }] },
        lastClientId := 1, logFile := [] }).1.balance = 300 + 200 :=
  (deposit_success
      { bankDb := { accounts := [{ bankId := "BankID_01".toList, balance := 300,
                                   active := true }] },
        lastClientId := 1, logFile := [] }
      (depositReq "BankID_01".toList 200) zeroResponse 0 300
      rfl rfl rfl (by decide) (by decide) (by decide) (by decide)).2.2.1

/-! ## Opening an account -/

theorem natDigitsAux_length (k : Nat) : ∀ (fuel n : Nat) (acc : List Char),
    n < 10 ^ (k + 1) → (natDigitsAux fuel n acc).length ≤ acc.length + (k + 1) := by
  induction k with
  | zero =>
    intro fuel n acc h
    cases fuel with
    | zero => simp [natDigitsAux]
    | succ f =>
      have h10 : n < 10 := by simpa using h
      simp [natDigitsAux, h10]
  | succ k ih =>
    intro fuel n acc h
    cases fuel with
    | zero => simp [natDigitsAux]
    | succ f =>
      unfold natDigitsAux
      split
      · simp
      · have hdiv : n / 10 < 10 ^ (k + 1) := by
          rw [Nat.div_lt_iff_lt_mul (by decide)]
          rw [pow_succ] at h
          exact h
        have := ih f (n / 10) (digitChar (n % 10) :: acc) hdiv
        simp at this
        omega

theorem natDigits_length_le {n : Nat} (h : n < 10000000000) : (natDigits n).length ≤ 10 := by
  have := natDigitsAux_length 9 (n + 1) n [] (by norm_num; exact h)
  simpa [natDigits] using this

theorem fmtInt02_length_le {x : Int} (h : IsInt x) : (fmtInt02 x).length ≤ 11 := by
  unfold IsInt INT_MIN INT_MAX at h
  unfold fmtInt02
  split
  · have := @natDigits_length_le (-x).toNat (by omega)
    simp; omega
  · split
    · have := natDigitsAux_length 0 (x.toNat + 1) x.toNat [] (by omega)
      simp [natDigits] at *
      omega
    · have := @natDigits_length_le x.toNat (by omega)
      omega

theorem generateBankId_eq {x : Int} (h : IsInt x) :
    generateBankId x = bankIdPrefix ++ fmtInt02 x := by
  unfold generateBankId
  apply List.take_of_length_le
  have := fmtInt02_length_le h
  simp [bankIdPrefix]
  omega

theorem bankIdAt_append_length (l : List Account) (a : Account) :
    bankIdAt (l ++ [a]) l.length = a.bankId :=
  bankIdAt_eq (by simp)

theorem balanceAt_append_length (l : List Account) (a : Account) :
    balanceAt (l ++ [a]) l.length = a.balance :=
  balanceAt_eq (by simp)

/-- C10: on a database holding fewer than 100 accounts (and with
`lastClientId + 1` representable as an `int`), a new-client deposit of `a > 0`
returns status 0, the id `BankID_` followed by `lastClientId + 1` printed with
`%02d`, and balance `a`; it appends exactly one active account with that id and
balance `a` at the end of the collection and increments `lastClientId` by one. -/
theorem open_by_deposit (s : ServerState) (req : TellerRequest) (resp : ServerResponse)
    (hop : req.operation = OP_DEPOSIT) (hnew : req.isNewClient ≠ 0)
    (hcap : s.bankDb.numAccounts < 100) (_hpos : 0 < req.amount)
    (hlo : INT_MIN ≤ s.lastClientId) (hhi : s.lastClientId < INT_MAX) :
    (processDatabaseRequest req resp s).1.status = 0 ∧
    (processDatabaseRequest req resp s).1.bankId
      = bankIdPrefix ++ fmtInt02 (s.lastClientId + 1) ∧
    (processDatabaseRequest req resp s).1.balance = req.amount ∧
    (processDatabaseRequest req resp s).2.bankDb.accounts
      = s.bankDb.accounts ++
        [{ bankId := bankIdPrefix ++ fmtInt02 (s.lastClientId + 1),
           balance := req.amount, active := true }] ∧
    (processDatabaseRequest req resp s).2.lastClientId = s.lastClientId + 1 := by
  have hint : IsInt (s.lastClientId + 1) := by
    unfold IsInt
    unfold INT_MIN INT_MAX at *
    omega
  have hw : wrapInt (s.lastClientId + 1) = s.lastClientId + 1 := wrapInt_of_isInt hint
  have hid := generateBankId_eq hint
  have hcap2 : ¬ (100 ≤ s.bankDb.accounts.length) := by
    simp only [BankDatabase.numAccounts] at hcap
    omega
  simp only [processDatabaseRequest, hop, hnew, if_true, ne_eq, not_false_eq_true,
    createAccount, BankDatabase.numAccounts, ge_iff_le, hcap2, if_false, hw, hid,
    setMessage, bankIdAt_append_length, balanceAt_append_length]
  exact ⟨trivial, trivial, trivial, trivial, trivial⟩

/-- Witness of `open_by_deposit`: opening with amount 1 on the empty database
yields `BankID_01`. -/
theorem open_by_deposit_witness :
    (processDatabaseRequest (openReq 1) zeroResponse initialState).2.bankDb.accounts
      = initialState.bankDb.accounts ++
        [{ bankId := bankIdPrefix ++ fmtInt02 (initialState.lastClientId + 1),
           balance := (openReq 1).amount, active := true }] :=
  (open_by_deposit initialState (openReq 1) zeroResponse rfl (by decide) (by decide)
    (by decide) (by decide) (by decide)).2.2.2.1

/-! ## The four outcomes of a database request -/

/-- What `processDatabaseRequest` does, branch by branch: it rejects the
request without touching the globals, or opens an account, or deposits to the
account found, or withdraws from the account found. -/
theorem processDatabaseRequest_cases (req : TellerRequest) (resp : ServerResponse)
    (s : ServerState) (r : ServerResponse × ServerState)
    (hr : r = processDatabaseRequest req resp s) :
    (r.2 = s ∧ r.1.status ≠ 0 ∧
      (isOpen req = true → 100 ≤ s.bankDb.accounts.length) ∧
      (r.1.status = ERR_INSUFFICIENT_FUNDS ∨ r.1.status = ERR_INVALID_OPERATION ∨
        r.1.status = ERR_INVALID_ACCOUNT)) ∨
    (isOpen req = true ∧ s.bankDb.accounts.length < 100 ∧ r.1.status = 0 ∧
      r.1.bankId = generateBankId (wrapInt (s.lastClientId + 1)) ∧
      r.1.balance = req.amount ∧
      r.2 = { bankDb := { accounts := s.bankDb.accounts ++
                                        [{ bankId := generateBankId (wrapInt (s.lastClientId + 1)),
                                           balance := req.amount, active := true }] },
              lastClientId := wrapInt (s.lastClientId + 1),
              logFile := updateLogFile s.logFile
                (generateBankId (wrapInt (s.lastClientId + 1))) 'D' req.amount req.amount }) ∨
    (∃ k acc, isOpen req = false ∧ req.operation = OP_DEPOSIT ∧
      findAccountIn s.bankDb.accounts req.bankId = some k ∧
      s.bankDb.accounts[k]? = some acc ∧ acc.active = true ∧ acc.bankId = req.bankId ∧
      r.2 = { bankDb := { accounts := s.bankDb.accounts.set k
                                        { acc with balance := wrapInt (acc.balance + req.amount) } },
              lastClientId := s.lastClientId,
              logFile := updateLogFile s.logFile req.bankId 'D' req.amount
                (wrapInt (acc.balance + req.amount)) } ∧
      ((0 ≤ wrapInt (acc.balance + req.amount) ∧ r.1.status = 0 ∧
          r.1.bankId = req.bankId ∧ r.1.balance = wrapInt (acc.balance + req.amount)) ∨
        (wrapInt (acc.balance + req.amount) < 0 ∧ r.1.status = ERR_INVALID_OPERATION))) ∨
    (∃ k acc, isOpen req = false ∧ req.operation = OP_WITHDRAW ∧
      findAccountIn s.bankDb.accounts req.bankId = some k ∧
      s.bankDb.accounts[k]? = some acc ∧ acc.active = true ∧ acc.bankId = req.bankId ∧
      req.amount ≤ acc.balance ∧
      r.2 = { bankDb := { accounts := s.bankDb.accounts.set k
                                        { acc with balance := wrapInt (acc.balance - req.amount),
                                                   active := decide (wrapInt (acc.balance - req.amount) ≠ 0) } },
              lastClientId := s.lastClientId,
              logFile := updateLogFile s.logFile req.bankId 'W' req.amount
                (wrapInt (acc.balance - req.amount)) } ∧
      ((0 ≤ wrapInt (acc.balance - req.amount) ∧ r.1.status = 0 ∧
          r.1.bankId = req.bankId ∧ r.1.balance = wrapInt (acc.balance - req.amount)) ∨
        (wrapInt (acc.balance - req.amount) < 0 ∧ r.1.status ≠ 0))) := by
  subst hr
  have hne : OP_WITHDRAW ≠ OP_DEPOSIT := by decide
  have e1 : ERR_INVALID_ACCOUNT ≠ 0 := by decide
  have e2 : ERR_INVALID_OPERATION ≠ 0 := by decide
  have e3 : ERR_INSUFFICIENT_FUNDS ≠ 0 := by decide
  by_cases hd : req.operation = OP_DEPOSIT
  · by_cases hn : req.isNewClient = 0
    · -- deposit to an existing account
      cases hf : findAccountIn s.bankDb.accounts req.bankId with
      | none =>
        left
        have hP : processDatabaseRequest req resp s =
            ({ resp with status := ERR_INVALID_ACCOUNT, clientIndex := req.clientIndex,
                         message := "Account not found".toList }, s) := by
          simp only [processDatabaseRequest, hd, hn, if_true, ne_eq, not_true_eq_false,
            if_false, findAccount, hf]
        rw [hP]
        exact ⟨rfl, e1, by simp [isOpen, hn], Or.inr (Or.inr rfl)⟩
      | some k =>
        right; right; left
        obtain ⟨acc, hacc, hact, hid⟩ := findAccountIn_some hf
        have hbal := balanceAt_eq hacc
        refine ⟨k, acc, by simp [isOpen, hn], hd, rfl, hacc, hact, hid, ?_⟩
        by_cases hnb : 0 ≤ wrapInt (acc.balance + req.amount)
        · have hP : (processDatabaseRequest req resp s).2 =
                { bankDb := { accounts := s.bankDb.accounts.set k
                                        { acc with balance := wrapInt (acc.balance + req.amount) } },
                  lastClientId := s.lastClientId,
                  logFile := updateLogFile s.logFile req.bankId 'D' req.amount
                    (wrapInt (acc.balance + req.amount)) } ∧
              (processDatabaseRequest req resp s).1.status = 0 ∧
              (processDatabaseRequest req resp s).1.bankId = req.bankId ∧
              (processDatabaseRequest req resp s).1.balance
                = wrapInt (acc.balance + req.amount) := by
            simp only [processDatabaseRequest, hd, hn, if_true, ne_eq, not_true_eq_false,
              if_false, findAccount, hf, depositToAccount, hbal, ge_iff_le, hnb, setMessage]
            rw [modifyAt_eq_set _ hacc]
            simp
          exact ⟨hP.1, Or.inl ⟨hnb, hP.2.1, hP.2.2.1, hP.2.2.2⟩⟩
        · have hP : (processDatabaseRequest req resp s).2 =
                { bankDb := { accounts := s.bankDb.accounts.set k
                                        { acc with balance := wrapInt (acc.balance + req.amount) } },
                  lastClientId := s.lastClientId,
                  logFile := updateLogFile s.logFile req.bankId 'D' req.amount
                    (wrapInt (acc.balance + req.amount)) } ∧
              (processDatabaseRequest req resp s).1.status = ERR_INVALID_OPERATION := by
            simp only [processDatabaseRequest, hd, hn, if_true, ne_eq, not_true_eq_false,
              if_false, findAccount, hf, depositToAccount, hbal, ge_iff_le, hnb]
            rw [modifyAt_eq_set _ hacc]
            simp
          exact ⟨hP.1, Or.inr ⟨by omega, hP.2⟩⟩
    · -- open
      by_cases hcap : 100 ≤ s.bankDb.accounts.length
      · left
        have hP : processDatabaseRequest req resp s =
            ({ resp with status := ERR_INVALID_OPERATION, clientIndex := req.clientIndex,
                         message := "Failed to create account".toList }, s) := by
          simp only [processDatabaseRequest, hd, hn, if_true, ne_eq, not_false_eq_true,
            createAccount, BankDatabase.numAccounts, ge_iff_le, hcap]
        rw [hP]
        exact ⟨rfl, e2, fun _ => hcap, Or.inr (Or.inl rfl)⟩
      · right; left
        have hP : (processDatabaseRequest req resp s).2 =
              { bankDb := { accounts := s.bankDb.accounts ++
                                        [{ bankId := generateBankId (wrapInt (s.lastClientId + 1)),
                                           balance := req.amount, active := true }] },
                lastClientId := wrapInt (s.lastClientId + 1),
                logFile := updateLogFile s.logFile
                  (generateBankId (wrapInt (s.lastClientId + 1))) 'D' req.amount req.amount } ∧
            (processDatabaseRequest req resp s).1.status = 0 ∧
            (processDatabaseRequest req resp s).1.bankId
              = generateBankId (wrapInt (s.lastClientId + 1)) ∧
            (processDatabaseRequest req resp s).1.balance = req.amount := by
          simp only [processDatabaseRequest, hd, hn, if_true, ne_eq, not_false_eq_true,
            createAccount, BankDatabase.numAccounts, ge_iff_le, hcap, if_false,
            bankIdAt_append_length, balanceAt_append_length, setMessage, and_self]
        exact ⟨by simp [isOpen, hd, hn], by omega, hP.2.1, hP.2.2.1, hP.2.2.2, hP.1⟩
  · by_cases hw : req.operation = OP_WITHDRAW
    · cases hf : findAccountIn s.bankDb.accounts req.bankId with
      | none =>
        left
        have hP : processDatabaseRequest req resp s =
            ({ resp with status := ERR_INVALID_ACCOUNT, clientIndex := req.clientIndex,
                         message := "Account not found".toList }, s) := by
          simp only [processDatabaseRequest, hw, hne, if_true, if_false, findAccount, hf]
        rw [hP]
        exact ⟨rfl, e1, by simp [isOpen, hw, hne], Or.inr (Or.inr rfl)⟩
      | some k =>
        obtain ⟨acc, hacc, hact, hid⟩ := findAccountIn_some hf
        have hbal := balanceAt_eq hacc
        have hk : k < s.bankDb.accounts.length := by
          rcases Nat.lt_or_ge k s.bankDb.accounts.length with h | h
          · exact h
          · rw [List.getElem?_eq_none h] at hacc; cases hacc
        by_cases hlt : acc.balance < req.amount
        · left
          have hneg : ¬ (0 ≤ ERR_INSUFFICIENT_FUNDS) := by decide
          have hP : processDatabaseRequest req resp s =
              ({ resp with status := ERR_INSUFFICIENT_FUNDS, clientIndex := req.clientIndex,
                           message := "Insufficient funds for withdrawal".toList }, s) := by
            simp only [processDatabaseRequest, hw, hne, if_true, if_false, findAccount, hf,
              withdrawFromAccount, hbal, hlt, ge_iff_le, hneg]
          rw [hP]
          exact ⟨rfl, e3, by simp [isOpen, hw, hne], Or.inl rfl⟩
        · right; right; right
          refine ⟨k, acc, by simp [isOpen, hw, hne], hw, rfl, hacc, hact, hid, by omega, ?_⟩
          have hst : (withdrawFromAccount s req.bankId req.amount) =
              (wrapInt (acc.balance - req.amount),
               { bankDb := { accounts := s.bankDb.accounts.set k
                                        { acc with balance := wrapInt (acc.balance - req.amount) } },
                 lastClientId := s.lastClientId,
                 logFile := updateLogFile s.logFile req.bankId 'W' req.amount
                   (wrapInt (acc.balance - req.amount)) }) := by
            simp only [withdrawFromAccount, findAccount, hf, hbal, hlt, if_false]
            rw [modifyAt_eq_set _ hacc]
          generalize wrapInt (acc.balance - req.amount) = nb at hst ⊢
          by_cases hnb : 0 ≤ nb
          · by_cases hz : nb = 0
            · subst hz
              have hrem : removeAccount
                  { bankDb := { accounts := s.bankDb.accounts.set k { acc with balance := 0 } },
                    lastClientId := s.lastClientId,
                    logFile := updateLogFile s.logFile req.bankId 'W' req.amount 0 } req.bankId
                  = { bankDb := { accounts := s.bankDb.accounts.set k
                                        { acc with balance := 0, active := false } },
                      lastClientId := s.lastClientId,
                      logFile := updateLogFile s.logFile req.bankId 'W' req.amount 0 } := by
                have hfind2 : findAccountIn (s.bankDb.accounts.set k
                    { acc with balance := 0 }) req.bankId = some k := by
                  rw [← modifyAt_eq_set (fun a => { a with balance := 0 }) hacc,
                    findAccountIn_modifyAt (fun a => { a with balance := 0 })
                      (fun _ => rfl) (fun _ => rfl)]
                  exact hf
                have hget2 : (s.bankDb.accounts.set k { acc with balance := 0 })[k]?
                    = some { acc with balance := 0 } := by
                  simp [hk]
                simp only [removeAccount, findAccount, hfind2]
                rw [modifyAt_eq_set _ hget2]
                simp
              simp only [processDatabaseRequest, hw, hne, if_true, if_false, findAccount, hf,
                hst, ge_iff_le, le_refl, hrem, setMessage]
              simp
            · simp only [processDatabaseRequest, hw, hne, if_true, if_false, findAccount, hf,
                hst, ge_iff_le, hnb, hz, setMessage]
              simp [hz, hact, hnb]
          · have hz : nb ≠ 0 := by omega
            simp only [processDatabaseRequest, hw, hne, if_true, if_false, findAccount, hf,
              hst, ge_iff_le, hnb]
            refine ⟨?_, Or.inr ⟨by omega, ?_⟩⟩
            · split <;> simp [hz, hact]
            · split
              · exact e3
              · exact e2
    · left
      have hP : processDatabaseRequest req resp s =
          ({ resp with status := ERR_INVALID_OPERATION, clientIndex := req.clientIndex,
                       message := "Invalid operation".toList }, s) := by
        simp only [processDatabaseRequest, hd, hw, if_false]
      rw [hP]
      exact ⟨rfl, e2, by simp [isOpen, hd], Or.inr (Or.inl rfl)⟩

/-! ## One log record per committed mutation -/

theorem updateLogFile_pos (log bankId : List Char) (c : Char) {amount : Int} (balance : Int)
    (h : 0 < amount) :
    updateLogFile log bankId c amount balance = log ++ logRecord bankId c amount balance := by
  have : ¬ amount ≤ 0 := by omega
  simp [updateLogFile, this]

theorem getElem?_lt_length {l : List Account} {k : Nat} {a : Account}
    (h : l[k]? = some a) : k < l.length := by
  rcases Nat.lt_or_ge k l.length with h1 | h1
  · exact h1
  · rw [List.getElem?_eq_none h1] at h; cases h

/-- C3, as the claim states it, fails: opening an account with amount 0
returns status 0 and creates the account, yet `updateLogFile` appends nothing
(it returns at once for `amount <= 0`). -/
theorem open_zero_not_logged :
    (processDatabaseRequest (openReq 0) zeroResponse initialState).1.status = 0 ∧
    (processDatabaseRequest (openReq 0) zeroResponse initialState).2.bankDb.accounts
      = [{ bankId := "BankID_01".toList, balance := 0, active := true }] ∧
    (processDatabaseRequest (openReq 0) zeroResponse initialState).2.logFile
      = initialState.logFile := by
  decide

/-- C3 (amended): for a request with a positive amount on a database whose
balances are C `int`s, status 0 means that exactly one record
`<id> <D|W> <amount> <balance_after>` is appended to the log, with `W` for a
withdrawal and `D` otherwise, where `<id>` is the id of the response and
`<balance_after>` the balance now stored for the account with that id; a
non-zero status, other than the `ERR_INVALID_OPERATION` of a deposit to an
existing account, means that nothing is appended. -/
theorem log_record_per_commit (req : TellerRequest) (resp : ServerResponse)
    (s : ServerState) (r : ServerResponse × ServerState)
    (hr : r = processDatabaseRequest req resp s)
    (hpos : 0 < req.amount) (hty : ∀ a ∈ s.bankDb.accounts, IsInt a.balance) :
    (r.1.status = 0 →
      r.2.logFile = s.logFile ++
        logRecord r.1.bankId (if req.operation = OP_WITHDRAW then 'W' else 'D')
          req.amount r.1.balance ∧
      ∃ (k : Nat) (acc : Account), r.2.bankDb.accounts[k]? = some acc ∧
        acc.bankId = r.1.bankId ∧ acc.balance = r.1.balance) ∧
    (r.1.status ≠ 0 →
      ¬ (isOpen req = false ∧ req.operation = OP_DEPOSIT ∧
          r.1.status = ERR_INVALID_OPERATION) →
      r.2.logFile = s.logFile) := by
  have hne : OP_DEPOSIT ≠ OP_WITHDRAW := by decide
  have e2 : ERR_INVALID_OPERATION ≠ 0 := by decide
  rcases processDatabaseRequest_cases req resp s r hr with
    ⟨h2, hst, _, _⟩ | ⟨ho, hlen, hst, hid, hbal, h2⟩ |
    ⟨k, acc, ho, hd, hf, hacc, hact, hid, h2, h3⟩ |
    ⟨k, acc, ho, hw, hf, hacc, hact, hid, hle, h2, h3⟩
  · exact ⟨fun h => absurd h hst, fun _ _ => by rw [h2]⟩
  · have hd : req.operation = OP_DEPOSIT := by
      simp [isOpen] at ho
      exact ho.1
    refine ⟨fun _ => ⟨?_, s.bankDb.accounts.length, ?_⟩, fun h => absurd hst h⟩
    · rw [h2, hid, hbal, hd]
      simp only [hne, if_false]
      exact updateLogFile_pos _ _ _ _ hpos
    · refine ⟨{ bankId := generateBankId (wrapInt (s.lastClientId + 1)),
                balance := req.amount, active := true }, ?_, hid.symm, hbal.symm⟩
      rw [h2]
      simp
  · have hk := getElem?_lt_length hacc
    rcases h3 with ⟨hnb, hst, hrid, hrbal⟩ | ⟨hnb, hst⟩
    · refine ⟨fun _ => ⟨?_, k, ?_⟩, fun h => absurd hst h⟩
      · rw [h2, hrid, hrbal, hd]
        simp only [hne, if_false]
        exact updateLogFile_pos _ _ _ _ hpos
      · refine ⟨{ acc with balance := wrapInt (acc.balance + req.amount) }, ?_,
          by rw [hrid]; exact hid, hrbal.symm⟩
        rw [h2]
        simp [hk]
    · refine ⟨fun h => ?_, fun _ hex => absurd ⟨ho, hd, hst⟩ hex⟩
      rw [hst] at h
      exact absurd h e2
  · have hk := getElem?_lt_length hacc
    have hint : IsInt acc.balance := hty acc (List.getElem?_mem hacc)
    have hwr : wrapInt (acc.balance - req.amount) = acc.balance - req.amount := by
      apply wrapInt_of_isInt
      unfold IsInt INT_MIN INT_MAX at *
      omega
    rcases h3 with ⟨hnb, hst, hrid, hrbal⟩ | ⟨hnb, hst⟩
    · refine ⟨fun _ => ⟨?_, k, ?_⟩, fun h => absurd hst h⟩
      · rw [h2, hrid, hrbal, hw]
        simp only [if_true]
        exact updateLogFile_pos _ _ _ _ hpos
      · refine ⟨{ acc with balance := wrapInt (acc.balance - req.amount),
                           active := decide (wrapInt (acc.balance - req.amount) ≠ 0) }, ?_,
          by rw [hrid]; exact hid, hrbal.symm⟩
        rw [h2]
        simp [hk]
    · rw [hwr] at hnb
      omega

/-- Witness of `log_record_per_commit`: `BankID_01 deposit 200` on a balance
of 300. -/
theorem log_record_per_commit_witness :
    (processDatabaseRequest (depositReq "BankID_01".toList 200) zeroResponse
        { bankDb := { accounts := [{ bankId := "BankID_01".toList, balance := 300,
                                     active := true }] },
          lastClientId := 1, logFile := [] }).2.logFile
      = [] ++ logRecord
          (processDatabaseRequest (depositReq "BankID_01".toList 200) zeroResponse
            { bankDb := { accounts := [{ bankId := "BankID_01".toList, balance := 300,
                                         active := true }] },
              lastClientId := 1, logFile := [] }).1.bankId
          (if (depositReq "BankID_01".toList 200).operation = OP_WITHDRAW then 'W' else 'D')
          (depositReq "BankID_01".toList 200).amount
          (processDatabaseRequest (depositReq "BankID_01".toList 200) zeroResponse
            { bankDb := { accounts := [{ bankId := "BankID_01".toList, balance := 300,
                                         active := true }] },
              lastClientId := 1, logFile := [] }).1.balance :=
  ((log_record_per_commit (depositReq "BankID_01".toList 200) zeroResponse
      { bankDb := { accounts := [{ bankId := "BankID_01".toList, balance := 300,
                                   active := true }] },
        lastClientId := 1, logFile := [] } _ rfl (by decide) (by decide)).1 (by decide)).1

/-- Scenario "open-and-grow" of the specification: the deposit of 200 on a
balance of 300 appends the line `BankID_01 D 200 500`. -/
theorem deposit_log_line_example :
    (processDatabaseRequest (depositReq "BankID_01".toList 200) zeroResponse
        { bankDb := { accounts := [{ bankId := "BankID_01".toList, balance := 300,
                                     active := true }] },
          lastClientId := 1, logFile := [] }).2.logFile = "BankID_01 D 200 500\n".toList := by
  decide

/-! ## Deposits that overflow `int` -/

/-- C5 fails in the code: after `N deposit 2147483647` and
`BankID_01 deposit 1`, both with positive amounts and served from the empty
database, the balance of `BankID_01` is `INT_MIN`, a negative number. -/
theorem balance_negative_after_overflow :
    (serveAll initialState
      [openReq 2147483647, depositReq "BankID_01".toList 1]).bankDb.accounts
      = [{ bankId := "BankID_01".toList, balance := -2147483648, active := true }] := by
  decide

/-- C2 fails in the code: after `N deposit 2147483647` and
`BankID_01 deposit 1` the database holds an account that violates I1: it is
active although its balance is not positive. -/
theorem i1_broken_after_overflow :
    ¬ ∀ a ∈ (serveAll initialState
        [openReq 2147483647, depositReq "BankID_01".toList 1]).bankDb.accounts, I1 a := by
  unfold I1
  decide

/-- C1 fails in the code: after `N deposit 2147483647`, `BankID_01 deposit 1`,
`BankID_01 deposit 2147483647` and `BankID_01 deposit 1` the account
`BankID_01` is live in memory (active, balance 0), whereas replaying the
emitted log restores no live account. -/
theorem replay_differs_after_overflow :
    liveAccounts (serveAll initialState
      [openReq 2147483647, depositReq "BankID_01".toList 1,
       depositReq "BankID_01".toList 2147483647, depositReq "BankID_01".toList 1]).bankDb
      = [("BankID_01".toList, 0)] ∧
    liveAccounts (restoreDatabaseFromLog (some (serveAll initialState
      [openReq 2147483647, depositReq "BankID_01".toList 1,
       depositReq "BankID_01".toList 2147483647,
       depositReq "BankID_01".toList 1]).logFile) { accounts := [] }).2 = [] ∧
    (serveAll initialState
      [openReq 2147483647, depositReq "BankID_01".toList 1,
       depositReq "BankID_01".toList 2147483647, depositReq "BankID_01".toList 1]).logFile
      = ("BankID_01 D 2147483647 2147483647\n" ++ "BankID_01 D 1 -2147483648\n" ++
         "BankID_01 D 2147483647 -1\n" ++ "BankID_01 D 1 0\n").toList := by
  decide

/-! ## The same invariants when no deposit overflows -/

/-- One request with a positive amount keeps I1 and non-negative balances, as
long as the bound on the balances plus the amount is an `int`. -/
theorem BalancesOk.balances_step {s : ServerState} {bound : Int} (h : BalancesOk s bound)
    (req : TellerRequest) (resp : ServerResponse) (hpos : 0 < req.amount)
    (h0 : 0 ≤ bound) (hmax : bound + req.amount ≤ INT_MAX) :
    BalancesOk (processDatabaseRequest req resp s).2 (bound + req.amount) := by
  have hweak : ∀ a ∈ s.bankDb.accounts,
      I1 a ∧ 0 ≤ a.balance ∧ a.balance ≤ bound + req.amount := by
    intro a ha
    obtain ⟨h1, h2, h3⟩ := h a ha
    exact ⟨h1, h2, by omega⟩
  rcases processDatabaseRequest_cases req resp s _ rfl with
    ⟨h2, _⟩ | ⟨_, _, _, _, _, h2⟩ |
    ⟨k, acc, _, _, _, hacc, hact, _, h2, _⟩ |
    ⟨k, acc, _, _, _, hacc, hact, _, hle, h2, _⟩
  · rw [h2]; exact hweak
  · rw [h2]
    intro a ha
    simp only [List.mem_append, List.mem_singleton] at ha
    rcases ha with ha | ha
    · exact hweak a ha
    · subst ha
      refine ⟨?_, ?_, ?_⟩
      · unfold I1; simp; omega
      · show 0 ≤ req.amount; omega
      · show req.amount ≤ bound + req.amount; omega
  · obtain ⟨_, hb0, hb1⟩ := h acc (List.getElem?_mem hacc)
    have hw : wrapInt (acc.balance + req.amount) = acc.balance + req.amount := by
      apply wrapInt_of_isInt
      unfold IsInt INT_MIN
      unfold INT_MAX at *
      omega
    rw [h2, hw]
    intro a ha
    rcases List.mem_or_eq_of_mem_set ha with ha | ha
    · exact hweak a ha
    · subst ha
      refine ⟨?_, ?_, ?_⟩
      · unfold I1; simp [hact]; omega
      · show 0 ≤ acc.balance + req.amount; omega
      · show acc.balance + req.amount ≤ bound + req.amount; omega
  · obtain ⟨_, hb0, hb1⟩ := h acc (List.getElem?_mem hacc)
    have hw : wrapInt (acc.balance - req.amount) = acc.balance - req.amount := by
      apply wrapInt_of_isInt
      unfold IsInt INT_MIN
      unfold INT_MAX at *
      omega
    rw [h2, hw]
    intro a ha
    rcases List.mem_or_eq_of_mem_set ha with ha | ha
    · exact hweak a ha
    · subst ha
      refine ⟨?_, ?_, ?_⟩
      · unfold I1; simp; omega
      · show 0 ≤ acc.balance - req.amount; omega
      · show acc.balance - req.amount ≤ bound + req.amount; omega

theorem BalancesOk.balances_after (reqs : List TellerRequest) :
    ∀ (s : ServerState) (bound : Int), BalancesOk s bound → 0 ≤ bound →
      (∀ r ∈ reqs, 0 < r.amount) → bound + totalAmount reqs ≤ INT_MAX →
      BalancesOk (serveAll s reqs) (bound + totalAmount reqs) := by
  induction reqs with
  | nil => intro s bound h _ _ _; simpa [totalAmount, serveAll] using h
  | cons req rest ih =>
    intro s bound h h0 hpos hmax
    have hp := hpos req (List.mem_cons_self _ _)
    have hrest : ∀ r ∈ rest, 0 < r.amount := fun r hr => hpos r (List.mem_cons_of_mem _ hr)
    have hnn : ∀ l : List TellerRequest, (∀ r ∈ l, 0 < r.amount) → 0 ≤ totalAmount l := by
      intro l
      induction l with
      | nil => intro _; simp [totalAmount]
      | cons x xs ihx =>
        intro hx
        have := ihx (fun r hr => hx r (List.mem_cons_of_mem _ hr))
        have := hx x (List.mem_cons_self _ _)
        simp only [totalAmount]
        omega
    have hr0 := hnn rest hrest
    simp only [totalAmount] at hmax ⊢
    have hstep := h.balances_step req zeroResponse hp h0 (by omega)
    have := ih _ _ hstep (by omega) hrest (by omega)
    simp only [Bank.serveAll]
    rw [← add_assoc]
    exact this

/-- Invariant I1 holds after every sequence of requests with positive amounts
served from the empty database, provided the exact sum of the amounts is an
`int` (so that no deposit can overflow). -/
theorem i1_without_overflow (reqs : List TellerRequest)
    (hpos : ∀ r ∈ reqs, 0 < r.amount) (hsum : totalAmount reqs ≤ INT_MAX) :
    ∀ a ∈ (serveAll initialState reqs).bankDb.accounts, I1 a := by
  have h0 : BalancesOk initialState 0 := by
    intro a ha
    simp [initialState] at ha
  have := BalancesOk.balances_after reqs initialState 0 h0 (le_refl _) hpos (by omega)
  intro a ha
  exact (this a ha).1

/-- Invariant I5 holds after every sequence of requests with positive amounts
served from the empty database, provided the exact sum of the amounts is an
`int`: every balance is between 0 and that sum. -/
theorem i5_without_overflow (reqs : List TellerRequest)
    (hpos : ∀ r ∈ reqs, 0 < r.amount) (hsum : totalAmount reqs ≤ INT_MAX) :
    ∀ a ∈ (serveAll initialState reqs).bankDb.accounts,
      0 ≤ a.balance ∧ a.balance ≤ totalAmount reqs := by
  have h0 : BalancesOk initialState 0 := by
    intro a ha
    simp [initialState] at ha
  have := BalancesOk.balances_after reqs initialState 0 h0 (le_refl _) hpos (by omega)
  intro a ha
  have h1 := (this a ha).2
  exact ⟨h1.1, by omega⟩

/-! ## Printing and reading back numbers -/

theorem natDigitsAux_acc (fuel n : Nat) (acc : List Char) :
    natDigitsAux fuel n acc = natDigitsAux fuel n [] ++ acc := by
  induction fuel generalizing n acc with
  | zero => simp [natDigitsAux]
  | succ f ih =>
    unfold natDigitsAux
    split
    · simp
    · rw [ih (n / 10) (digitChar (n % 10) :: acc), ih (n / 10) [digitChar (n % 10)]]
      simp

theorem isdigit_digitChar {d : Nat} (h : d < 10) : isdigit (digitChar d) = true := by
  interval_cases d <;> decide

theorem digitChar_val {d : Nat} (h : d < 10) : (digitChar d).toNat - 48 = d := by
  interval_cases d <;> decide

/-- Value accumulated by `scanDigits` over a run of digits. -/
theorem scanDigits_append (ds rest : List Char) (acc : Nat)
    (hds : ∀ c ∈ ds, isdigit c = true)
    (hrest : ∀ c ∈ rest.head?, isdigit c = false) :
    scanDigits (ds ++ rest) acc
      = (ds.foldl (fun a c => a * 10 + (c.toNat - 48)) acc, rest) := by
  induction ds generalizing acc with
  | nil =>
    cases rest with
    | nil => simp [scanDigits]
    | cons c cs =>
      have : isdigit c = false := hrest c (by simp)
      simp [scanDigits, this]
  | cons d ds ih =>
    have hd : isdigit d = true := hds d (List.mem_cons_self _ _)
    simp only [List.cons_append, scanDigits, hd, if_true, List.foldl_cons]
    exact ih _ (fun c hc => hds c (List.mem_cons_of_mem _ hc))

theorem natDigitsAux_digits (fuel n : Nat) :
    ∀ c ∈ natDigitsAux fuel n [], isdigit c = true := by
  induction fuel generalizing n with
  | zero => simp [natDigitsAux]
  | succ f ih =>
    unfold natDigitsAux
    split
    · rename_i h
      intro c hc
      simp at hc
      subst hc
      exact isdigit_digitChar h
    · rw [natDigitsAux_acc]
      intro c hc
      simp at hc
      rcases hc with hc | hc
      · exact ih _ c hc
      · subst hc
        exact isdigit_digitChar (Nat.mod_lt _ (by decide))

theorem natDigitsAux_value (fuel : Nat) : ∀ n, n < fuel →
    (natDigitsAux fuel n []).foldl (fun a c => a * 10 + (c.toNat - 48)) 0 = n := by
  induction fuel with
  | zero => intro n h; omega
  | succ f ih =>
    intro n h
    unfold natDigitsAux
    split
    · rename_i h10
      simp [digitChar_val h10]
    · rename_i h10
      rw [natDigitsAux_acc]
      rw [List.foldl_append, ih (n / 10) (by omega)]
      simp [digitChar_val (Nat.mod_lt n (by decide : 10 > 0))]
      omega

theorem natDigitsAux_ne_nil (fuel n : Nat) : natDigitsAux (fuel + 1) n [] ≠ [] := by
  unfold natDigitsAux
  split
  · simp
  · rw [natDigitsAux_acc]
    simp

theorem natDigits_digits (n : Nat) : ∀ c ∈ natDigits n, isdigit c = true :=
  natDigitsAux_digits _ _

theorem natDigits_value (n : Nat) :
    (natDigits n).foldl (fun a c => a * 10 + (c.toNat - 48)) 0 = n :=
  natDigitsAux_value _ _ (Nat.lt_succ_self n)

theorem natDigits_cons (n : Nat) : ∃ d ds, natDigits n = d :: ds ∧ isdigit d = true := by
  have hne : natDigits n ≠ [] := natDigitsAux_ne_nil _ _
  cases h : natDigits n with
  | nil => exact absurd h hne
  | cons d ds =>
    refine ⟨d, ds, rfl, ?_⟩
    exact natDigits_digits n d (by rw [h]; simp)

theorem scanDigits_natDigits (n : Nat) (rest : List Char)
    (hrest : ∀ c ∈ rest.head?, isdigit c = false) :
    scanDigits (natDigits n ++ rest) 0 = (n, rest) := by
  rw [scanDigits_append _ _ _ (natDigits_digits n) hrest, natDigits_value]

theorem isspace_of_isdigit {c : Char} (h : isdigit c = true) : isspace c = false := by
  have h1 : 48 ≤ c.toNat ∧ c.toNat ≤ 57 := by
    unfold isdigit at h
    exact of_decide_eq_true h
  have h2 : ¬ (c.toNat = 32 ∨ (9 ≤ c.toNat ∧ c.toNat ≤ 13)) := by omega
  unfold isspace
  exact decide_eq_false h2

theorem ne_minus_of_isdigit {c : Char} (h : isdigit c = true) : c ≠ '-' ∧ c ≠ '+' := by
  constructor <;> (intro hc; subst hc; revert h; decide)

theorem scanInt_digit (d : Char) (ds : List Char) (hdig : isdigit d = true) :
    scanInt (d :: ds)
      = some (scanfInt ((scanDigits (d :: ds) 0).1 : Int), (scanDigits (d :: ds) 0).2) := by
  have hsp := isspace_of_isdigit hdig
  have hpm := ne_minus_of_isdigit hdig
  simp only [scanInt, skipSpaces, hsp, hpm.1, hpm.2, if_false, hdig, if_true, Bool.false_eq_true]

theorem scanInt_minus (d : Char) (ds : List Char) (hdig : isdigit d = true) :
    scanInt ('-' :: d :: ds)
      = some (scanfInt (-((scanDigits (d :: ds) 0).1 : Int)), (scanDigits (d :: ds) 0).2) := by
  have hsp : isspace '-' = false := by decide
  simp only [scanInt, skipSpaces, hsp, if_false, hdig, if_true, Bool.false_eq_true]

/-- `%d` reads back what `%d` printed, up to the next character that is not
a digit. -/
theorem scanInt_fmtInt {a : Int} (ha : IsInt a) (rest : List Char)
    (hrest : ∀ c ∈ rest.head?, isdigit c = false) :
    scanInt (fmtInt a ++ rest) = some (a, rest) := by
  unfold fmtInt
  split
  · rename_i hneg
    obtain ⟨d, ds, hd, hdig⟩ := natDigits_cons (-a).toNat
    have hsc := scanDigits_natDigits (-a).toNat rest hrest
    rw [hd] at hsc
    have hval : scanfInt (-(((-a).toNat : Nat) : Int)) = a := by
      have : (((-a).toNat : Nat) : Int) = -a := Int.toNat_of_nonneg (by omega)
      rw [this, neg_neg]
      exact scanfInt_of_isInt ha
    rw [hd]
    show scanInt ('-' :: d :: (ds ++ rest)) = _
    rw [scanInt_minus d _ hdig]
    rw [show d :: (ds ++ rest) = (d :: ds) ++ rest from rfl, hsc]
    show some (scanfInt (-(((-a).toNat : Nat) : Int)), rest) = _
    rw [hval]
  · rename_i hneg
    obtain ⟨d, ds, hd, hdig⟩ := natDigits_cons a.toNat
    have hsc := scanDigits_natDigits a.toNat rest hrest
    rw [hd] at hsc
    have hval : scanfInt ((a.toNat : Nat) : Int) = a := by
      have : ((a.toNat : Nat) : Int) = a := Int.toNat_of_nonneg (by omega)
      rw [this]
      exact scanfInt_of_isInt ha
    rw [hd]
    show scanInt (d :: (ds ++ rest)) = _
    rw [scanInt_digit d _ hdig]
    rw [show d :: (ds ++ rest) = (d :: ds) ++ rest from rfl, hsc]
    show some (scanfInt ((a.toNat : Nat) : Int), rest) = _
    rw [hval]

/-- `%d` reads back a non-negative number printed with `%02d`. -/
theorem scanInt_fmtInt02 {a : Int} (ha : IsInt a) (h0 : 0 ≤ a) (rest : List Char)
    (hrest : ∀ c ∈ rest.head?, isdigit c = false) :
    scanInt (fmtInt02 a ++ rest) = some (a, rest) := by
  unfold fmtInt02
  have hneg : ¬ a < 0 := by omega
  simp only [hneg, if_false]
  split
  · have hsc := scanDigits_natDigits a.toNat rest hrest
    have hval : scanfInt ((a.toNat : Nat) : Int) = a := by
      have : ((a.toNat : Nat) : Int) = a := Int.toNat_of_nonneg (by omega)
      rw [this]
      exact scanfInt_of_isInt ha
    have hdig : isdigit '0' = true := by decide
    show scanInt ('0' :: (natDigits a.toNat ++ rest)) = _
    rw [scanInt_digit '0' _ hdig]
    have hstep : scanDigits ('0' :: (natDigits a.toNat ++ rest)) 0
        = scanDigits (natDigits a.toNat ++ rest) 0 := by
      simp only [scanDigits, hdig, if_true]
      rfl
    rw [hstep, hsc]
    show some (scanfInt ((a.toNat : Nat) : Int), rest) = _
    rw [hval]
  · have := scanInt_fmtInt ha rest hrest
    unfold fmtInt at this
    simpa [hneg] using this

/-! ## Reading back a record line -/

theorem skipSpaces_cons_of_not_space {c : Char} (cs : List Char) (h : isspace c = false) :
    skipSpaces (c :: cs) = c :: cs := by
  simp [skipSpaces, h]

theorem scanInt_space (s : List Char) : scanInt (' ' :: s) = scanInt s := by
  have h : isspace ' ' = true := by decide
  simp only [scanInt, skipSpaces, h, if_true]

theorem scanToken_append (tok rest : List Char) (h : ∀ c ∈ tok, isspace c = false) :
    scanToken (tok ++ ' ' :: rest) = (tok, ' ' :: rest) := by
  induction tok with
  | nil =>
    have hs : isspace ' ' = true := by decide
    simp [scanToken, hs]
  | cons c cs ih =>
    have hc : isspace c = false := h c (List.mem_cons_self _ _)
    have := ih (fun d hd => h d (List.mem_cons_of_mem _ hd))
    simp [scanToken, hc, this]

theorem scanStr_append (tok rest : List Char) (hne : tok ≠ [])
    (h : ∀ c ∈ tok, isspace c = false) :
    scanStr (tok ++ ' ' :: rest) = some (tok, ' ' :: rest) := by
  cases tok with
  | nil => exact absurd rfl hne
  | cons c cs =>
    have hc : isspace c = false := h c (List.mem_cons_self _ _)
    have ht := scanToken_append (c :: cs) rest h
    simp only [List.cons_append] at ht
    unfold scanStr
    rw [List.cons_append, skipSpaces_cons_of_not_space _ hc]
    simp only [ht]

theorem scanChar_space (c : Char) (rest : List Char) (hc : isspace c = false) :
    scanChar (' ' :: c :: rest) = some (c, rest) := by
  have hs : isspace ' ' = true := by decide
  simp only [scanChar, skipSpaces, hs, if_true, hc, if_false, Bool.false_eq_true]

theorem logRecord_eq (bankId : List Char) (c : Char) (a b : Int) :
    logRecord bankId c a b
      = bankId ++ ' ' :: c :: ' ' :: (fmtInt a ++ ' ' :: (fmtInt b ++ ['\n'])) := by
  simp [logRecord, List.append_assoc]

/-- `sscanf` with `"%s %c %d %d"` reads back the four fields of a record. -/
theorem sscanfRecord_logRecord (bankId : List Char) (c : Char) {a b : Int}
    (hne : bankId ≠ []) (hid : ∀ x ∈ bankId, isspace x = false) (hc : isspace c = false)
    (ha : IsInt a) (hb : IsInt b) :
    sscanfRecord (logRecord bankId c a b) = some (bankId, c, a, b) := by
  have hnl : ∀ x ∈ (['\n'] : List Char).head?, isdigit x = false := by
    intro x hx; simp at hx; subst hx; decide
  have hsp : ∀ (r : List Char), ∀ x ∈ (' ' :: r).head?, isdigit x = false := by
    intro r x hx; simp at hx; subst hx; decide
  rw [logRecord_eq]
  unfold sscanfRecord
  rw [scanStr_append _ _ hne hid]
  simp only
  rw [scanChar_space _ _ hc]
  simp only
  rw [scanInt_space, scanInt_fmtInt ha _ (hsp _)]
  simp only
  rw [scanInt_space, scanInt_fmtInt hb _ hnl]

theorem scanLiteral_append (p rest : List Char) : scanLiteral p (p ++ rest) = some rest := by
  induction p with
  | nil => cases rest <;> rfl
  | cons c cs ih => simp [scanLiteral, ih]

/-- `sscanf` with `"BankID_%d"` reads back the number of a generated id. -/
theorem sscanfBankId_generateBankId {n : Int} (hn : IsInt n) (h0 : 0 ≤ n) (rest : List Char)
    (hrest : ∀ c ∈ rest.head?, isdigit c = false) :
    sscanfBankId (generateBankId n ++ rest) = some n := by
  rw [generateBankId_eq hn, List.append_assoc]
  unfold sscanfBankId
  rw [scanLiteral_append]
  simp only
  rw [scanInt_fmtInt02 hn h0 rest hrest]

theorem sscanfBankId_generateBankId_self {n : Int} (hn : IsInt n) (h0 : 0 ≤ n) :
    sscanfBankId (generateBankId n) = some n := by
  have := sscanfBankId_generateBankId hn h0 [] (by simp)
  simpa using this

theorem generateBankId_injective {n m : Int} (hn : IsInt n) (h0 : 0 ≤ n)
    (hm : IsInt m) (h1 : 0 ≤ m) (h : generateBankId n = generateBankId m) : n = m := by
  have e1 := sscanfBankId_generateBankId_self hn h0
  have e2 := sscanfBankId_generateBankId_self hm h1
  rw [h, e2] at e1
  exact (Option.some.inj e1).symm

/-! ## Shape of the lines the server writes -/

theorem fmtInt_length_le {x : Int} (h : IsInt x) : (fmtInt x).length ≤ 11 := by
  unfold IsInt INT_MIN INT_MAX at h
  unfold fmtInt
  split
  · have := @natDigits_length_le (-x).toNat (by omega)
    simp; omega
  · have := @natDigits_length_le x.toNat (by omega)
    omega

theorem fmtInt_chars (x : Int) : ∀ c ∈ fmtInt x, isdigit c = true ∨ c = '-' := by
  unfold fmtInt
  split
  · intro c hc
    simp at hc
    rcases hc with hc | hc
    · exact Or.inr hc
    · exact Or.inl (natDigits_digits _ c hc)
  · intro c hc
    exact Or.inl (natDigits_digits _ c hc)

theorem fmtInt02_chars (x : Int) : ∀ c ∈ fmtInt02 x, isdigit c = true ∨ c = '-' := by
  unfold fmtInt02
  split
  · intro c hc
    simp at hc
    rcases hc with hc | hc
    · exact Or.inr hc
    · exact Or.inl (natDigits_digits _ c hc)
  · split
    · intro c hc
      simp at hc
      rcases hc with hc | hc
      · subst hc; exact Or.inl (by decide)
      · exact Or.inl (natDigits_digits _ c hc)
    · intro c hc
      exact Or.inl (natDigits_digits _ c hc)

theorem fmtInt_ne_nil (x : Int) : fmtInt x ≠ [] := by
  unfold fmtInt
  split
  · simp
  · exact natDigitsAux_ne_nil _ _

/-- A character of a printed number is no white space, no newline, no NUL. -/
theorem numChar_plain {c : Char} (h : isdigit c = true ∨ c = '-') :
    isspace c = false ∧ c ≠ '\n' ∧ c ≠ Char.ofNat 0 := by
  rcases h with h | h
  · refine ⟨isspace_of_isdigit h, ?_, ?_⟩ <;> (intro hc; subst hc; revert h; decide)
  · subst h; decide

theorem bankIdPrefix_plain : ∀ c ∈ bankIdPrefix,
    isspace c = false ∧ c ≠ '\n' ∧ c ≠ Char.ofNat 0 := by
  decide

theorem generateBankId_plain (n : Int) : ∀ c ∈ generateBankId n,
    isspace c = false ∧ c ≠ '\n' ∧ c ≠ Char.ofNat 0 := by
  intro c hc
  unfold generateBankId at hc
  have hc2 := List.mem_of_mem_take hc
  rcases List.mem_append.mp hc2 with h | h
  · exact bankIdPrefix_plain c h
  · exact numChar_plain (fmtInt02_chars n c h)

theorem generateBankId_length_le (n : Int) : (generateBankId n).length ≤ 19 := by
  unfold generateBankId
  simp [List.length_take]

theorem generateBankId_cons (n : Int) : ∃ rest, generateBankId n = 'B' :: rest := by
  unfold generateBankId bankIdPrefix
  exact ⟨_, rfl⟩

theorem generateBankId_length_ge (n : Int) : 7 ≤ (generateBankId n).length := by
  unfold generateBankId
  simp [List.length_take, bankIdPrefix]

/-- The part of a record line before its newline. -/
theorem logRecord_body (bankId : List Char) (c : Char) (a b : Int) :
    logRecord bankId c a b
      = (bankId ++ ' ' :: c :: ' ' :: (fmtInt a ++ ' ' :: fmtInt b)) ++ ['\n'] := by
  simp [logRecord, List.append_assoc]

theorem record_goodLine (n : Int) (c : Char) {a b : Int}
    (hc : c = 'D' ∨ c = 'W') (ha : IsInt a) (hb : IsInt b) :
    GoodLine (logRecord (generateBankId n) c a b) := by
  refine ⟨_, logRecord_body _ _ _ _, ?_, ?_⟩
  · intro hmem
    simp only [List.mem_append, List.mem_cons] at hmem
    rcases hmem with h | h | h | h | h | h | h
    · exact (generateBankId_plain n _ h).2.1 rfl
    · revert h; decide
    · rcases hc with hc | hc <;> (subst hc; revert h; decide)
    · revert h; decide
    · exact (numChar_plain (fmtInt_chars a _ h)).2.1 rfl
    · revert h; decide
    · exact (numChar_plain (fmtInt_chars b _ h)).2.1 rfl
  · have h1 := generateBankId_length_le n
    have h2 := fmtInt_length_le ha
    have h3 := fmtInt_length_le hb
    simp only [List.length_append, List.length_cons]
    omega

theorem record_no_nul (n : Int) (c : Char) (a b : Int) (hc : c = 'D' ∨ c = 'W') :
    ∀ x ∈ logRecord (generateBankId n) c a b, x ≠ Char.ofNat 0 := by
  intro x hx
  rw [logRecord_eq] at hx
  simp only [List.mem_append, List.mem_cons, List.mem_singleton, List.not_mem_nil,
    or_false] at hx
  rcases hx with h | h | h | h | h | h | h | h
  · exact (generateBankId_plain n _ h).2.2
  · subst h; decide
  · rcases hc with hc | hc <;> (subst hc; subst h; decide)
  · subst h; decide
  · exact (numChar_plain (fmtInt_chars a _ h)).2.2
  · subst h; decide
  · exact (numChar_plain (fmtInt_chars b _ h)).2.2
  · subst h; decide

theorem cstr_of_no_nul (l : List Char) (h : ∀ x ∈ l, x ≠ Char.ofNat 0) : cstr l = l := by
  unfold cstr
  rw [List.takeWhile_eq_self_iff]
  intro x hx
  simpa using h x hx

theorem record_length_gt (n : Int) (c : Char) (a b : Int) :
    10 < (logRecord (generateBankId n) c a b).length := by
  have h1 := generateBankId_length_ge n
  have h2 : 0 < (fmtInt a).length := List.length_pos.mpr (fmtInt_ne_nil a)
  have h3 : 0 < (fmtInt b).length := List.length_pos.mpr (fmtInt_ne_nil b)
  rw [logRecord_eq]
  simp only [List.length_append, List.length_cons, List.length_nil]
  omega

theorem record_head (n : Int) (c : Char) (a b : Int) :
    (logRecord (generateBankId n) c a b).head? = some 'B' := by
  obtain ⟨rest, hr⟩ := generateBankId_cons n
  rw [logRecord_eq, hr]
  rfl

/-! ## Reading a log line by line -/

theorem fgets_line (body rest : List Char) (room : Nat) (hnl : '\n' ∉ body)
    (hlen : body.length < room) :
    fgets room (body ++ '\n' :: rest) = (body ++ ['\n'], rest) := by
  induction body generalizing room with
  | nil =>
    cases room with
    | zero => simp at hlen
    | succ r => simp [fgets]
  | cons c cs ih =>
    cases room with
    | zero => simp at hlen
    | succ r =>
      have hc : c ≠ '\n' := fun h => hnl (by simp [h])
      have hcs : '\n' ∉ cs := fun h => hnl (List.mem_cons_of_mem _ h)
      have := ih r hcs (by simpa using hlen)
      simp [fgets, hc, this]

theorem readLinesAux_succ (fuel : Nat) (t : List Char) (ht : t ≠ []) :
    readLinesAux (fuel + 1) t
      = cstr (fgets 255 t).1 :: readLinesAux fuel (fgets 255 t).2 := by
  cases t with
  | nil => exact absurd rfl ht
  | cons c cs => rfl

theorem readLinesAux_nil (fuel : Nat) : readLinesAux fuel [] = [] := by
  cases fuel <;> rfl

theorem readLinesAux_flatten (ls : List (List Char)) (h : ∀ l ∈ ls, GoodLine l) :
    ∀ fuel, ls.length ≤ fuel → readLinesAux fuel ls.flatten = ls.map cstr := by
  induction ls with
  | nil => intro fuel _; simp [readLinesAux_nil]
  | cons l rest ih =>
    intro fuel hf
    cases fuel with
    | zero => simp at hf
    | succ f =>
      obtain ⟨body, hl, hnl, hlen⟩ := h l (List.mem_cons_self _ _)
      have ht : (l :: rest).flatten = body ++ '\n' :: rest.flatten := by
        simp [hl]
      have hne : (l :: rest).flatten ≠ [] := by
        rw [ht]; simp
      rw [readLinesAux_succ f _ hne, ht, fgets_line body _ 255 hnl hlen]
      simp only [List.map_cons, ← hl]
      rw [ih (fun x hx => h x (List.mem_cons_of_mem _ hx)) f (by simpa using hf)]

theorem length_le_flatten (ls : List (List Char)) (h : ∀ l ∈ ls, GoodLine l) :
    ls.length ≤ ls.flatten.length := by
  induction ls with
  | nil => simp
  | cons l rest ih =>
    obtain ⟨body, hl, _, _⟩ := h l (List.mem_cons_self _ _)
    have := ih (fun x hx => h x (List.mem_cons_of_mem _ hx))
    rw [List.flatten_cons, List.length_append, List.length_cons, hl, List.length_append]
    simp only [List.length_cons, List.length_nil]
    omega

/-- A text made of lines that each fit the buffer is read back line by line. -/
theorem fileLines_flatten (ls : List (List Char)) (h : ∀ l ∈ ls, GoodLine l) :
    fileLines ls.flatten = ls.map cstr :=
  readLinesAux_flatten ls h _ (length_le_flatten ls h)

theorem commentLine_good {l : List Char} (h : CommentLine l) : GoodLine l := by
  rcases h with h | ⟨body, hl, hnl, hlen⟩
  · exact ⟨[], by simp [h], by simp, by simp⟩
  · refine ⟨'#' :: body, by simp [hl], ?_, by simp; omega⟩
    intro hmem
    simp only [List.mem_cons] at hmem
    rcases hmem with hm | hm
    · revert hm; decide
    · exact hnl hm

theorem valid_goodLine {e : LogEntry} (h : e.Valid) : GoodLine e.render := by
  cases e with
  | comment line => exact commentLine_good h
  | record n c a b =>
    obtain ⟨_, _, hc, ha, hb⟩ := h
    exact record_goodLine n c hc ha hb

/-- The lines that the two readers see in a log made of valid entries. -/
theorem fileLines_entries (es : List LogEntry) (h : ∀ e ∈ es, e.Valid) :
    fileLines (es.map LogEntry.render).flatten = es.map (fun e => cstr e.render) := by
  rw [fileLines_flatten]
  · simp [List.map_map, Function.comp_def]
  · intro l hl
    obtain ⟨e, he, rfl⟩ := List.mem_map.mp hl
    exact valid_goodLine (h e he)

theorem cstr_comment {l : List Char} (h : CommentLine l) :
    cstr l = ['\n'] ∨ (cstr l).head? = some '#' := by
  rcases h with h | ⟨body, hl, _, _⟩
  · left; subst h; decide
  · right
    subst hl
    have : (decide ('#' ≠ Char.ofNat 0)) = true := by decide
    simp [cstr, List.takeWhile_cons, this]

theorem readLogLine_comment (m : Int) {l : List Char} (h : CommentLine l) :
    readLogLine m (cstr l) = m := by
  rcases cstr_comment h with h1 | h1
  · rw [h1]; simp [readLogLine]
  · simp [readLogLine, h1]

theorem restoreLine_comment (st : List Account × Int) {l : List Char} (h : CommentLine l) :
    restoreLine st (cstr l) = st := by
  rcases cstr_comment h with h1 | h1
  · rw [h1]; simp [restoreLine]
  · simp [restoreLine, h1]

theorem isspace_opType {c : Char} (hc : c = 'D' ∨ c = 'W') : isspace c = false := by
  rcases hc with hc | hc <;> (subst hc; decide)

theorem readLogLine_record (m : Int) {n : Int} (c : Char) (a b : Int)
    (h1 : 1 ≤ n) (hn : IsInt n) (hc : c = 'D' ∨ c = 'W') :
    readLogLine m (cstr (logRecord (generateBankId n) c a b))
      = if n > m then n else m := by
  rw [cstr_of_no_nul _ (record_no_nul n c a b hc)]
  have hhead := record_head n c a b
  have hlen := record_length_gt n c a b
  have hparse : sscanfBankId (logRecord (generateBankId n) c a b) = some n := by
    rw [logRecord_eq]
    apply sscanfBankId_generateBankId hn (by omega)
    intro x hx; simp at hx; subst hx; decide
  have hh : (logRecord (generateBankId n) c a b).head? ≠ some '#' := by
    rw [hhead]; decide
  simp only [readLogLine, hh, hlen, hparse, ne_eq, not_false_eq_true, gt_iff_lt, and_self,
    if_true]

theorem restoreLine_record (st : List Account × Int) {n : Int} {c : Char} {a b : Int}
    (hc : c = 'D' ∨ c = 'W') (ha : IsInt a) (hb : IsInt b) :
    restoreLine st (cstr (logRecord (generateBankId n) c a b))
      = match findById st.1 (generateBankId n) with
        | some index => restoreBalance st.1 st.2 index b
        | none =>
          if st.1.length ≥ 100 then st
          else restoreBalance
            (st.1 ++ [{ bankId := generateBankId n, balance := 0, active := true }])
            st.2 st.1.length b := by
  rw [cstr_of_no_nul _ (record_no_nul n c a b hc)]
  have hhead := record_head n c a b
  have hlen := record_length_gt n c a b
  have hne : generateBankId n ≠ [] := by
    obtain ⟨rest, hr⟩ := generateBankId_cons n
    rw [hr]; simp
  have hparse := sscanfRecord_logRecord (generateBankId n) c hne
    (fun x hx => (generateBankId_plain n x hx).1) (isspace_opType hc) ha hb
  have hh : ¬ ((logRecord (generateBankId n) c a b).head? = some '#' ∨
      (logRecord (generateBankId n) c a b).length ≤ 1) := by
    rw [hhead]
    intro h
    rcases h with h | h
    · revert h; decide
    · omega
  have htake : (generateBankId n).take 19 = generateBankId n :=
    List.take_of_length_le (generateBankId_length_le n)
  simp only [restoreLine, hh, if_false, hparse, htake]

/-! ## Replay of a log made of valid entries -/

theorem readLog_fold (es : List LogEntry) (hv : ∀ e ∈ es, e.Valid) (m : Int) :
    (es.map (fun e => cstr e.render)).foldl readLogLine m = maxNum m (LogEntry.nums es) := by
  induction es generalizing m with
  | nil => rfl
  | cons e rest ih =>
    have hrest := fun x hx => hv x (List.mem_cons_of_mem _ hx)
    have he := hv e (List.mem_cons_self _ _)
    cases e with
    | comment line =>
      simp only [List.map_cons, List.foldl_cons, LogEntry.render, LogEntry.nums]
      rw [readLogLine_comment m he]
      exact ih hrest m
    | record n c a b =>
      obtain ⟨h1, hn, hc, _, _⟩ := he
      simp only [List.map_cons, List.foldl_cons, LogEntry.render, LogEntry.nums, maxNum]
      rw [readLogLine_record m c a b h1 hn hc]
      exact ih hrest _

theorem maxNum_spec (ns : List Int) (m : Int) :
    m ≤ maxNum m ns ∧ (∀ n ∈ ns, n ≤ maxNum m ns) ∧ (maxNum m ns = m ∨ maxNum m ns ∈ ns) := by
  induction ns generalizing m with
  | nil => simp [maxNum]
  | cons n rest ih =>
    have hstep : maxNum m (n :: rest) = maxNum (if n > m then n else m) rest := rfl
    rw [hstep]
    obtain ⟨h1, h2, h3⟩ := ih (if n > m then n else m)
    by_cases hnm : n > m
    · simp only [hnm, if_true] at h1 h2 h3 ⊢
      refine ⟨by omega, ?_, ?_⟩
      · intro x hx
        simp only [List.mem_cons] at hx
        rcases hx with hx | hx
        · subst hx; exact h1
        · exact h2 x hx
      · rcases h3 with h3 | h3
        · right; rw [h3]; simp
        · right; exact List.mem_cons_of_mem _ h3
    · simp only [hnm, if_false] at h1 h2 h3 ⊢
      refine ⟨h1, ?_, ?_⟩
      · intro x hx
        simp only [List.mem_cons] at hx
        rcases hx with hx | hx
        · subst hx; omega
        · exact h2 x hx
      · rcases h3 with h3 | h3
        · left; exact h3
        · right; exact List.mem_cons_of_mem _ h3

theorem mem_modifyAt {f : Account → Account} {l : List Account} {k : Nat} {x : Account}
    (h : x ∈ modifyAt f l k) : x ∈ l ∨ ∃ y ∈ l, x = f y := by
  induction l generalizing k with
  | nil => simp [modifyAt] at h
  | cons a rest ih =>
    cases k with
    | zero =>
      simp only [modifyAt, List.mem_cons] at h
      rcases h with h | h
      · exact Or.inr ⟨a, List.mem_cons_self _ _, h⟩
      · exact Or.inl (List.mem_cons_of_mem _ h)
    | succ j =>
      simp only [modifyAt, List.mem_cons] at h
      rcases h with h | h
      · exact Or.inl (by simp [h])
      · rcases ih h with h2 | ⟨y, hy, hxy⟩
        · exact Or.inl (List.mem_cons_of_mem _ h2)
        · exact Or.inr ⟨y, List.mem_cons_of_mem _ hy, hxy⟩

theorem findById_none {l : List Account} {bankId : List Char} :
    findById l bankId = none ↔ bankId ∉ l.map Account.bankId := by
  induction l with
  | nil => simp [findById]
  | cons a rest ih =>
    unfold findById
    by_cases h : a.bankId = bankId
    · simp [h]
    · simp only [h, if_false, Option.map_eq_none', ih, List.map_cons, List.mem_cons, not_or]
      constructor
      · intro h2; exact ⟨fun h3 => h h3.symm, h2⟩
      · intro h2; exact h2.2

theorem findById_some {l : List Account} {bankId : List Char} {k : Nat}
    (h : findById l bankId = some k) : bankId ∈ l.map Account.bankId := by
  by_contra hc
  rw [findById_none.mpr hc] at h
  cases h

theorem restoreBalance_ids (accounts : List Account) (r : Int) (index : Nat) (b : Int) :
    (restoreBalance accounts r index b).1.map Account.bankId
      = accounts.map Account.bankId := by
  have h1 := modifyAt_map_bankId (fun a => { a with balance := b }) (fun _ => rfl)
    accounts index
  have h2 := modifyAt_map_bankId (fun a => { a with active := false }) (fun _ => rfl)
    (modifyAt (fun a => { a with balance := b }) accounts index) index
  unfold restoreBalance
  simp only
  split
  · rw [h2, h1]
  · split <;> exact h1

theorem restoreBalance_ints (accounts : List Account) (r : Int) (index : Nat) {b : Int}
    (h : ∀ a ∈ accounts, IsInt a.balance) (hb : IsInt b) :
    ∀ a ∈ (restoreBalance accounts r index b).1, IsInt a.balance := by
  have h1 : ∀ a ∈ modifyAt (fun a => { a with balance := b }) accounts index,
      IsInt a.balance := by
    intro a ha
    rcases mem_modifyAt ha with h2 | ⟨y, _, hy⟩
    · exact h a h2
    · rw [hy]; exact hb
  unfold restoreBalance
  simp only
  split
  · intro a ha
    rcases mem_modifyAt ha with h2 | ⟨y, hy, hay⟩
    · exact h1 a h2
    · rw [hay]; exact h1 y hy
  · split <;> exact h1

theorem toFinset_append_singleton (seen : List Int) (n : Int) :
    (seen ++ [n]).toFinset = insert n seen.toFinset := by
  ext x
  simp [or_comm]

theorem card_append_mono (seen rest : List Int) (n : Int) :
    (seen ++ [n]).toFinset.card ≤ (seen ++ n :: rest).toFinset.card := by
  apply Finset.card_le_card
  intro x hx
  simp only [List.mem_toFinset, List.mem_append, List.mem_cons, List.mem_singleton,
    List.not_mem_nil, or_false] at hx ⊢
  rcases hx with hx | hx
  · exact Or.inl hx
  · exact Or.inr (Or.inl hx)

/-- One record line keeps the loop invariant of `restoreDatabaseFromLog`. -/
theorem restoreLine_inv {seen : List Int} {st : List Account × Int} (n : Int) {c : Char}
    {a b : Int} (hinv : RestoreInv seen st.1)
    (hc : c = 'D' ∨ c = 'W') (ha : IsInt a) (hb : IsInt b)
    (hcard : (seen ++ [n]).toFinset.card ≤ 100) :
    RestoreInv (seen ++ [n])
      (restoreLine st (cstr (logRecord (generateBankId n) c a b))).1 := by
  rw [restoreLine_record st hc ha hb]
  have hmono : seen.toFinset.card ≤ (seen ++ [n]).toFinset.card := by
    rw [toFinset_append_singleton]
    exact Finset.card_le_card (Finset.subset_insert _ _)
  cases hf : findById st.1 (generateBankId n) with
  | some index =>
    simp only
    have hmem := findById_some hf
    refine ⟨?_, ?_, ?_, ?_, restoreBalance_ints _ _ _ hinv.ints hb⟩
    · intro x hx
      have hx2 : x.bankId ∈ (restoreBalance st.1 st.2 index b).1.map Account.bankId :=
        List.mem_map_of_mem _ hx
      rw [restoreBalance_ids] at hx2
      obtain ⟨y, hy, hxy⟩ := List.mem_map.mp hx2
      obtain ⟨m, hm, hym⟩ := hinv.ids y hy
      exact ⟨m, List.mem_append_left _ hm, by rw [← hxy, hym]⟩
    · rw [restoreBalance_ids]; exact hinv.nodup
    · intro m hm
      rw [restoreBalance_ids]
      rcases List.mem_append.mp hm with h1 | h1
      · exact hinv.mem m h1
      · simp at h1; subst h1; exact hmem
    · have : (restoreBalance st.1 st.2 index b).1.length = st.1.length := by
        have := congrArg List.length (restoreBalance_ids st.1 st.2 index b)
        simpa using this
      rw [this]
      exact le_trans hinv.len hmono
  | none =>
    simp only
    have hnot : generateBankId n ∉ st.1.map Account.bankId := findById_none.mp hf
    have hnseen : n ∉ seen := fun h => hnot (hinv.mem n h)
    have hcard2 : (seen ++ [n]).toFinset.card = seen.toFinset.card + 1 := by
      rw [toFinset_append_singleton]
      exact Finset.card_insert_of_not_mem (by simpa using hnseen)
    have hlen : ¬ (st.1.length ≥ 100) := by
      have := hinv.len
      omega
    simp only [hlen, if_false]
    have hints : ∀ x ∈ st.1 ++ [{ bankId := generateBankId n, balance := 0, active := true }],
        IsInt x.balance := by
      intro x hx
      rcases List.mem_append.mp hx with h1 | h1
      · exact hinv.ints x h1
      · simp at h1; subst h1
        show IsInt 0
        decide
    refine ⟨?_, ?_, ?_, ?_, restoreBalance_ints _ _ _ hints hb⟩
    · intro x hx
      have hx2 := List.mem_map_of_mem Account.bankId hx
      rw [restoreBalance_ids] at hx2
      simp only [List.map_append, List.map_cons, List.map_nil, List.mem_append,
        List.mem_singleton] at hx2
      rcases hx2 with h1 | h1
      · obtain ⟨y, hy, hxy⟩ := List.mem_map.mp h1
        obtain ⟨m, hm, hym⟩ := hinv.ids y hy
        exact ⟨m, List.mem_append_left _ hm, by rw [← hxy, hym]⟩
      · exact ⟨n, by simp, h1⟩
    · rw [restoreBalance_ids]
      simp only [List.map_append, List.map_cons, List.map_nil]
      rw [List.nodup_append]
      refine ⟨hinv.nodup, by simp, ?_⟩
      intro x hx1 hx2
      simp at hx2
      subst hx2
      exact hnot hx1
    · intro m hm
      rw [restoreBalance_ids]
      simp only [List.map_append, List.map_cons, List.map_nil, List.mem_append,
        List.mem_singleton]
      rcases List.mem_append.mp hm with h1 | h1
      · exact Or.inl (hinv.mem m h1)
      · simp at h1; subst h1; exact Or.inr rfl
    · have : (restoreBalance (st.1 ++
          [{ bankId := generateBankId n, balance := 0, active := true }])
          st.2 st.1.length b).1.length = st.1.length + 1 := by
        have := congrArg List.length (restoreBalance_ids (st.1 ++
          [{ bankId := generateBankId n, balance := 0, active := true }]) st.2 st.1.length b)
        simpa using this
      rw [this, hcard2]
      have := hinv.len
      omega

/-- The loop of `restoreDatabaseFromLog` over valid entries keeps its invariant,
as long as the log names at most 100 accounts. -/
theorem restore_fold_inv (es : List LogEntry) (hv : ∀ e ∈ es, e.Valid) :
    ∀ (seen : List Int) (st : List Account × Int), RestoreInv seen st.1 →
      (seen ++ LogEntry.nums es).toFinset.card ≤ 100 →
      RestoreInv (seen ++ LogEntry.nums es)
        ((es.map (fun e => cstr e.render)).foldl restoreLine st).1 := by
  induction es with
  | nil => intro seen st h _; simpa [LogEntry.nums] using h
  | cons e rest ih =>
    intro seen st h hcard
    have hrest := fun x hx => hv x (List.mem_cons_of_mem _ hx)
    have he := hv e (List.mem_cons_self _ _)
    cases e with
    | comment line =>
      simp only [List.map_cons, List.foldl_cons, LogEntry.render, LogEntry.nums] at hcard ⊢
      rw [restoreLine_comment st he]
      exact ih hrest seen st h hcard
    | record n c a b =>
      obtain ⟨_, _, hc, ha, hb⟩ := he
      simp only [List.map_cons, List.foldl_cons, LogEntry.render, LogEntry.nums] at hcard ⊢
      have hstep := restoreLine_inv n h hc ha hb
        (le_trans (card_append_mono seen (LogEntry.nums rest) n) hcard)
      have := ih hrest (seen ++ [n]) _ hstep (by simpa using hcard)
      simpa using this

/-! ## The invariant of a running server -/

theorem nums_append (es es2 : List LogEntry) :
    LogEntry.nums (es ++ es2) = LogEntry.nums es ++ LogEntry.nums es2 := by
  induction es with
  | nil => rfl
  | cons e rest ih =>
    cases e with
    | comment line => simpa [LogEntry.nums] using ih
    | record n c a b => simp [LogEntry.nums, ih]

theorem nums_valid {es : List LogEntry} (hv : ∀ e ∈ es, e.Valid) :
    ∀ n ∈ LogEntry.nums es, 1 ≤ n ∧ IsInt n := by
  induction es with
  | nil => intro n hn; simp [LogEntry.nums] at hn
  | cons e rest ih =>
    have hrest := ih (fun x hx => hv x (List.mem_cons_of_mem _ hx))
    have he := hv e (List.mem_cons_self _ _)
    cases e with
    | comment line => simpa [LogEntry.nums] using hrest
    | record m c a b =>
      intro n hn
      simp only [LogEntry.nums, List.mem_cons] at hn
      rcases hn with hn | hn
      · subst hn; exact ⟨he.1, he.2.1⟩
      · exact hrest n hn

/-- Records of different accounts need different accounts in the database. -/
theorem distinct_le_length {ns : List Int} (ids : List (List Char))
    (hv : ∀ n ∈ ns, 1 ≤ n ∧ IsInt n) (hmem : ∀ n ∈ ns, generateBankId n ∈ ids) :
    ns.toFinset.card ≤ ids.length := by
  have h1 : ns.toFinset.card ≤ ids.toFinset.card := by
    apply Finset.card_le_card_of_injOn generateBankId
    · intro n hn
      simp only [Finset.mem_coe, List.mem_toFinset] at hn ⊢
      exact hmem n hn
    · intro n hn m hm h
      simp only [Finset.mem_coe, List.mem_toFinset] at hn hm
      have := hv n hn
      have := hv m hm
      exact generateBankId_injective (hv n hn).2 (by omega) (hv m hm).2 (by omega) h
  exact le_trans h1 (List.toFinset_card_le ids)

theorem LogInv.distinct_le {s : ServerState} {es : List LogEntry} (h : LogInv s es) :
    LogEntry.distinct es ≤ s.bankDb.accounts.length := by
  have := distinct_le_length _ (nums_valid h.valid) h.rec_mem
  simpa [LogEntry.distinct] using this

theorem LogInv.last_small {s : ServerState} {es : List LogEntry} (h : LogInv s es) :
    s.lastClientId ≤ 10000 := by
  have h1 := h.distinct_le
  have h2 := h.db_len
  have h3 := h.last_le
  omega

theorem LogInv.isInt_succ {s : ServerState} {es : List LogEntry} (h : LogInv s es) :
    IsInt (s.lastClientId + 1) := by
  have h1 := h.last_small
  have h2 := h.last_nonneg
  unfold IsInt INT_MIN INT_MAX
  omega

theorem distinct_append_comment (es : List LogEntry) (l : List Char) :
    LogEntry.distinct (es ++ [.comment l]) = LogEntry.distinct es := by
  simp [LogEntry.distinct, nums_append, LogEntry.nums]

theorem distinct_mono (es : List LogEntry) (e : LogEntry) :
    LogEntry.distinct es ≤ LogEntry.distinct (es ++ [e]) := by
  unfold LogEntry.distinct
  apply Finset.card_le_card
  intro x hx
  simp only [List.mem_toFinset, nums_append, List.mem_append] at hx ⊢
  exact Or.inl hx

/-- Appending a comment line to the log keeps the invariant. -/
theorem LogInv.append_comment {s : ServerState} {es : List LogEntry} (h : LogInv s es)
    {l : List Char} (hl : CommentLine l) :
    LogInv { s with logFile := s.logFile ++ l } (es ++ [.comment l]) := by
  have hn : LogEntry.nums (es ++ [LogEntry.comment l]) = LogEntry.nums es := by
    simp [nums_append, LogEntry.nums]
  refine ⟨?_, ?_, ?_, ?_, h.db_ids, h.db_nodup, h.db_len, h.db_int, h.last_nonneg, ?_⟩
  · simp [h.log_eq, LogEntry.render]
  · intro e he
    rcases List.mem_append.mp he with h1 | h1
    · exact h.valid e h1
    · simp at h1; subst h1; exact hl
  · rw [hn]; exact h.rec_mem
  · rw [hn, distinct_append_comment]; exact h.rec_le
  · rw [distinct_append_comment]; exact h.last_le

/-- Appending a record of an account of the database keeps the invariant. -/
theorem LogInv.append_record {s : ServerState} {es : List LogEntry} (h : LogInv s es)
    (n : Int) (c : Char) (a b : Int)
    (h1 : 1 ≤ n) (hle : n ≤ s.lastClientId)
    (hmem : generateBankId n ∈ s.bankDb.accounts.map Account.bankId)
    (hc : c = 'D' ∨ c = 'W') (ha : IsInt a) (hb : IsInt b) :
    LogInv { s with logFile := s.logFile ++ logRecord (generateBankId n) c a b }
      (es ++ [.record n c a b]) := by
  have hsmall := h.last_small
  have hn : LogEntry.nums (es ++ [LogEntry.record n c a b]) = LogEntry.nums es ++ [n] := by
    simp [nums_append, LogEntry.nums]
  have hmono := distinct_mono es (.record n c a b)
  have hK := h.distinct_le
  have hD := h.db_len
  have hlast := h.last_le
  refine ⟨?_, ?_, ?_, ?_, h.db_ids, h.db_nodup, h.db_len, h.db_int, h.last_nonneg, ?_⟩
  · simp [h.log_eq, LogEntry.render]
  · intro e he
    rcases List.mem_append.mp he with h2 | h2
    · exact h.valid e h2
    · simp at h2; subst h2
      refine ⟨h1, ?_, hc, ha, hb⟩
      unfold IsInt INT_MIN INT_MAX
      omega
  · rw [hn]
    intro m hm
    rcases List.mem_append.mp hm with h2 | h2
    · exact h.rec_mem m h2
    · simp at h2; subst h2; exact hmem
  · rw [hn]
    intro m hm
    by_cases hin : n ∈ LogEntry.nums es
    · have hm2 : m ∈ LogEntry.nums es := by
        rcases List.mem_append.mp hm with h2 | h2
        · exact h2
        · simp at h2; subst h2; exact hin
      have := h.rec_le m hm2
      omega
    · have hK2 : LogEntry.distinct (es ++ [LogEntry.record n c a b])
          = LogEntry.distinct es + 1 := by
        unfold LogEntry.distinct
        rw [hn, toFinset_append_singleton]
        exact Finset.card_insert_of_not_mem (by simpa using hin)
      rw [hK2]
      rcases List.mem_append.mp hm with h2 | h2
      · have := h.rec_le m h2
        push_cast
        omega
      · simp at h2; subst h2
        push_cast
        omega
  · show s.lastClientId ≤ 99 * (LogEntry.distinct (es ++ [LogEntry.record n c a b]) : Int)
      + (s.bankDb.accounts.length : Int)
    omega

/-- Changing balances and active flags, with `int` balances, keeps the invariant. -/
theorem LogInv.update_accounts {s : ServerState} {es : List LogEntry} (h : LogInv s es)
    {accounts : List Account}
    (hids : accounts.map Account.bankId = s.bankDb.accounts.map Account.bankId)
    (hint : ∀ a ∈ accounts, IsInt a.balance) :
    LogInv { s with bankDb := { accounts := accounts } } es := by
  have hlen : accounts.length = s.bankDb.accounts.length := by
    have := congrArg List.length hids
    simpa using this
  refine ⟨h.log_eq, h.valid, ?_, h.rec_le, ?_, ?_, ?_, hint, h.last_nonneg, ?_⟩
  · intro n hn
    show generateBankId n ∈ accounts.map Account.bankId
    rw [hids]; exact h.rec_mem n hn
  · intro a ha
    have : a.bankId ∈ s.bankDb.accounts.map Account.bankId := by
      rw [← hids]; exact List.mem_map_of_mem _ ha
    obtain ⟨y, hy, hya⟩ := List.mem_map.mp this
    obtain ⟨n, hn1, hn2, hn3⟩ := h.db_ids y hy
    exact ⟨n, hn1, hn2, by rw [← hya, hn3]⟩
  · show (accounts.map Account.bankId).Nodup
    rw [hids]; exact h.db_nodup
  · show accounts.length ≤ 100
    rw [hlen]; exact h.db_len
  · show s.lastClientId ≤ 99 * (LogEntry.distinct es : Int) + (accounts.length : Int)
    rw [hlen]; exact h.last_le

/-- The new id of `createAccount` is the id of no account of the database. -/
theorem LogInv.fresh_id {s : ServerState} {es : List LogEntry} (h : LogInv s es) :
    generateBankId (s.lastClientId + 1) ∉ s.bankDb.accounts.map Account.bankId := by
  intro hmem
  obtain ⟨y, hy, hyid⟩ := List.mem_map.mp hmem
  obtain ⟨n, hn1, hn2, hn3⟩ := h.db_ids y hy
  have hsmall := h.last_small
  have hnn := h.last_nonneg
  have hint : IsInt n := by
    unfold IsInt INT_MIN INT_MAX
    omega
  have := generateBankId_injective hint (by omega) h.isInt_succ (by omega)
    (by rw [← hn3, hyid])
  omega

/-- Adding the account of `createAccount` keeps the invariant. -/
theorem LogInv.create {s : ServerState} {es : List LogEntry} (h : LogInv s es)
    {amount : Int} (hcap : s.bankDb.accounts.length < 100) (ha : IsInt amount) :
    LogInv { bankDb := { accounts := s.bankDb.accounts ++
                          [{ bankId := generateBankId (s.lastClientId + 1),
                             balance := amount, active := true }] },
             lastClientId := s.lastClientId + 1,
             logFile := s.logFile } es := by
  have hfresh := h.fresh_id
  have hlast := h.last_le
  have hnn := h.last_nonneg
  refine ⟨h.log_eq, h.valid, ?_, h.rec_le, ?_, ?_, ?_, ?_, ?_, ?_⟩
  · intro n hn
    simp only [List.map_append, List.mem_append]
    exact Or.inl (h.rec_mem n hn)
  · intro a hmem
    simp only [List.mem_append, List.mem_singleton] at hmem
    rcases hmem with h1 | h1
    · obtain ⟨n, hn1, hn2, hn3⟩ := h.db_ids a h1
      exact ⟨n, hn1, by show n ≤ s.lastClientId + 1; omega, hn3⟩
    · subst h1
      exact ⟨s.lastClientId + 1, by omega, le_refl _, rfl⟩
  · simp only [List.map_append, List.map_cons, List.map_nil]
    rw [List.nodup_append]
    refine ⟨h.db_nodup, by simp, ?_⟩
    intro x hx1 hx2
    simp at hx2
    subst hx2
    exact hfresh hx1
  · simp only [List.length_append, List.length_cons, List.length_nil]
    omega
  · intro a hmem
    simp only [List.mem_append, List.mem_singleton] at hmem
    rcases hmem with h1 | h1
    · exact h.db_int a h1
    · subst h1; exact ha
  · show 0 ≤ s.lastClientId + 1
    omega
  · show s.lastClientId + 1 ≤ _
    simp only [List.length_append, List.length_cons, List.length_nil]
    push_cast
    omega

theorem map_bankId_set {l : List Account} {k : Nat} {acc : Account} (v : Account)
    (hacc : l[k]? = some acc) (hv : v.bankId = acc.bankId) :
    (l.set k v).map Account.bankId = l.map Account.bankId := by
  induction l generalizing k with
  | nil => simp
  | cons a rest ih =>
    cases k with
    | zero =>
      simp at hacc
      subst hacc
      simp [hv]
    | succ j =>
      simp at hacc
      simp [ih hacc]

/-- Updating the account found and logging the operation keeps the invariant. -/
theorem LogInv.set_and_log {s : ServerState} {es : List LogEntry} (h : LogInv s es)
    {k : Nat} {acc : Account} (v : Account) (hacc : s.bankDb.accounts[k]? = some acc)
    (hv : v.bankId = acc.bankId) (hvint : IsInt v.balance)
    {c : Char} (hc : c = 'D' ∨ c = 'W') {a b : Int} (ha : IsInt a) (hb : IsInt b) :
    ∃ es2, LogInv { bankDb := { accounts := s.bankDb.accounts.set k v },
                    lastClientId := s.lastClientId,
                    logFile := updateLogFile s.logFile acc.bankId c a b } es2 := by
  have hmem : acc ∈ s.bankDb.accounts := List.getElem?_mem hacc
  obtain ⟨n, hn1, hn2, hn3⟩ := h.db_ids acc hmem
  have hids := map_bankId_set v hacc hv
  have hint : ∀ x ∈ s.bankDb.accounts.set k v, IsInt x.balance := by
    intro x hx
    rcases List.mem_or_eq_of_mem_set hx with h1 | h1
    · exact h.db_int x h1
    · rw [h1]; exact hvint
  have h1 := h.update_accounts hids hint
  unfold updateLogFile
  split
  · exact ⟨es, h1⟩
  · refine ⟨es ++ [.record n c a b], ?_⟩
    have hm : generateBankId n ∈ (s.bankDb.accounts.set k v).map Account.bankId := by
      rw [hids, ← hn3]
      exact List.mem_map_of_mem _ hmem
    have := h1.append_record n c a b hn1 hn2 hm hc ha hb
    rw [hn3]
    exact this

/-- Serving a request keeps the invariant. -/
theorem LogInv.serve {s : ServerState} {es : List LogEntry} (h : LogInv s es)
    (req : TellerRequest) (resp : ServerResponse) (ha : IsInt req.amount) :
    ∃ es2, LogInv (processDatabaseRequest req resp s).2 es2 := by
  have hw : wrapInt (s.lastClientId + 1) = s.lastClientId + 1 :=
    wrapInt_of_isInt h.isInt_succ
  rcases processDatabaseRequest_cases req resp s _ rfl with
    ⟨h2, _⟩ | ⟨_, hlen, _, _, _, h2⟩ |
    ⟨k, acc, _, _, _, hacc, _, hid, h2, _⟩ |
    ⟨k, acc, _, _, _, hacc, _, hid, _, h2, _⟩
  · rw [h2]; exact ⟨es, h⟩
  · rw [h2, hw]
    have h1 := h.create hlen ha
    unfold updateLogFile
    split
    · exact ⟨es, h1⟩
    · refine ⟨es ++ [.record (s.lastClientId + 1) 'D' req.amount req.amount], ?_⟩
      have hnn := h.last_nonneg
      exact h1.append_record (s.lastClientId + 1) 'D' req.amount req.amount
        (by omega) (le_refl _) (by simp) (Or.inl rfl) ha ha
  · rw [h2, ← hid]
    exact h.set_and_log { acc with balance := wrapInt (acc.balance + req.amount) }
      hacc rfl (isInt_wrapInt _) (Or.inl rfl) ha (isInt_wrapInt _)
  · rw [h2, ← hid]
    exact h.set_and_log
      { acc with balance := wrapInt (acc.balance - req.amount),
                 active := decide (wrapInt (acc.balance - req.amount) ≠ 0) }
      hacc rfl (isInt_wrapInt _) (Or.inr rfl) ha (isInt_wrapInt _)

theorem logHeaderLine_comment {name timeStr : List Char} (h1 : '\n' ∉ name)
    (h2 : '\n' ∉ timeStr) (hl1 : name.length ≤ 49) (hl2 : timeStr.length ≤ 29) :
    CommentLine (logHeaderLine name timeStr) := by
  right
  refine ⟨' ' :: name ++ " Log file updated @".toList ++ timeStr, ?_, ?_, ?_⟩
  · simp [logHeaderLine]
  · intro hmem
    simp only [List.cons_append, List.mem_cons, List.mem_append] at hmem
    rcases hmem with h | (h | h) | h
    · revert h; decide
    · exact h1 h
    · revert h; decide
    · exact h2 h
  · have : (" Log file updated @".toList).length = 19 := by decide
    simp only [List.cons_append, List.length_cons, List.length_append, this]
    omega

theorem not_mem_take {l : List Char} (n : Nat) (h : '\n' ∉ l) : '\n' ∉ l.take n :=
  fun hm => h (List.mem_of_mem_take hm)

theorem blank_comment : CommentLine ['\n'] := Or.inl rfl

/-- Booting on the log of a state that satisfies the invariant gives a state
that satisfies it. -/
theorem LogInv.boot {s : ServerState} {es : List LogEntry} (h : LogInv s es)
    (name buildTime timeStr : List Char) (h1 : '\n' ∉ name) (h2 : '\n' ∉ buildTime) :
    ∃ es2, LogInv (initializeServer name buildTime timeStr (some s.logFile)) es2 := by
  have hhdr : CommentLine (logHeaderLine (name.take 49) (buildTime.take 8)) :=
    logHeaderLine_comment (not_mem_take _ h1) (not_mem_take _ h2)
      (by simp [List.length_take]) (by simp [List.length_take])
  refine ⟨es ++ [.comment (logHeaderLine (name.take 49) (buildTime.take 8))], ?_⟩
  have hK := h.distinct_le
  have hD := h.db_len
  have hlines := fileLines_entries es h.valid
  rw [← h.log_eq] at hlines
  have hcard0 : (LogEntry.nums es).toFinset.card ≤ 100 := by
    have h5 : (LogEntry.nums es).toFinset.card ≤ s.bankDb.accounts.length := hK
    omega
  have hcard : ([] ++ LogEntry.nums es).toFinset.card ≤ 100 := by
    simpa using hcard0
  have hinit : RestoreInv [] (([], 0) : List Account × Int).1 :=
    ⟨by simp, by simp, by simp, by simp, by simp⟩
  have hres := restore_fold_inv es h.valid [] ([], 0) hinit hcard
  simp only [List.nil_append] at hres
  have hmax := maxNum_spec (LogEntry.nums es) 0
  have hread := readLog_fold es h.valid 0
  have hnv := nums_valid h.valid
  have hn : LogEntry.nums (es ++ [LogEntry.comment
      (logHeaderLine (name.take 49) (buildTime.take 8))]) = LogEntry.nums es := by
    simp [nums_append, LogEntry.nums]
  have hdb : (initializeServer name buildTime timeStr (some s.logFile)).bankDb.accounts
      = ((es.map (fun e => cstr e.render)).foldl restoreLine ([], 0)).1 := by
    simp only [initializeServer, restoreDatabaseFromLog, hlines]
  have hlast : (initializeServer name buildTime timeStr (some s.logFile)).lastClientId
      = maxNum 0 (LogEntry.nums es) := by
    simp only [initializeServer, readLogFile, hlines, hread]
  have hlog : (initializeServer name buildTime timeStr (some s.logFile)).logFile
      = s.logFile ++ logHeaderLine (name.take 49) (buildTime.take 8) := by
    simp only [initializeServer]
  have hK2 : (LogEntry.nums es).toFinset.card
      ≤ (((es.map (fun e => cstr e.render)).foldl restoreLine ([], 0)).1).length := by
    have := distinct_le_length ((((es.map (fun e => cstr e.render)).foldl
      restoreLine ([], 0)).1).map Account.bankId) hnv hres.mem
    simpa using this
  refine ⟨?_, ?_, ?_, ?_, ?_, ?_, ?_, ?_, ?_, ?_⟩
  · rw [hlog, h.log_eq]
    simp [LogEntry.render]
  · intro e he
    rcases List.mem_append.mp he with h3 | h3
    · exact h.valid e h3
    · simp at h3; subst h3; exact hhdr
  · rw [hn, hdb]; exact hres.mem
  · rw [hn, distinct_append_comment]; exact h.rec_le
  · rw [hdb, hlast]
    intro a ha
    obtain ⟨n, hn1, hn2⟩ := hres.ids a ha
    exact ⟨n, (hnv n hn1).1, hmax.2.1 n hn1, hn2⟩
  · rw [hdb]; exact hres.nodup
  · rw [hdb]
    have := hres.len
    omega
  · rw [hdb]; exact hres.ints
  · rw [hlast]; exact hmax.1
  · rw [hlast, hdb, distinct_append_comment]
    have hle : maxNum 0 (LogEntry.nums es) ≤ 100 * (LogEntry.distinct es : Int) := by
      rcases hmax.2.2 with h3 | h3
      · rw [h3]; positivity
      · exact h.rec_le _ h3
    have : (LogEntry.distinct es : Int)
        ≤ ((((es.map (fun e => cstr e.render)).foldl restoreLine ([], 0)).1).length : Int) := by
      unfold LogEntry.distinct
      exact_mod_cast hK2
    omega

theorem snapshot_line_eq (a : Account) :
    a.bankId ++ [' ', 'D', ' ', '0', ' '] ++ fmtInt a.balance ++ ['\n']
      = logRecord a.bankId 'D' 0 a.balance := by
  have : fmtInt 0 = ['0'] := by decide
  simp [logRecord, this]

/-- The snapshot lines of `cleanupServer` keep the invariant. -/
theorem LogInv.snapshot (l : List Account) :
    ∀ (s : ServerState) (es : List LogEntry), LogInv s es →
      (∀ a ∈ l, a ∈ s.bankDb.accounts) →
      ∃ es2, LogInv { s with logFile := s.logFile ++ snapshotLines l } es2 := by
  induction l with
  | nil =>
    intro s es h _
    exact ⟨es, by simpa [snapshotLines] using h⟩
  | cons a rest ih =>
    intro s es h hmem
    have hrest : ∀ x ∈ rest, x ∈ s.bankDb.accounts :=
      fun x hx => hmem x (List.mem_cons_of_mem _ hx)
    unfold snapshotLines
    split
    · have ha : a ∈ s.bankDb.accounts := hmem a (List.mem_cons_self _ _)
      obtain ⟨n, hn1, hn2, hn3⟩ := h.db_ids a ha
      have hm : generateBankId n ∈ s.bankDb.accounts.map Account.bankId := by
        rw [← hn3]; exact List.mem_map_of_mem _ ha
      have h1 := h.append_record n 'D' 0 a.balance hn1 hn2 hm
        (Or.inl rfl) (by decide) (h.db_int a ha)
      obtain ⟨es2, h2⟩ := ih _ _ h1 hrest
      refine ⟨es2, ?_⟩
      rw [snapshot_line_eq, hn3]
      simpa [List.append_assoc] using h2
    · exact ih s es h hrest

theorem endMarker_comment : CommentLine ("## end of log.".toList ++ ['\n']) := by
  right
  exact ⟨"# end of log.".toList, by decide, by decide, by decide⟩

/-- The text that `cleanupServer` leaves in the log keeps the invariant. -/
theorem LogInv.cleanup {s : ServerState} {es : List LogEntry} (h : LogInv s es)
    (name timeStr : List Char) (h1 : '\n' ∉ name) (h2 : '\n' ∉ timeStr) :
    ∃ es2, LogInv { s with logFile := cleanupServer name timeStr s } es2 := by
  have hhdr : CommentLine (logHeaderLine (name.take 49) (timeStr.take 29)) :=
    logHeaderLine_comment (not_mem_take _ h1) (not_mem_take _ h2)
      (by simp [List.length_take]) (by simp [List.length_take])
  have s1 := (h.append_comment hhdr).append_comment blank_comment
  obtain ⟨es2, s2⟩ := LogInv.snapshot s.bankDb.accounts _ _ s1 (fun a ha => ha)
  have s3 := ((s2.append_comment blank_comment).append_comment
    endMarker_comment).append_comment blank_comment
  refine ⟨es2 ++ [.comment ['\n']] ++ [.comment ("## end of log.".toList ++ ['\n'])]
    ++ [.comment ['\n']], ?_⟩
  simpa [cleanupServer, endOfLog, List.append_assoc] using s3

/-- Every state the server reaches satisfies the invariant for some list of
log entries. -/
theorem Reachable.inv {s : ServerState} (h : Reachable s) : ∃ es, LogInv s es := by
  induction h with
  | empty =>
    refine ⟨[], ⟨rfl, by simp, by simp [LogEntry.nums], by simp [LogEntry.nums], ?_, ?_, ?_,
      ?_, ?_, ?_⟩⟩ <;> simp [initialState, LogEntry.distinct, LogEntry.nums]
  | fresh name buildTime timeStr h1 h2 =>
    have h0 : LogInv initialState [] := by
      refine ⟨rfl, by simp, by simp [LogEntry.nums], by simp [LogEntry.nums], ?_, ?_, ?_,
        ?_, ?_, ?_⟩ <;> simp [initialState, LogEntry.distinct, LogEntry.nums]
    have hhdr : CommentLine (logHeaderLine (name.take 49) (timeStr.take 29)) :=
      logHeaderLine_comment (not_mem_take _ h1) (not_mem_take _ h2)
        (by simp [List.length_take]) (by simp [List.length_take])
    have s1 := (h0.append_comment hhdr).append_comment blank_comment
    refine ⟨[] ++ [.comment (logHeaderLine (name.take 49) (timeStr.take 29))]
      ++ [.comment ['\n']], ?_⟩
    simpa [initializeServer, initialState] using s1
  | serve s req resp _ ha ih =>
    obtain ⟨es, h⟩ := ih
    exact h.serve req resp ha
  | restart s name buildTime timeStr _ h1 h2 ih =>
    obtain ⟨es, h⟩ := ih
    exact h.boot name buildTime timeStr h1 h2
  | shutdownRestart s name buildTime timeStr timeStr2 _ h1 h2 h3 ih =>
    obtain ⟨es, h⟩ := ih
    obtain ⟨es2, h4⟩ := h.cleanup name timeStr h1 h3
    exact h4.boot name buildTime timeStr2 h1 h2

/-! ## Ids are never reused -/

theorem Reachable.serve_all {s : ServerState} (h : Reachable s) (reqs : List TellerRequest)
    (hreqs : ∀ r ∈ reqs, IsInt r.amount) : Reachable (serveAll s reqs) := by
  induction reqs generalizing s with
  | nil => exact h
  | cons req rest ih =>
    exact ih (Reachable.serve s req zeroResponse h (hreqs req (List.mem_cons_self _ _)))
      (fun r hr => hreqs r (List.mem_cons_of_mem _ hr))

/-- A successful open returns the id numbered `lastClientId + 1` and stores
that number in `lastClientId`; no request lowers `lastClientId`. -/
theorem LogInv.open_step {s : ServerState} {es : List LogEntry} (h : LogInv s es)
    (req : TellerRequest) (resp : ServerResponse) :
    (isOpen req = true → (processDatabaseRequest req resp s).1.status = 0 →
      (processDatabaseRequest req resp s).1.bankId = generateBankId (s.lastClientId + 1) ∧
      (processDatabaseRequest req resp s).2.lastClientId = s.lastClientId + 1) ∧
    s.lastClientId ≤ (processDatabaseRequest req resp s).2.lastClientId := by
  have hw : wrapInt (s.lastClientId + 1) = s.lastClientId + 1 :=
    wrapInt_of_isInt h.isInt_succ
  rcases processDatabaseRequest_cases req resp s _ rfl with
    ⟨h2, hst, _⟩ | ⟨_, _, _, hid, _, h2⟩ |
    ⟨k, acc, ho, _, _, _, _, _, h2, _⟩ |
    ⟨k, acc, ho, _, _, _, _, _, _, h2, _⟩
  · exact ⟨fun _ h0 => absurd h0 hst, by rw [h2]⟩
  · rw [hw] at hid
    refine ⟨fun _ _ => ⟨hid, ?_⟩, ?_⟩
    · rw [h2]; exact hw
    · rw [h2]
      show s.lastClientId ≤ wrapInt (s.lastClientId + 1)
      rw [hw]; omega
  · refine ⟨fun h0 => ?_, by rw [h2]⟩
    rw [ho] at h0; cases h0
  · refine ⟨fun h0 => ?_, by rw [h2]⟩
    rw [ho] at h0; cases h0

/-- The numbers of the ids returned by the successful opens of a request
sequence increase strictly, and all exceed the initial `lastClientId`. -/
theorem opened_increasing (reqs : List TellerRequest) :
    ∀ s, Reachable s → (∀ r ∈ reqs, IsInt r.amount) →
      ∃ ns : List Int, (openedIds s reqs).map sscanfBankId = ns.map some ∧
        ns.Pairwise (· < ·) ∧ ∀ n ∈ ns, s.lastClientId < n := by
  induction reqs with
  | nil => intro s _ _; exact ⟨[], rfl, List.Pairwise.nil, by simp⟩
  | cons req rest ih =>
    intro s hs hreqs
    have ha := hreqs req (List.mem_cons_self _ _)
    obtain ⟨es, hinv⟩ := hs.inv
    obtain ⟨hopen, hmono⟩ := hinv.open_step req zeroResponse
    obtain ⟨ns, hns, hpw, hgt⟩ := ih _ (Reachable.serve s req zeroResponse hs ha)
      (fun r hr => hreqs r (List.mem_cons_of_mem _ hr))
    unfold openedIds
    split
    · rename_i hc
      obtain ⟨hid, hlast⟩ := hopen hc.1 hc.2
      have hsucc := hinv.isInt_succ
      have hnn := hinv.last_nonneg
      refine ⟨(s.lastClientId + 1) :: ns, ?_, ?_, ?_⟩
      · simp only [List.map_cons, hns, hid]
        rw [sscanfBankId_generateBankId_self hsucc (by omega)]
      · refine List.Pairwise.cons ?_ hpw
        intro n hn
        have := hgt n hn
        rw [hlast] at this
        exact this
      · intro n hn
        simp only [List.mem_cons] at hn
        rcases hn with hn | hn
        · omega
        · have := hgt n hn
          omega
    · refine ⟨ns, hns, hpw, ?_⟩
      intro n hn
      have := hgt n hn
      omega

/-- C4 (invariant I2): in every state `s` the server reaches (started on the
empty database, or booted by replaying the log it wrote itself, after a clean
shutdown or a kill) and for every sequence `reqs` of requests served from `s`:
the ids returned by the successive successful opens have strictly increasing
numeric suffixes; an id assigned by a further successful open differs from
the id of every account then in the database, active or closed; and
`lastClientId` is at least the numeric suffix of every id in the database. -/
theorem ids_never_reused (s : ServerState) (hs : Reachable s)
    (reqs : List TellerRequest) (hreqs : ∀ r ∈ reqs, IsInt r.amount) :
    (∃ ns : List Int, (openedIds s reqs).map sscanfBankId = ns.map some ∧
      ns.Pairwise (· < ·)) ∧
    (∀ (req : TellerRequest) (resp : ServerResponse), isOpen req = true →
      (processDatabaseRequest req resp (serveAll s reqs)).1.status = 0 →
      (processDatabaseRequest req resp (serveAll s reqs)).1.bankId
        ∉ (serveAll s reqs).bankDb.accounts.map Account.bankId) ∧
    (∀ a ∈ (serveAll s reqs).bankDb.accounts,
      ∃ n : Int, sscanfBankId a.bankId = some n ∧ n ≤ (serveAll s reqs).lastClientId) := by
  obtain ⟨ns, hns, hpw, _⟩ := opened_increasing reqs s hs hreqs
  obtain ⟨es, hinv⟩ := (hs.serve_all reqs hreqs).inv
  refine ⟨⟨ns, hns, hpw⟩, ?_, ?_⟩
  · intro req resp hopen hst
    rw [((hinv.open_step req resp).1 hopen hst).1]
    exact hinv.fresh_id
  · intro a ha
    obtain ⟨n, hn1, hn2, hn3⟩ := hinv.db_ids a ha
    have hsmall := hinv.last_small
    have hint : IsInt n := by
      unfold IsInt INT_MIN INT_MAX
      omega
    exact ⟨n, by rw [hn3]; exact sscanfBankId_generateBankId_self hint (by omega), hn2⟩

/-- Witness of `ids_never_reused`: a server that opened `BankID_01`, was
killed and restarted on its log, then serves two opens. -/
theorem ids_never_reused_witness :
    ∃ ns : List Int,
      (openedIds
        (initializeServer "AdaBank".toList "12:00:00".toList []
          (some (processDatabaseRequest (openReq 300) zeroResponse initialState).2.logFile))
        [openReq 5, openReq 7]).map sscanfBankId = ns.map some ∧
      ns.Pairwise (· < ·) :=
  (ids_never_reused
    (initializeServer "AdaBank".toList "12:00:00".toList []
      (some (processDatabaseRequest (openReq 300) zeroResponse initialState).2.logFile))
    (Reachable.restart _ _ _ _
      (Reachable.serve initialState (openReq 300) zeroResponse Reachable.empty (by decide))
      (by decide) (by decide))
    [openReq 5, openReq 7] (by decide)).1

/-- Scenario "recovery" of the specification: after a restart on a log that
holds only records of `BankID_01`, the next opens yield `BankID_02` and
`BankID_03`. -/
theorem open_after_restart_example :
    openedIds
      (initializeServer "AdaBank".toList "12:00:00".toList []
        (some (processDatabaseRequest (openReq 300) zeroResponse initialState).2.logFile))
      [openReq 5, openReq 7] = ["BankID_02".toList, "BankID_03".toList] := by
  decide

/-! ## Recovery round trip when no deposit overflows -/

theorem findById_of_nodup {l : List Account} {k : Nat} {acc : Account}
    (hacc : l[k]? = some acc) (hnd : (l.map Account.bankId).Nodup) :
    findById l acc.bankId = some k := by
  induction l generalizing k with
  | nil => simp at hacc
  | cons a rest ih =>
    cases k with
    | zero =>
      simp at hacc
      subst hacc
      simp [findById]
    | succ j =>
      simp at hacc
      have hnd2 : (rest.map Account.bankId).Nodup := by
        simp only [List.map_cons, List.nodup_cons] at hnd
        exact hnd.2
      have hne : a.bankId ≠ acc.bankId := by
        simp only [List.map_cons, List.nodup_cons] at hnd
        intro heq
        apply hnd.1
        rw [heq]
        exact List.mem_map_of_mem _ (List.getElem?_mem hacc)
      simp [findById, hne, ih hacc hnd2]

/-- Replay of one more record of an account that the database holds. -/
theorem restoreLine_existing {accounts : List Account} (r : Int) {k : Nat} {acc : Account}
    {n : Int} (c : Char) (a : Int) {b : Int}
    (hacc : accounts[k]? = some acc) (hid : acc.bankId = generateBankId n)
    (hnd : (accounts.map Account.bankId).Nodup)
    (hc : c = 'D' ∨ c = 'W') (ha : IsInt a) (hb : IsInt b) :
    (restoreLine (accounts, r) (cstr (logRecord (generateBankId n) c a b))).1
      = accounts.set k { acc with balance := b,
                                  active := if b = 0 then false else acc.active } := by
  have hk := getElem?_lt_length hacc
  have hfind : findById accounts (generateBankId n) = some k := by
    rw [← hid]; exact findById_of_nodup hacc hnd
  rw [restoreLine_record (accounts, r) hc ha hb]
  simp only [hfind]
  have hget2 : (modifyAt (fun x => { x with balance := b }) accounts k)[k]?
      = some { acc with balance := b } := by
    rw [modifyAt_eq_set _ hacc]
    simp [hk]
  unfold restoreBalance
  simp only
  split
  · rename_i hb0
    rw [modifyAt_eq_set _ hget2, modifyAt_eq_set _ hacc]
    simp [hb0]
  · rename_i hb0
    split <;> rw [modifyAt_eq_set _ hacc]

/-- Replay of the first record of an account that is not yet in the database. -/
theorem restoreLine_new {accounts : List Account} (r : Int) {n : Int} {c : Char} {a b : Int}
    (hnew : generateBankId n ∉ accounts.map Account.bankId)
    (hlen : accounts.length < 100) (hb0 : b ≠ 0)
    (hc : c = 'D' ∨ c = 'W') (ha : IsInt a) (hb : IsInt b) :
    (restoreLine (accounts, r) (cstr (logRecord (generateBankId n) c a b))).1
      = accounts ++ [{ bankId := generateBankId n, balance := b, active := true }] := by
  have hfind : findById accounts (generateBankId n) = none := findById_none.mpr hnew
  have hl : ¬ (accounts.length ≥ 100) := by omega
  rw [restoreLine_record (accounts, r) hc ha hb]
  simp only [hfind, hl, if_false]
  have hget : (accounts ++ [(⟨generateBankId n, 0, true⟩ : Account)])[accounts.length]?
      = some ⟨generateBankId n, 0, true⟩ := by
    simp
  unfold restoreBalance
  simp only [hb0, if_false]
  split <;> (rw [modifyAt_eq_set _ hget]; simp)

theorem fold_restore_snoc (es : List LogEntry) (e : LogEntry) :
    ((es ++ [e]).map (fun e => cstr e.render)).foldl restoreLine ([], 0)
      = restoreLine ((es.map (fun e => cstr e.render)).foldl restoreLine ([], 0))
          (cstr e.render) := by
  simp [List.foldl_append]

theorem maxNum_snoc (ns : List Int) (n : Int) :
    maxNum 0 (ns ++ [n]) = if n > maxNum 0 ns then n else maxNum 0 ns := by
  simp [maxNum, List.foldl_append]

/-- Serving one request with a positive amount keeps the log and the globals in
step, as long as no balance can overflow. -/
theorem ReplayInv.replay_step {s : ServerState} {es : List LogEntry} (h : ReplayInv s es)
    {bound : Int} (hok : BalancesOk s bound)
    (req : TellerRequest) (resp : ServerResponse) (hpos : 0 < req.amount)
    (h0 : 0 ≤ bound) (hmax : bound + req.amount ≤ INT_MAX) :
    ∃ es2, ReplayInv (processDatabaseRequest req resp s).2 es2 := by
  have ha : IsInt req.amount := by
    unfold IsInt INT_MIN
    unfold INT_MAX at *
    omega
  have hw : wrapInt (s.lastClientId + 1) = s.lastClientId + 1 :=
    wrapInt_of_isInt h.inv.isInt_succ
  have hnn := h.inv.last_nonneg
  obtain ⟨accs, r, hfold⟩ : ∃ accs r,
      (es.map (fun e => cstr e.render)).foldl restoreLine ([], 0) = (accs, r) := ⟨_, _, rfl⟩
  have haccs : accs = s.bankDb.accounts := by
    have := h.restored
    rw [hfold] at this
    exact this
  subst haccs
  rcases processDatabaseRequest_cases req resp s _ rfl with
    ⟨h2, _⟩ | ⟨_, hlen, _, _, _, h2⟩ |
    ⟨k, acc, _, _, _, hacc, hact, hid, h2, _⟩ |
    ⟨k, acc, _, _, _, hacc, hact, hid, hle, h2, _⟩
  · rw [h2]; exact ⟨es, h⟩
  · -- open
    rw [h2, hw, updateLogFile_pos _ _ _ _ hpos]
    have h1 := h.inv.create hlen ha
    have h3 := h1.append_record (s.lastClientId + 1) 'D' req.amount req.amount
      (by omega) (le_refl _) (by simp) (Or.inl rfl) ha ha
    refine ⟨es ++ [.record (s.lastClientId + 1) 'D' req.amount req.amount], ⟨?_, ?_, ?_⟩⟩
    · exact h3
    · rw [fold_restore_snoc, hfold]
      exact restoreLine_new r h.inv.fresh_id hlen (by omega) (Or.inl rfl) ha ha
    · rw [nums_append]
      simp only [LogEntry.nums]
      rw [maxNum_snoc, h.last]
      simp
  · -- deposit
    obtain ⟨_, hb0, hb1⟩ := hok acc (List.getElem?_mem hacc)
    have hwb : wrapInt (acc.balance + req.amount) = acc.balance + req.amount := by
      apply wrapInt_of_isInt
      unfold IsInt INT_MIN
      unfold INT_MAX at *
      omega
    have hbi : IsInt (acc.balance + req.amount) := by
      rw [← hwb]; exact isInt_wrapInt _
    obtain ⟨n, hn1, hn2, hn3⟩ := h.inv.db_ids acc (List.getElem?_mem hacc)
    have hlog : updateLogFile s.logFile req.bankId 'D' req.amount
        (acc.balance + req.amount)
        = s.logFile ++ logRecord (generateBankId n) 'D' req.amount
            (acc.balance + req.amount) := by
      rw [updateLogFile_pos _ _ _ _ hpos, ← hid, hn3]
    rw [h2, hwb, hlog]
    have hids := map_bankId_set { acc with balance := acc.balance + req.amount } hacc rfl
    have hint : ∀ x ∈ s.bankDb.accounts.set k
        { acc with balance := acc.balance + req.amount }, IsInt x.balance := by
      intro x hx
      rcases List.mem_or_eq_of_mem_set hx with hx | hx
      · exact h.inv.db_int x hx
      · rw [hx]; exact hbi
    have h1 := h.inv.update_accounts hids hint
    have hm : generateBankId n ∈ (s.bankDb.accounts.set k
        { acc with balance := acc.balance + req.amount }).map Account.bankId := by
      rw [hids, ← hn3]
      exact List.mem_map_of_mem _ (List.getElem?_mem hacc)
    have h3 := h1.append_record n 'D' req.amount (acc.balance + req.amount)
      hn1 hn2 hm (Or.inl rfl) ha hbi
    refine ⟨es ++ [.record n 'D' req.amount (acc.balance + req.amount)], ⟨?_, ?_, ?_⟩⟩
    · exact h3
    · rw [fold_restore_snoc, hfold]
      have := restoreLine_existing r 'D' req.amount hacc hn3 h.inv.db_nodup (Or.inl rfl)
        ha hbi
      simp only [LogEntry.render]
      rw [this]
      have hne : acc.balance + req.amount ≠ 0 := by omega
      simp [hne]
    · rw [nums_append]
      simp only [LogEntry.nums]
      rw [maxNum_snoc, h.last]
      have : ¬ (n > s.lastClientId) := by omega
      simp [this]
  · -- withdraw
    obtain ⟨_, hb0, hb1⟩ := hok acc (List.getElem?_mem hacc)
    have hwb : wrapInt (acc.balance - req.amount) = acc.balance - req.amount := by
      apply wrapInt_of_isInt
      unfold IsInt INT_MIN
      unfold INT_MAX at *
      omega
    have hbi : IsInt (acc.balance - req.amount) := by
      rw [← hwb]; exact isInt_wrapInt _
    obtain ⟨n, hn1, hn2, hn3⟩ := h.inv.db_ids acc (List.getElem?_mem hacc)
    have hlog : updateLogFile s.logFile req.bankId 'W' req.amount
        (acc.balance - req.amount)
        = s.logFile ++ logRecord (generateBankId n) 'W' req.amount
            (acc.balance - req.amount) := by
      rw [updateLogFile_pos _ _ _ _ hpos, ← hid, hn3]
    rw [h2, hwb, hlog]
    have hids := map_bankId_set
      { acc with balance := acc.balance - req.amount,
                 active := decide (acc.balance - req.amount ≠ 0) }
      hacc rfl
    have hint : ∀ x ∈ s.bankDb.accounts.set k
        { acc with balance := acc.balance - req.amount,
                   active := decide (acc.balance - req.amount ≠ 0) }, IsInt x.balance := by
      intro x hx
      rcases List.mem_or_eq_of_mem_set hx with hx | hx
      · exact h.inv.db_int x hx
      · rw [hx]; exact hbi
    have h1 := h.inv.update_accounts hids hint
    have hm : generateBankId n ∈ (s.bankDb.accounts.set k
        { acc with balance := acc.balance - req.amount,
                   active := decide (acc.balance - req.amount ≠ 0) }).map Account.bankId := by
      rw [hids, ← hn3]
      exact List.mem_map_of_mem _ (List.getElem?_mem hacc)
    have h3 := h1.append_record n 'W' req.amount (acc.balance - req.amount)
      hn1 hn2 hm (Or.inr rfl) ha hbi
    refine ⟨es ++ [.record n 'W' req.amount (acc.balance - req.amount)], ⟨?_, ?_, ?_⟩⟩
    · exact h3
    · rw [fold_restore_snoc, hfold]
      have := restoreLine_existing r 'W' req.amount hacc hn3 h.inv.db_nodup (Or.inr rfl)
        ha hbi
      simp only [LogEntry.render]
      rw [this]
      by_cases hz : acc.balance - req.amount = 0
      · simp [hz]
      · simp [hz, hact]
    · rw [nums_append]
      simp only [LogEntry.nums]
      rw [maxNum_snoc, h.last]
      have : ¬ (n > s.lastClientId) := by omega
      simp [this]

theorem totalAmount_nonneg (reqs : List TellerRequest) (hpos : ∀ r ∈ reqs, 0 < r.amount) :
    0 ≤ totalAmount reqs := by
  induction reqs with
  | nil => simp [totalAmount]
  | cons x xs ih =>
    have := ih (fun r hr => hpos r (List.mem_cons_of_mem _ hr))
    have := hpos x (List.mem_cons_self _ _)
    simp only [totalAmount]
    omega

theorem ReplayInv.replay_after (reqs : List TellerRequest) :
    ∀ (s : ServerState) (es : List LogEntry) (bound : Int), ReplayInv s es →
      BalancesOk s bound → 0 ≤ bound → (∀ r ∈ reqs, 0 < r.amount) →
      bound + totalAmount reqs ≤ INT_MAX →
      ∃ es2, ReplayInv (serveAll s reqs) es2 := by
  induction reqs with
  | nil => intro s es _ h _ _ _ _; exact ⟨es, h⟩
  | cons req rest ih =>
    intro s es bound h hok h0 hpos hmax
    have hp := hpos req (List.mem_cons_self _ _)
    have hrest : ∀ r ∈ rest, 0 < r.amount := fun r hr => hpos r (List.mem_cons_of_mem _ hr)
    have hr0 := totalAmount_nonneg rest hrest
    simp only [totalAmount] at hmax
    obtain ⟨es1, h1⟩ := h.replay_step hok req zeroResponse hp h0 (by omega)
    have hok1 := hok.balances_step req zeroResponse hp h0 (by omega)
    exact ih _ es1 (bound + req.amount) h1 hok1 (by omega) hrest (by omega)

/-- Recovery round trip when no deposit can overflow: after every sequence of
requests with positive amounts whose exact sum is an `int`, served from the
empty database and the empty log, replaying the log with
`restoreDatabaseFromLog` and `readLogFile` gives back the database (every
account with its id, balance and active flag) and `lastClientId`. -/
theorem replay_round_trip_without_overflow (reqs : List TellerRequest)
    (hpos : ∀ r ∈ reqs, 0 < r.amount) (hsum : totalAmount reqs ≤ INT_MAX) :
    (restoreDatabaseFromLog (some (serveAll initialState reqs).logFile)
        { accounts := [] }).2 = (serveAll initialState reqs).bankDb ∧
    (readLogFile (some (serveAll initialState reqs).logFile)).2
      = (serveAll initialState reqs).lastClientId := by
  have hinv0 : LogInv initialState [] := by
    refine ⟨rfl, by simp, by simp [LogEntry.nums], by simp [LogEntry.nums], ?_, ?_, ?_,
      ?_, ?_, ?_⟩ <;> simp [initialState, LogEntry.distinct, LogEntry.nums]
  have h0 : ReplayInv initialState [] := ⟨hinv0, rfl, rfl⟩
  have hok0 : BalancesOk initialState 0 := by
    intro a ha
    simp [initialState] at ha
  obtain ⟨es, h⟩ := ReplayInv.replay_after reqs initialState [] 0 h0 hok0 (le_refl _) hpos
    (by omega)
  have hlines := fileLines_entries es h.inv.valid
  rw [← h.inv.log_eq] at hlines
  constructor
  · simp only [restoreDatabaseFromLog, hlines, h.restored]
  · simp only [readLogFile, hlines, readLog_fold es h.inv.valid 0, h.last]

/-! ## The ingress loop -/

theorem batchRecords_store (f : Nat → ClientRequest) (pre : List ClientRequest)
    (r : ClientRequest) (h : (List.range pre.length).map f = pre) :
    (List.range (pre.length + 1)).map (fun i => if i = pre.length then r else f i)
      = pre ++ [r] := by
  rw [List.range_succ, List.map_append]
  congr 1
  · conv_rhs => rw [← h]
    apply List.map_congr_left
    intro i hi
    have hlt := List.mem_range.mp hi
    simp [Nat.ne_of_lt hlt]
  · simp

theorem storeRequest_same (st : IngressState) (r : ClientRequest) (pid total : Int) (k : Nat)
    (hcb : st.currentBatch = { pid := pid, total := total, received := (k : Int) })
    (hr : r.pid = pid) (htot : total ≠ 0) (hk : k < MAX_BATCH_SIZE) :
    storeRequest st r =
      { st with
        batchRequests := fun i => if i = k then r else st.batchRequests i,
        currentBatch := { pid := pid, total := total, received := (k : Int) + 1 } } := by
  have hk2 : (k : Int) < (MAX_BATCH_SIZE : Int) := by exact_mod_cast hk
  unfold storeRequest
  simp only [hcb, hr, ne_eq, not_true_eq_false, htot, or_self, if_false, hk2, if_true,
    Int.toNat_ofNat]

theorem storeRequest_first (st : IngressState) (r : ClientRequest)
    (hcb : st.currentBatch = { pid := 0, total := 0, received := 0 }) :
    storeRequest st r =
      { st with
        batchRequests := fun i => if i = 0 then r else st.batchRequests i,
        currentBatch := { pid := r.pid, total := r.batchSize, received := 1 } } := by
  unfold storeRequest
  simp [hcb, MAX_BATCH_SIZE]

/-- The step of the read loop on a record of the batch in progress. -/
theorem ingressStep_same (st : IngressState) (r : ClientRequest) (pid : Int) (N : Nat)
    (pre : List ClientRequest) (hpid : pid ≠ 0) (hN : N ≤ MAX_BATCH_SIZE)
    (hlt : pre.length < N)
    (hcb : st.currentBatch = { pid := pid, total := (N : Int), received := (pre.length : Int) })
    (hbuf : (List.range pre.length).map st.batchRequests = pre)
    (hr : r.pid = pid) :
    (pre.length + 1 = N →
      (ingressStep st (.record r)).currentBatch = { pid := 0, total := 0, received := 0 } ∧
      (ingressStep st (.record r)).dispatched = st.dispatched ++ [pre ++ [r]]) ∧
    (pre.length + 1 < N →
      (ingressStep st (.record r)).currentBatch =
        { pid := pid, total := (N : Int), received := ((pre ++ [r]).length : Int) } ∧
      (ingressStep st (.record r)).dispatched = st.dispatched ∧
      (List.range (pre ++ [r]).length).map (ingressStep st (.record r)).batchRequests
        = pre ++ [r]) := by
  have htot : (N : Int) ≠ 0 := by
    have : 0 < N := by omega
    exact_mod_cast Nat.ne_of_gt this
  have hk : pre.length < MAX_BATCH_SIZE := by omega
  have hstore := storeRequest_same st r pid (N : Int) pre.length hcb hr htot hk
  have hrec := batchRecords_store st.batchRequests pre r hbuf
  constructor
  · intro hfull
    have hge : ((pre.length : Int) + 1) ≥ (N : Int) := by exact_mod_cast (le_of_eq hfull.symm)
    have hne : ¬ ((pre.length : Int) + 1 = 0) := by omega
    have htn : ((pre.length : Int) + 1).toNat = pre.length + 1 := by omega
    simp only [ingressStep, hstore, completeBatch, hge, if_true, processBatch, hpid, hne,
      or_self, if_false, resetBatchInfo, batchRecords, htn, hrec, and_self]
  · intro hmore
    have hge : ¬ (((pre.length : Int) + 1) ≥ (N : Int)) := by
      intro h
      have : N ≤ pre.length + 1 := by exact_mod_cast h
      omega
    simp only [ingressStep, hstore, completeBatch, hge, if_false, List.length_append,
      List.length_singleton, Nat.cast_add, Nat.cast_one, true_and]
    exact hrec

theorem ingress_rest_of_batch (pid : Int) (hpid : pid ≠ 0) (N : Nat)
    (hN : N ≤ MAX_BATCH_SIZE) :
    ∀ (rest pre : List ClientRequest) (st : IngressState),
      rest ≠ [] → pre.length + rest.length = N →
      st.currentBatch = { pid := pid, total := (N : Int), received := (pre.length : Int) } →
      (List.range pre.length).map st.batchRequests = pre →
      (∀ r ∈ rest, r.pid = pid) →
      (waitForClients st (rest.map ReadResult.record)).currentBatch
        = { pid := 0, total := 0, received := 0 } ∧
      (waitForClients st (rest.map ReadResult.record)).dispatched
        = st.dispatched ++ [pre ++ rest] := by
  intro rest
  induction rest with
  | nil => intro pre st h; exact absurd rfl h
  | cons r rest ih =>
    intro pre st _ hlen hcb hbuf hpids
    have hr : r.pid = pid := hpids r (List.mem_cons_self _ _)
    have hlt : pre.length < N := by simp at hlen; omega
    have hstep := ingressStep_same st r pid N pre hpid hN hlt hcb hbuf hr
    show ((List.map ReadResult.record (r :: rest)).foldl ingressStep st).currentBatch = _ ∧
      ((List.map ReadResult.record (r :: rest)).foldl ingressStep st).dispatched = _
    rw [List.map_cons, List.foldl_cons]
    cases rest with
    | nil =>
      have hfull : pre.length + 1 = N := by simpa using hlen
      simpa using hstep.1 hfull
    | cons r2 rest2 =>
      have hmore : pre.length + 1 < N := by simp at hlen; omega
      obtain ⟨h1, h2, h3⟩ := hstep.2 hmore
      have hlen2 : (pre ++ [r]).length + (r2 :: rest2).length = N := by
        simp at hlen ⊢; omega
      have := ih (pre ++ [r]) (ingressStep st (.record r)) (by simp) hlen2 h1 h3
        (fun x hx => hpids x (List.mem_cons_of_mem _ hx))
      unfold waitForClients at this
      rw [this.1, this.2, h2]
      simp

/-- A complete batch that arrives when no batch is in progress is served
whole, and the descriptor is reset. -/
theorem ingress_one_batch (b : List ClientRequest) (hb : CompleteBatch b)
    (st : IngressState) (hcb : st.currentBatch = { pid := 0, total := 0, received := 0 }) :
    (waitForClients st (b.map ReadResult.record)).currentBatch
      = { pid := 0, total := 0, received := 0 } ∧
    (waitForClients st (b.map ReadResult.record)).dispatched = st.dispatched ++ [b] := by
  obtain ⟨h1, hmax, pid, hpid, hall⟩ := hb
  cases b with
  | nil => simp at h1
  | cons r rest =>
    have hr := hall r (List.mem_cons_self _ _)
    -- the first record starts the batch exactly as if the descriptor already named it
    let st0 : IngressState :=
      { st with currentBatch := { pid := pid, total := ((r :: rest).length : Int),
                                  received := (([] : List ClientRequest).length : Int) } }
    have hfirst : storeRequest st r = storeRequest st0 r := by
      rw [storeRequest_first st r hcb]
      have htot : (((r :: rest).length : Nat) : Int) ≠ 0 := by simp; omega
      rw [storeRequest_same st0 r pid ((r :: rest).length : Int) 0 rfl hr.1 htot
        (by unfold MAX_BATCH_SIZE; omega)]
      simp [st0, hr.1, hr.2]
    have hstep : ingressStep st (.record r) = ingressStep st0 (.record r) := by
      simp only [ingressStep, hfirst]
    have := ingress_rest_of_batch pid hpid (r :: rest).length hmax (r :: rest) [] st0
      (by simp) (by simp) rfl (by simp) (fun x hx => (hall x hx).1)
    unfold waitForClients at this ⊢
    rw [List.map_cons, List.foldl_cons] at this ⊢
    rw [hstep]
    simpa [st0] using this

theorem ingress_batches :
    ∀ (batches : List (List ClientRequest)) (st : IngressState),
      (∀ b ∈ batches, CompleteBatch b) →
      st.currentBatch = { pid := 0, total := 0, received := 0 } →
      (waitForClients st (batches.flatten.map ReadResult.record)).currentBatch
        = { pid := 0, total := 0, received := 0 } ∧
      (waitForClients st (batches.flatten.map ReadResult.record)).dispatched
        = st.dispatched ++ batches := by
  intro batches
  induction batches with
  | nil => intro st _ hcb; simp [waitForClients, hcb]
  | cons b bs ih =>
    intro st hall hcb
    have h1 := ingress_one_batch b (hall b (List.mem_cons_self _ _)) st hcb
    have h2 := ih (waitForClients st (b.map ReadResult.record))
      (fun x hx => hall x (List.mem_cons_of_mem _ hx)) h1.1
    have hsplit : waitForClients st ((b :: bs).flatten.map ReadResult.record)
        = waitForClients (waitForClients st (b.map ReadResult.record))
            (bs.flatten.map ReadResult.record) := by
      simp [waitForClients, List.foldl_append]
    rw [hsplit, h2.1, h2.2, h1.2]
    simp

/-- C18.  Ingress reframing of complete batches: when the stream read from the
server FIFO is a concatenation of complete batches (each of 1 to
`MAX_BATCH_SIZE` records with one non-zero pid and `batchSize` equal to the
number of records), then after every one of these batches the calls of
`processBatch` made so far have served exactly the batches received so far, in
stream order and each with its records in arrival order, and the current-batch
descriptor is (0, 0, 0). -/
theorem ingress_complete_batches (batches : List (List ClientRequest))
    (h : ∀ b ∈ batches, CompleteBatch b) (k : Nat) :
    (waitForClients ingressInit
        ((batches.take k).flatten.map ReadResult.record)).dispatched = batches.take k ∧
    (waitForClients ingressInit
        ((batches.take k).flatten.map ReadResult.record)).currentBatch
      = { pid := 0, total := 0, received := 0 } := by
  have := ingress_batches (batches.take k) ingressInit
    (fun b hb => h b (List.mem_of_mem_take hb)) rfl
  exact ⟨by simpa [ingressInit] using this.2, this.1⟩

theorem ingress_complete_batches_witness :
    (waitForClients ingressInit
        (([[sampleRecord 7 1 1], [sampleRecord 9 2 1, sampleRecord 9 2 2]].take 2).flatten.map
          ReadResult.record)).dispatched
      = [[sampleRecord 7 1 1], [sampleRecord 9 2 1, sampleRecord 9 2 2]].take 2 ∧
    (waitForClients ingressInit
        (([[sampleRecord 7 1 1], [sampleRecord 9 2 1, sampleRecord 9 2 2]].take 2).flatten.map
          ReadResult.record)).currentBatch
      = { pid := 0, total := 0, received := 0 } :=
  ingress_complete_batches [[sampleRecord 7 1 1], [sampleRecord 9 2 1, sampleRecord 9 2 2]]
    (by
      intro b hb
      simp only [List.mem_cons, List.mem_singleton, List.not_mem_nil, or_false] at hb
      rcases hb with rfl | rfl
      · exact ⟨by decide, by decide, 7, by decide, by decide⟩
      · exact ⟨by decide, by decide, 9, by decide, by decide⟩) 2

theorem storeRequest_full (st : IngressState) (r : ClientRequest)
    (hr : r.pid = st.currentBatch.pid) (htot : st.currentBatch.total ≠ 0)
    (hfull : (MAX_BATCH_SIZE : Int) ≤ st.currentBatch.received) :
    storeRequest st r = st := by
  have h2 : ¬ (st.currentBatch.received < (MAX_BATCH_SIZE : Int)) := by omega
  unfold storeRequest
  simp only [hr, ne_eq, not_true_eq_false, htot, or_self, if_false, h2]

/-- The descriptor while a client that announced more than `MAX_BATCH_SIZE`
records fills the buffer. -/
theorem ingress_filling (pid total : Int) (f : Nat → ClientRequest)
    (hf : ∀ i, (f i).pid = pid ∧ (f i).batchSize = total)
    (htot : (MAX_BATCH_SIZE : Int) < total) :
    ∀ n, 0 < n → n ≤ MAX_BATCH_SIZE →
      (waitForClients ingressInit
        ((List.range n).map (fun i => ReadResult.record (f i)))).currentBatch
        = { pid := pid, total := total, received := (n : Int) } := by
  intro n
  induction n with
  | zero => intro h; exact absurd h (by decide)
  | succ n ih =>
    intro _ hn
    rw [List.range_succ, List.map_append]
    unfold waitForClients at ih ⊢
    rw [List.foldl_append]
    rcases Nat.eq_zero_or_pos n with h0 | hpos
    · subst h0
      have h1 : ¬ ((1 : Int) ≥ total) := by unfold MAX_BATCH_SIZE at htot; omega
      simp [ingressStep, storeRequest_first ingressInit (f 0) rfl, completeBatch,
        (hf 0).1, (hf 0).2, h1]
    · have hprev := ih hpos (by omega)
      have htot0 : total ≠ 0 := by unfold MAX_BATCH_SIZE at htot; omega
      have hstore := storeRequest_same _ (f n) pid total n hprev (hf n).1 htot0 (by omega)
      have h1 : ¬ (((n : Int) + 1) ≥ total) := by
        have : (n : Int) < (MAX_BATCH_SIZE : Int) := by exact_mod_cast hn
        omega
      simp only [List.map_cons, List.map_nil, List.foldl_cons, List.foldl_nil, ingressStep,
        hstore, completeBatch, h1, if_false]
      push_cast
      trivial

/-- C19 as stated fails in two ways.  A client that announced 600 records has
sent 500 of them: the descriptor is (7, 600, 500), so 0 < received < total, but
the next record of the same client is not appended (descriptor and batch
records stay as they are).  And when the batch in progress carries pid 0, a
record of another client starts a new batch without any dispatch of the
partial one. -/
theorem ingress_flush_counterexample :
    (waitForClients ingressInit
      ((List.range 500).map (fun (i : Nat) => ReadResult.record (sampleRecord 7 600 ((i : Int) + 1))))).currentBatch
      = { pid := 7, total := 600, received := 500 } ∧
    storeRequest
      (waitForClients ingressInit
        ((List.range 500).map (fun (i : Nat) => ReadResult.record (sampleRecord 7 600 ((i : Int) + 1)))))
      (sampleRecord 7 600 501)
      = waitForClients ingressInit
        ((List.range 500).map (fun (i : Nat) => ReadResult.record (sampleRecord 7 600 ((i : Int) + 1)))) ∧
    (waitForClients ingressInit [ReadResult.record (sampleRecord 0 2 1)]).currentBatch
      = { pid := 0, total := 2, received := 1 } ∧
    (storeRequest (waitForClients ingressInit [ReadResult.record (sampleRecord 0 2 1)])
      (sampleRecord 9 2 1)).dispatched = [] := by
  have h := ingress_filling 7 600 (fun (i : Nat) => sampleRecord 7 600 ((i : Int) + 1))
    (fun _ => ⟨rfl, rfl⟩) (by decide) 500 (by decide) (by decide)
  have hc : ((500 : Nat) : Int) = 500 := by norm_num
  rw [hc] at h
  beta_reduce at h
  have key : ∀ st : IngressState,
      st.currentBatch = { pid := 7, total := 600, received := 500 } →
      storeRequest st (sampleRecord 7 600 501) = st := by
    intro st hst
    apply storeRequest_full
    · rw [hst]; rfl
    · rw [hst]; decide
    · rw [hst]; unfold MAX_BATCH_SIZE; norm_num
  exact ⟨h, key _ h, by decide, by decide⟩

theorem batchRecords_store2 (f : Nat → ClientRequest) (k : Nat) (r : ClientRequest) :
    (List.range (k + 1)).map (fun i => if i = k then r else f i)
      = (List.range k).map f ++ [r] := by
  rw [List.range_succ, List.map_append]
  congr 1
  · apply List.map_congr_left
    intro i hi
    have hlt := List.mem_range.mp hi
    simp [Nat.ne_of_lt hlt]
  · simp

/-- C19, amended.  Let the batch in progress have 0 < received < total.
(1) If its pid is not 0 and a record of another pid arrives, lines 315 to 332
dispatch the partial batch (exactly the records received so far) and then start
a new batch with the pid and batchSize of the record, received = 1 and the
record in slot 0; the completion test that follows dispatches this new batch at
once when its batchSize is at most 1 (and its pid is not 0).
(2) If the record has the pid of the batch and received < MAX_BATCH_SIZE, the
record is appended without any dispatch by lines 315 to 332, and the step as a
whole dispatches exactly when the batch is thereby complete (and its pid is
not 0). -/
theorem ingress_partial_flush (st : IngressState) (req : ClientRequest)
    (hpos : 0 < st.currentBatch.received)
    (hlt : st.currentBatch.received < st.currentBatch.total) :
    (req.pid ≠ st.currentBatch.pid → st.currentBatch.pid ≠ 0 →
      (storeRequest st req).dispatched = st.dispatched ++ [batchRecords st] ∧
      (storeRequest st req).currentBatch
        = { pid := req.pid, total := req.batchSize, received := 1 } ∧
      (storeRequest st req).batchRequests 0 = req ∧
      (ingressStep st (.record req)).dispatched
        = if req.batchSize ≤ 1 ∧ req.pid ≠ 0 then st.dispatched ++ [batchRecords st] ++ [[req]]
          else st.dispatched ++ [batchRecords st]) ∧
    (req.pid = st.currentBatch.pid → st.currentBatch.received < (MAX_BATCH_SIZE : Int) →
      (storeRequest st req).dispatched = st.dispatched ∧
      batchRecords (storeRequest st req) = batchRecords st ++ [req] ∧
      (storeRequest st req).currentBatch
        = { st.currentBatch with received := st.currentBatch.received + 1 } ∧
      (ingressStep st (.record req)).dispatched
        = if st.currentBatch.received + 1 ≥ st.currentBatch.total ∧ st.currentBatch.pid ≠ 0 then
            st.dispatched ++ [batchRecords st ++ [req]]
          else st.dispatched) := by
  constructor
  · intro hne hpid
    have hne2 : st.currentBatch.pid ≠ req.pid := fun h => hne h.symm
    have hrec0 : ¬ (st.currentBatch.received = 0) := by omega
    have hstore : storeRequest st req =
        { st with
          dispatched := st.dispatched ++ [batchRecords st],
          batchRequests := fun i => if i = 0 then req else st.batchRequests i,
          currentBatch := { pid := req.pid, total := req.batchSize, received := 1 } } := by
      unfold storeRequest processBatch
      simp [hne2, hpid, hpos, hrec0, MAX_BATCH_SIZE]
    refine ⟨by rw [hstore], by rw [hstore], by rw [hstore]; simp, ?_⟩
    simp only [ingressStep, hstore, completeBatch, processBatch, resetBatchInfo, batchRecords]
    have hr1 : List.range 1 = [0] := rfl
    by_cases hb : req.batchSize ≤ 1
    · have hge : (1 : Int) ≥ req.batchSize := hb
      by_cases hp : req.pid = 0
      · simp [hge, hp]
      · simp [hge, hp, hb, hr1]
    · have hge : ¬ ((1 : Int) ≥ req.batchSize) := hb
      simp [hge, hb]
  · intro heq hroom
    have htot : st.currentBatch.total ≠ 0 := by omega
    have hk : st.currentBatch.received = ((st.currentBatch.received.toNat : Nat) : Int) := by
      omega
    have hstore : storeRequest st req =
        { st with
          batchRequests := fun i =>
            if i = st.currentBatch.received.toNat then req else st.batchRequests i,
          currentBatch := { st.currentBatch with received := st.currentBatch.received + 1 } } := by
      unfold storeRequest
      simp only [heq, ne_eq, not_true_eq_false, htot, or_self, if_false, hroom, if_true]
    have htn : (st.currentBatch.received + 1).toNat = st.currentBatch.received.toNat + 1 := by
      omega
    have hrecs : batchRecords (storeRequest st req) = batchRecords st ++ [req] := by
      rw [hstore]
      simp only [batchRecords, htn]
      exact batchRecords_store2 st.batchRequests st.currentBatch.received.toNat req
    refine ⟨by rw [hstore], hrecs, by rw [hstore], ?_⟩
    have hrec1 : ¬ (st.currentBatch.received + 1 = 0) := by omega
    rw [← hrecs]
    simp only [ingressStep, completeBatch, processBatch, resetBatchInfo]
    rw [hstore]
    by_cases hc : st.currentBatch.received + 1 ≥ st.currentBatch.total
    · by_cases hp : st.currentBatch.pid = 0
      · simp [hc, hp]
      · simp [hc, hp, hrec1]
    · simp [hc]

theorem ingress_partial_flush_witness :
    ((storeRequest sampleBatchState (sampleRecord 9 2 1)).dispatched
        = sampleBatchState.dispatched ++ [batchRecords sampleBatchState] ∧
      (storeRequest sampleBatchState (sampleRecord 9 2 1)).currentBatch
        = { pid := 9, total := 2, received := 1 }) ∧
    batchRecords (storeRequest sampleBatchState (sampleRecord 7 3 2))
      = batchRecords sampleBatchState ++ [sampleRecord 7 3 2] :=
  ⟨⟨((ingress_partial_flush sampleBatchState (sampleRecord 9 2 1) (by decide) (by decide)).1
        (by decide) (by decide)).1,
    ((ingress_partial_flush sampleBatchState (sampleRecord 9 2 1) (by decide) (by decide)).1
        (by decide) (by decide)).2.1⟩,
   ((ingress_partial_flush sampleBatchState (sampleRecord 7 3 2) (by decide) (by decide)).2
      (by decide) (by decide)).2.1⟩

/-! ## The client batch -/

theorem buildRequest_some (pid numOperations : Int) (i : Nat) (op : ClientOperation)
    (hop : op.operation = "deposit".toList ∨ op.operation = "withdraw".toList) :
    ∃ r, buildRequest pid numOperations i op = some r ∧
      r.pid = pid ∧ r.msgType = MSG_OPERATION ∧ r.batchSize = numOperations ∧
      r.operationIndex = (i : Int) + 1 ∧
      (r.isNewClient ≠ 0 ↔ op.bankId = ['N']) ∧
      (op.bankId = ['N'] → r.bankId = []) ∧
      (op.bankId ≠ ['N'] → r.bankId = op.bankId.take 19) ∧
      r.amount = op.amount ∧
      (r.op = OP_DEPOSIT ↔ op.operation = "deposit".toList) ∧
      (r.op = OP_WITHDRAW ↔ op.operation = "withdraw".toList) := by
  have hnew : (isNewClient op.bankId ≠ 0 ↔ op.bankId = ['N']) := by
    unfold isNewClient
    by_cases h : op.bankId = ['N'] <;> simp [h]
  rcases hop with h | h
  · refine ⟨_, by simp only [buildRequest, h, if_true]; rfl, rfl, rfl, rfl, rfl, hnew, ?_, ?_,
      rfl, ?_, ?_⟩
    · intro hb
      have : isNewClient op.bankId ≠ 0 := hnew.mpr hb
      simp [this, zeroRequest]
    · intro hb
      have : ¬ (isNewClient op.bankId ≠ 0) := fun hc => hb (hnew.mp hc)
      simp only [this, if_false]
    · simp [h]
    · rw [h]
      show (OP_DEPOSIT = OP_WITHDRAW) ↔ _
      decide
  · have hd : ¬ (op.operation = "deposit".toList) := by rw [h]; decide
    refine ⟨_, by simp only [buildRequest, hd, h, if_true, if_false]; rfl, rfl, rfl, rfl, rfl,
      hnew, ?_, ?_, rfl, ?_, ?_⟩
    · intro hb
      have : isNewClient op.bankId ≠ 0 := hnew.mpr hb
      simp [this, zeroRequest]
    · intro hb
      have : ¬ (isNewClient op.bankId ≠ 0) := fun hc => hb (hnew.mp hc)
      simp only [this, if_false]
    · rw [h]
      show (OP_WITHDRAW = OP_DEPOSIT) ↔ _
      decide
    · simp [h]

theorem sendLoop_all (pid numOperations : Int) (writes : Nat → Nat → WriteResult) :
    ∀ (ops : List ClientOperation) (i0 : Nat),
      (∀ op ∈ ops, op.operation = "deposit".toList ∨ op.operation = "withdraw".toList) →
      (∀ j, j < ops.length → writes (i0 + j) 0 = WriteResult.whole) →
      (sendLoop pid numOperations writes i0 ops).length = ops.length ∧
      ∀ (j : Nat) (op : ClientOperation), ops[j]? = some op →
        (sendLoop pid numOperations writes i0 ops)[j]?
          = buildRequest pid numOperations (i0 + j) op := by
  intro ops
  induction ops with
  | nil => intro i0 _ _; simp [sendLoop]
  | cons op rest ih =>
    intro i0 hops hw
    obtain ⟨r, hr, -⟩ := buildRequest_some pid numOperations i0 op
      (hops op (List.mem_cons_self _ _))
    have hw0 : writes i0 0 = WriteResult.whole := by simpa using hw 0 (by simp)
    have hwr : writeWithRetries (writes i0) 3 0 = true := by
      simp [writeWithRetries, hw0]
    have ih2 := ih (i0 + 1) (fun o ho => hops o (List.mem_cons_of_mem _ ho))
      (fun j hj => by
        have := hw (j + 1) (by simpa using hj)
        rw [← this]; congr 1; omega)
    have hun : sendLoop pid numOperations writes i0 (op :: rest)
        = r :: sendLoop pid numOperations writes (i0 + 1) rest := by
      simp only [sendLoop, hr, hwr, if_true]
    rw [hun]
    refine ⟨by simp [ih2.1], ?_⟩
    intro j o hj
    cases j with
    | zero =>
      simp at hj
      subst hj
      simpa using hr.symm
    | succ j =>
      have := ih2.2 j o (by simpa using hj)
      simp only [List.getElem?_cons_succ, this]
      congr 1
      omega

/-- C20 as stated fails for an operation that is neither `deposit` nor
`withdraw`: `parseClientLine` accepts the line `N transfer 5`, and
`sendOperationBatch` writes no record for it; in a list of two operations the
only record written announces a batch of two. -/
theorem client_batch_counterexample :
    sendOperationBatch 4242 (fun _ _ => WriteResult.whole)
      [{ operation := "transfer".toList, amount := 5, bankId := ['N'] }] = [] ∧
    sendOperationBatch 4242 (fun _ _ => WriteResult.whole)
      [{ operation := "deposit".toList, amount := 5, bankId := ['N'] },
       { operation := "transfer".toList, amount := 5, bankId := ['N'] }]
      = [{ pid := 4242, msgType := 0, op := 1, amount := 5, bankId := [], isNewClient := 1,
           batchSize := 2, operationIndex := 1 }] := by
  decide

/-- C20, amended.  For every operation list in which every operation is
`deposit` or `withdraw`, if the first `write` of every record succeeds,
`sendOperationBatch` writes as many records as there are operations, and the
record at position i (counted from 1) is the one of the i-th operation: it
carries the pid of the client, `batchSize` equal to the number of operations,
`operationIndex` i, the amount and the code of the operation, the
is-new-client flag exactly when the target is `N`, an empty id field in that
case and the target id (cut to 19 characters) otherwise. -/
theorem client_batch_framing (pid : Int) (writes : Nat → Nat → WriteResult)
    (ops : List ClientOperation)
    (hops : ∀ op ∈ ops, op.operation = "deposit".toList ∨ op.operation = "withdraw".toList)
    (hw : ∀ i, i < ops.length → writes i 0 = WriteResult.whole) :
    (sendOperationBatch pid writes ops).length = ops.length ∧
    ∀ (i : Nat) (op : ClientOperation), ops[i]? = some op →
      ∃ r, (sendOperationBatch pid writes ops)[i]? = some r ∧
        r.pid = pid ∧ r.msgType = MSG_OPERATION ∧ r.batchSize = (ops.length : Int) ∧
        r.operationIndex = (i : Int) + 1 ∧
        (r.isNewClient ≠ 0 ↔ op.bankId = ['N']) ∧
        (op.bankId = ['N'] → r.bankId = []) ∧
        (op.bankId ≠ ['N'] → r.bankId = op.bankId.take 19) ∧
        r.amount = op.amount ∧
        (r.op = OP_DEPOSIT ↔ op.operation = "deposit".toList) ∧
        (r.op = OP_WITHDRAW ↔ op.operation = "withdraw".toList) := by
  have h := sendLoop_all pid (ops.length : Int) writes ops 0 hops
    (fun j hj => by simpa using hw j hj)
  refine ⟨h.1, ?_⟩
  intro i op hi
  obtain ⟨r, hr, hprops⟩ := buildRequest_some pid (ops.length : Int) i op
    (hops op (List.getElem?_mem hi))
  refine ⟨r, ?_, hprops⟩
  unfold sendOperationBatch
  rw [h.2 i op hi]
  simpa using hr

theorem client_batch_framing_witness :
    (sendOperationBatch 4242 (fun _ _ => WriteResult.whole)
      [{ operation := "deposit".toList, amount := 5, bankId := ['N'] },
       { operation := "withdraw".toList, amount := 3, bankId := "BankID_01".toList }]).length
      = [({ operation := "deposit".toList, amount := 5, bankId := ['N'] } : ClientOperation),
         { operation := "withdraw".toList, amount := 3, bankId := "BankID_01".toList }].length :=
  (client_batch_framing 4242 (fun _ _ => WriteResult.whole)
    [{ operation := "deposit".toList, amount := 5, bankId := ['N'] },
     { operation := "withdraw".toList, amount := 3, bankId := "BankID_01".toList }]
    (by decide) (fun _ _ => rfl)).1

/-! ## Tellers -/

/-- Whatever the code of a request that is not a deposit, the teller that
`processBatch` starts for it prepares a withdrawal. -/
theorem tellerRequest_of_other_code (req : ClientRequest) (h : req.op ≠ OP_DEPOSIT) :
    (tellerRequest req (tellerFor req)).operation = OP_WITHDRAW := by
  simp [tellerRequest, tellerFor, h]

/-- C16: a request with the unknown operation code 3 on the account
`BankID_01` (opened with 500) is served as a withdrawal.  The response has
status 0 and balance 400, and the balance in the database and the log have
changed; the branch of `processDatabaseRequest` that answers
`ERR_INVALID_OPERATION` for an unknown code is not reached. -/
theorem unknown_code_served_as_withdraw :
    (serveClientRequest allCallsSucceed
        { pid := 4242, msgType := 0, op := 3, amount := 100, bankId := "BankID_01".toList,
          isNewClient := 0, batchSize := 1, operationIndex := 1 }
        (serveAll initialState [openReq 500])).1.responses
      = [{ status := 0, balance := 400, bankId := "BankID_01".toList,
           message := "Withdrew 100 credits. New balance: 400".toList, clientIndex := 1 }] ∧
    (serveClientRequest allCallsSucceed
        { pid := 4242, msgType := 0, op := 3, amount := 100, bankId := "BankID_01".toList,
          isNewClient := 0, batchSize := 1, operationIndex := 1 }
        (serveAll initialState [openReq 500])).2.bankDb.accounts
      = [{ bankId := "BankID_01".toList, balance := 400, active := true }] ∧
    (serveClientRequest allCallsSucceed
        { pid := 4242, msgType := 0, op := 3, amount := 100, bankId := "BankID_01".toList,
          isNewClient := 0, batchSize := 1, operationIndex := 1 }
        (serveAll initialState [openReq 500])).2.logFile
      = "BankID_01 D 500 500\nBankID_01 W 100 400\n".toList := by
  decide

/-- C17.  New-client withdraw is rejected early: for a withdraw request with
the is-new-client flag set, whatever the other system calls would do, once the
client FIFO is open the teller started by `processBatch` writes exactly one
response to the client, with status `ERR_INVALID_OPERATION` (-2) and
`clientIndex` equal to the `operationIndex` of the request, sends no
`TellerRequest` to the dispatcher and exits; database, `lastClientId` and log
are unchanged. -/
theorem new_client_withdraw_rejected (calls : TellerCalls) (req : ClientRequest)
    (s : ServerState) (hop : req.op = OP_WITHDRAW) (hnew : req.isNewClient ≠ 0)
    (hfifo : calls.fifoOpened = true) :
    (serveClientRequest calls req s).1.sent = none ∧
    (∃ r, (serveClientRequest calls req s).1.responses = [r] ∧
      r.status = ERR_INVALID_OPERATION ∧ r.clientIndex = req.operationIndex ∧
      r.message = "New clients cannot withdraw. Please deposit first.".toList) ∧
    (serveClientRequest calls req s).1.exitCode = 0 ∧
    (serveClientRequest calls req s).2 = s := by
  have hdep : tellerFor req = false := by
    simp only [tellerFor, hop]
    decide
  have hrun : ∀ reply, tellerProcess calls reply req (tellerFor req) =
      { sent := none,
        responses :=
          [tellerError req "New clients cannot withdraw. Please deposit first.".toList],
        exitCode := 0 } := by
    intro reply
    simp [tellerProcess, hdep, hfifo, hnew]
  have hserve : serveClientRequest calls req s =
      ({ sent := none,
         responses :=
           [tellerError req "New clients cannot withdraw. Please deposit first.".toList],
         exitCode := 0 }, s) := by
    simp only [serveClientRequest, hrun]
  rw [hserve]
  exact ⟨rfl, ⟨_, rfl, rfl, rfl, rfl⟩, rfl, rfl⟩

theorem new_client_withdraw_rejected_witness :
    (serveClientRequest allCallsSucceed
        { pid := 4242, msgType := 0, op := 2, amount := 10, bankId := [],
          isNewClient := 1, batchSize := 1, operationIndex := 1 }
        (serveAll initialState [openReq 500])).2
      = serveAll initialState [openReq 500] :=
  (new_client_withdraw_rejected allCallsSucceed
    { pid := 4242, msgType := 0, op := 2, amount := 10, bankId := [],
      isNewClient := 1, batchSize := 1, operationIndex := 1 }
    (serveAll initialState [openReq 500]) (by decide) (by decide) (by decide)).2.2.2

/-! ## Capacity -/

/-- With 100 accounts in the array, active or not, an open is refused and
nothing changes. -/
theorem open_refused_when_full (s : ServerState) (req : TellerRequest) (resp : ServerResponse)
    (hop : isOpen req = true) (hfull : 100 ≤ s.bankDb.accounts.length) :
    (processDatabaseRequest req resp s).1.status = ERR_INVALID_OPERATION ∧
    (processDatabaseRequest req resp s).1.message = "Failed to create account".toList ∧
    (processDatabaseRequest req resp s).2 = s := by
  have hd : req.operation = OP_DEPOSIT ∧ req.isNewClient ≠ 0 := by
    simpa [isOpen] using hop
  simp [processDatabaseRequest, hd.1, hd.2, createAccount, BankDatabase.numAccounts, hfull]

set_option maxRecDepth 100000 in
theorem hundred_opens_then_close :
    (serveAll initialState
      (List.replicate 100 (openReq 1) ++ [withdrawReq "BankID_01".toList 1])).bankDb.accounts.length
      = 100 ∧
    (liveAccounts (serveAll initialState
      (List.replicate 100 (openReq 1) ++ [withdrawReq "BankID_01".toList 1])).bankDb).length
      = 99 := by
  decide

set_option maxRecDepth 100000 in
theorem hundred_opens_live :
    (liveAccounts (serveAll initialState (List.replicate 100 (openReq 1))).bankDb).length
      = 100 := by
  decide

/-- C11 as stated fails: after 100 opens and one withdrawal that closes
`BankID_01`, 99 accounts are live, and the next new-client deposit of a
positive amount is refused with `ERR_INVALID_OPERATION` ("Failed to create
account") and changes nothing: `createAccount` counts every account ever
created, closed ones included. -/
theorem capacity_counterexample :
    (liveAccounts (serveAll initialState
      (List.replicate 100 (openReq 1) ++ [withdrawReq "BankID_01".toList 1])).bankDb).length
      = 99 ∧
    (processDatabaseRequest (openReq 1) zeroResponse
      (serveAll initialState
        (List.replicate 100 (openReq 1) ++ [withdrawReq "BankID_01".toList 1]))).1.status
      = ERR_INVALID_OPERATION ∧
    (processDatabaseRequest (openReq 1) zeroResponse
      (serveAll initialState
        (List.replicate 100 (openReq 1) ++ [withdrawReq "BankID_01".toList 1]))).1.message
      = "Failed to create account".toList ∧
    (processDatabaseRequest (openReq 1) zeroResponse
      (serveAll initialState
        (List.replicate 100 (openReq 1) ++ [withdrawReq "BankID_01".toList 1]))).2
      = serveAll initialState
        (List.replicate 100 (openReq 1) ++ [withdrawReq "BankID_01".toList 1]) :=
  ⟨hundred_opens_then_close.2,
    open_refused_when_full _ (openReq 1) zeroResponse rfl (le_of_eq hundred_opens_then_close.1.symm)⟩

/-- C11, amended.  The bound is on the accounts ever created, not on the live
ones: in every state a new-client deposit succeeds with status 0 exactly when
`numAccounts` (active and closed accounts together) is below 100, and at 100 it
is refused with `ERR_INVALID_OPERATION` without any change.  100 accounts can
be live at the same time: 100 opens on the empty database give 100 live
accounts. -/
theorem open_capacity (s : ServerState) (req : TellerRequest) (resp : ServerResponse)
    (hop : isOpen req = true) :
    ((processDatabaseRequest req resp s).1.status = 0 ↔ s.bankDb.numAccounts < 100) ∧
    (100 ≤ s.bankDb.numAccounts →
      (processDatabaseRequest req resp s).1.status = ERR_INVALID_OPERATION ∧
      (processDatabaseRequest req resp s).2 = s) ∧
    (liveAccounts (serveAll initialState (List.replicate 100 (openReq 1))).bankDb).length
      = 100 := by
  have hd : req.operation = OP_DEPOSIT ∧ req.isNewClient ≠ 0 := by
    simpa [isOpen] using hop
  refine ⟨?_, ?_, hundred_opens_live⟩
  · by_cases hcap : s.bankDb.numAccounts < 100
    · have hcap2 : ¬ (100 ≤ s.bankDb.accounts.length) := by
        simp only [BankDatabase.numAccounts] at hcap; omega
      have hcap3 : s.bankDb.accounts.length < 100 := by omega
      simp [processDatabaseRequest, hd.1, hd.2, createAccount, BankDatabase.numAccounts,
        hcap2, setMessage, hcap3]
    · have hcap2 : 100 ≤ s.bankDb.accounts.length := by
        simp only [BankDatabase.numAccounts] at hcap; omega
      have h := (open_refused_when_full s req resp hop hcap2).1
      simp only [hcap, iff_false, h]
      decide
  · intro hfull
    have h := open_refused_when_full s req resp hop hfull
    exact ⟨h.1, h.2.2⟩

theorem open_capacity_witness :
    (processDatabaseRequest (openReq 1) zeroResponse initialState).1.status = 0 :=
  (open_capacity initialState (openReq 1) zeroResponse (by decide)).1.mpr (by decide)

/-! ## Lines of an arbitrary text -/

theorem fgets_rest_length (room : Nat) (c : Char) (cs : List Char) :
    (fgets (room + 1) (c :: cs)).2.length ≤ cs.length := by
  induction cs generalizing room c with
  | nil =>
    unfold fgets
    split
    · simp
    · cases room <;> simp [fgets]
  | cons d ds ih =>
    unfold fgets
    split
    · simp
    · cases room with
      | zero => simp [fgets]
      | succ r =>
        have := ih r d
        simp only [List.length_cons]
        omega

/-- Any fuel that covers the length of the text gives the same lines: the loop
of `fgets` ends at the end of the file, not for lack of fuel. -/
theorem readLinesAux_fuel :
    ∀ (fuel : Nat) (t : List Char) (fuel2 : Nat), t.length ≤ fuel → t.length ≤ fuel2 →
      readLinesAux fuel t = readLinesAux fuel2 t := by
  intro fuel
  induction fuel with
  | zero =>
    intro t fuel2 h _
    have : t = [] := List.length_eq_zero.mp (Nat.le_zero.mp h)
    subst this
    simp [readLinesAux_nil]
  | succ f ih =>
    intro t fuel2 h1 h2
    cases t with
    | nil => simp [readLinesAux_nil]
    | cons c cs =>
      cases fuel2 with
      | zero => simp at h2
      | succ f2 =>
        have hr : (fgets 255 (c :: cs)).2.length ≤ cs.length := fgets_rest_length 254 c cs
        rw [readLinesAux_succ f _ (by simp), readLinesAux_succ f2 _ (by simp)]
        congr 1
        apply ih
        · simp at h1; omega
        · simp at h2; omega

theorem fileLines_cons (c : Char) (cs : List Char) :
    fileLines (c :: cs) = cstr (fgets 255 (c :: cs)).1 :: fileLines (fgets 255 (c :: cs)).2 := by
  unfold fileLines
  rw [List.length_cons, readLinesAux_succ _ _ (by simp)]
  congr 1
  apply readLinesAux_fuel
  · exact fgets_rest_length 254 c cs
  · exact le_refl _

theorem fgets_append (p u : List Char) :
    ∀ room, fgets room (p ++ '\n' :: u)
      = ((fgets room (p ++ ['\n'])).1, (fgets room (p ++ ['\n'])).2 ++ u) := by
  induction p with
  | nil =>
    intro room
    cases room <;> simp [fgets]
  | cons c cs ih =>
    intro room
    cases room with
    | zero => simp [fgets]
    | succ r =>
      by_cases hc : c = '\n'
      · simp [fgets, hc]
      · have := ih r
        simp [fgets, hc, this]

theorem fgets_rest_terminated (p : List Char) :
    ∀ room, Terminated (fgets room (p ++ ['\n'])).2 := by
  induction p with
  | nil =>
    intro room
    cases room with
    | zero => exact Or.inr ⟨[], by simp [fgets]⟩
    | succ r => exact Or.inl (by simp [fgets])
  | cons c cs ih =>
    intro room
    cases room with
    | zero => exact Or.inr ⟨c :: cs, by simp [fgets]⟩
    | succ r =>
      by_cases hc : c = '\n'
      · exact Or.inr ⟨cs, by simp [fgets, hc]⟩
      · have := ih r
        simpa [fgets, hc] using this

/-- Reading a text that was appended to a text ending with a newline: the
lines of the first text, then the lines of the second. -/
theorem fileLines_append (t u : List Char) (ht : Terminated t) :
    fileLines (t ++ u) = fileLines t ++ fileLines u := by
  generalize hn : t.length = n
  induction n using Nat.strong_induction_on generalizing t with
  | _ n ih =>
    rcases ht with rfl | ⟨p, rfl⟩
    · simp [fileLines, readLinesAux_nil]
    · cases hp : p ++ ['\n'] with
      | nil => simp at hp
      | cons c cs =>
        have happ : (c :: cs) ++ u = p ++ '\n' :: u := by rw [← hp]; simp
        have h1 : fileLines ((c :: cs) ++ u)
            = cstr (fgets 255 (p ++ ['\n'])).1
                :: fileLines ((fgets 255 (p ++ ['\n'])).2 ++ u) := by
          rw [List.cons_append, fileLines_cons, ← List.cons_append, happ, fgets_append]
        have h2 : fileLines (c :: cs)
            = cstr (fgets 255 (p ++ ['\n'])).1 :: fileLines (fgets 255 (p ++ ['\n'])).2 := by
          rw [fileLines_cons, ← hp]
        have hlen : (fgets 255 (p ++ ['\n'])).2.length < n := by
          have h3 : (fgets 255 (p ++ ['\n'])).2.length ≤ cs.length := by
            rw [hp]; exact fgets_rest_length 254 c cs
          have hn2 : n = cs.length + 1 := by rw [← hn, hp]; simp
          omega
        rw [h1, h2, ih _ hlen _ (fgets_rest_terminated p 255) rfl]
        simp

theorem terminated_append {t u : List Char} (ht : Terminated t) (hu : Terminated u) :
    Terminated (t ++ u) := by
  rcases hu with rfl | ⟨q, rfl⟩
  · simpa using ht
  · exact Or.inr ⟨t ++ q, by simp⟩

theorem goodLine_terminated {l : List Char} (h : GoodLine l) : Terminated l := by
  obtain ⟨body, hl, _, _⟩ := h
  exact Or.inr ⟨body, hl⟩

theorem fileLines_goodLine {l : List Char} (h : GoodLine l) : fileLines l = [cstr l] := by
  have := fileLines_flatten [l] (by simpa using h)
  simpa using this

/-- The lines of a log in which a whole line stands between two parts. -/
theorem fileLines_insert (pre line post : List Char) (hpre : Terminated pre)
    (hline : GoodLine line) :
    fileLines (pre ++ line ++ post) = fileLines pre ++ cstr line :: fileLines post := by
  rw [fileLines_append _ _ (terminated_append hpre (goodLine_terminated hline)),
    fileLines_append _ _ hpre, fileLines_goodLine hline]
  simp

/-! ## Lines that replay passes over -/

theorem cstr_head_hash {line : List Char} (h : line.head? = some '#') :
    (cstr line).head? = some '#' := by
  cases line with
  | nil => simp at h
  | cons c cs =>
    simp at h
    subst h
    have : ('#' : Char) ≠ Char.ofNat 0 := by decide
    simp [cstr, List.takeWhile, this]

theorem cstr_length_le (line : List Char) : (cstr line).length ≤ line.length := by
  unfold cstr
  exact (List.takeWhile_sublist _).length_le

theorem restoreLine_ignored (st : List Account × Int) {line : List Char}
    (h : IgnoredByRestore line) : restoreLine st (cstr line) = st := by
  unfold restoreLine
  rcases h with h | h | h
  · simp [cstr_head_hash h]
  · subst h
    have : cstr ['\n'] = ['\n'] := by decide
    simp [this]
  · simp [h]

theorem readLogLine_ignored (m : Int) {line : List Char}
    (h : IgnoredByReadLog line) : readLogLine m (cstr line) = m := by
  unfold readLogLine
  rcases h with h | h | h
  · simp [cstr_head_hash h]
  · have := cstr_length_le line
    have h2 : ¬ ((cstr line).length > 10) := by omega
    simp [h2]
  · simp [h]

/-- C15 as stated fails: a line need not have the form
`<id> <D|W> <amount> <balance_after>` to count.  The line `BankID_99 hello`,
inserted after the record of `BankID_01`, raises the `lastClientId` that
`readLogFile` delivers from 1 to 99; the line `BankID_01 X 5 0`, with an
operation that is neither `D` nor `W`, makes `restoreDatabaseFromLog` close the
account. -/
theorem malformed_line_counterexample :
    readLogFile (some "BankID_01 D 5 5\n".toList) = (1, 1) ∧
    readLogFile (some "BankID_01 D 5 5\nBankID_99 hello\n".toList) = (1, 99) ∧
    restoreDatabaseFromLog (some "BankID_01 D 5 5\n".toList) { accounts := [] }
      = (1, { accounts := [{ bankId := "BankID_01".toList, balance := 5, active := true }] }) ∧
    restoreDatabaseFromLog (some "BankID_01 D 5 5\nBankID_01 X 5 0\n".toList) { accounts := [] }
      = (1, { accounts := [{ bankId := "BankID_01".toList, balance := 0, active := false }] }) := by
  decide

/-! ## Replay of arbitrary records -/

theorem restoreLine_eq_record (st : List Account × Int) (line : List Char) :
    restoreLine st line
      = match parsedRecord line with
        | none => st
        | some r => restoreRecord st r.1 r.2 := by
  unfold restoreLine parsedRecord
  split
  · rfl
  · cases h : sscanfRecord line with
    | none => rfl
    | some v =>
      obtain ⟨bankId, c, a, b⟩ := v
      rfl

theorem restore_fold_records (lines : List (List Char)) :
    ∀ st, lines.foldl restoreLine st
      = (lines.filterMap parsedRecord).foldl (fun st r => restoreRecord st r.1 r.2) st := by
  induction lines with
  | nil => intro st; rfl
  | cons l rest ih =>
    intro st
    rw [List.foldl_cons, restoreLine_eq_record, ih]
    cases h : parsedRecord l with
    | none => simp [List.filterMap_cons, h]
    | some r => simp [List.filterMap_cons, h]

theorem restoreBalance_at {accounts : List Account} (r : Int) {k : Nat} {acc : Account}
    (b : Int) (hacc : accounts[k]? = some acc) :
    (restoreBalance accounts r k b).1
      = accounts.set k { acc with balance := b,
                                  active := if b = 0 then false else acc.active } := by
  have hk := getElem?_lt_length hacc
  have hget2 : (modifyAt (fun x => { x with balance := b }) accounts k)[k]?
      = some { acc with balance := b } := by
    rw [modifyAt_eq_set _ hacc]
    simp [hk]
  unfold restoreBalance
  simp only
  split
  · rename_i hb0
    rw [modifyAt_eq_set _ hget2, modifyAt_eq_set _ hacc]
    simp [hb0]
  · rename_i hb0
    split <;> rw [modifyAt_eq_set _ hacc]

theorem restoreRecord_existing {accounts : List Account} (r : Int) {k : Nat} {acc : Account}
    (b : Int) (hacc : accounts[k]? = some acc) (hnd : (accounts.map Account.bankId).Nodup) :
    (restoreRecord (accounts, r) acc.bankId b).1
      = accounts.set k { acc with balance := b,
                                  active := if b = 0 then false else acc.active } := by
  unfold restoreRecord
  simp only [findById_of_nodup hacc hnd]
  exact restoreBalance_at r b hacc

theorem restoreRecord_new {accounts : List Account} (r : Int) {bankId : List Char} (b : Int)
    (hnew : bankId ∉ accounts.map Account.bankId) (hlen : accounts.length < 100) :
    (restoreRecord (accounts, r) bankId b).1
      = accounts ++ [{ bankId := bankId.take 19, balance := b, active := decide (b ≠ 0) }] := by
  have hfind : findById accounts bankId = none := findById_none.mpr hnew
  have hl : ¬ (accounts.length ≥ 100) := by omega
  have hget : (accounts ++ [(⟨bankId.take 19, 0, true⟩ : Account)])[accounts.length]?
      = some ⟨bankId.take 19, 0, true⟩ := by
    simp
  unfold restoreRecord
  simp only [hfind, hl, if_false]
  rw [restoreBalance_at r b hget]
  by_cases hb0 : b = 0 <;> simp [hb0]

theorem restoreRecord_full {accounts : List Account} (r : Int) {bankId : List Char} (b : Int)
    (hnew : bankId ∉ accounts.map Account.bankId) (hlen : 100 ≤ accounts.length) :
    restoreRecord (accounts, r) bankId b = (accounts, r) := by
  have hfind : findById accounts bankId = none := findById_none.mpr hnew
  unfold restoreRecord
  simp [hfind, hlen]

/-! ## The records of a log, as the specification reads them -/

theorem firstOccurrences_snoc (ids : List (List Char)) (x : List Char) :
    firstOccurrences (ids ++ [x])
      = if x ∈ firstOccurrences ids then firstOccurrences ids
        else firstOccurrences ids ++ [x] := by
  simp [firstOccurrences, List.foldl_append]

theorem mem_firstOccurrences (ids : List (List Char)) (x : List Char) :
    x ∈ firstOccurrences ids ↔ x ∈ ids := by
  induction ids using List.reverseRecOn with
  | nil => simp [firstOccurrences]
  | append_singleton l a ih =>
    rw [firstOccurrences_snoc]
    by_cases h : a ∈ firstOccurrences l
    · simp only [h, if_true, List.mem_append, List.mem_singleton]
      constructor
      · intro hx; exact Or.inl (ih.mp hx)
      · rintro (hx | hx)
        · exact ih.mpr hx
        · rw [hx]; exact h
    · simp only [h, if_false, List.mem_append, List.mem_singleton, ih]

theorem nodup_firstOccurrences (ids : List (List Char)) : (firstOccurrences ids).Nodup := by
  induction ids using List.reverseRecOn with
  | nil => simp [firstOccurrences]
  | append_singleton l a ih =>
    rw [firstOccurrences_snoc]
    by_cases h : a ∈ firstOccurrences l
    · simpa [h] using ih
    · simp only [h, if_false]
      rw [List.nodup_append]
      refine ⟨ih, by simp, ?_⟩
      intro y hy hz
      simp at hz
      subst hz
      exact h hy

theorem lastBalance_snoc (recs : List (List Char × Int)) (x : List Char) (b : Int)
    (y : List Char) :
    lastBalance (recs ++ [(x, b)]) y = if y = x then b else lastBalance recs y := by
  unfold lastBalance
  by_cases h : y = x
  · subst h
    simp [List.filter_append, List.filter_cons]
  · have h2 : ¬ (x = y) := fun e => h e.symm
    simp [List.filter_append, List.filter_cons, h, h2]

theorem neverZero_snoc (recs : List (List Char × Int)) (x : List Char) (b : Int)
    (y : List Char) :
    neverZero (recs ++ [(x, b)]) y
      = if y = x then (neverZero recs y && decide (b ≠ 0)) else neverZero recs y := by
  unfold neverZero
  by_cases h : y = x
  · subst h
    simp [List.filter_append, List.filter_cons]
  · have h2 : ¬ (x = y) := fun e => h e.symm
    simp [List.filter_append, List.filter_cons, h, h2]

theorem neverZero_of_not_mem (recs : List (List Char × Int)) (x : List Char)
    (h : x ∉ recs.map Prod.fst) : neverZero recs x = true := by
  unfold neverZero
  have : recs.filter (fun r => decide (r.1 = x)) = [] := by
    rw [List.filter_eq_nil_iff]
    intro r hr
    simp only [decide_eq_true_eq]
    intro he
    exact h (he ▸ List.mem_map_of_mem Prod.fst hr)
  simp [this]

theorem map_set_of_nodup {β : Type} (l : List (List Char)) (g g2 : List Char → β) (k : Nat)
    (x : List Char) (hk : l[k]? = some x) (hnd : l.Nodup)
    (hg : ∀ y, y ≠ x → g2 y = g y) :
    l.map g2 = (l.map g).set k (g2 x) := by
  obtain ⟨hk1, e2⟩ := List.getElem?_eq_some.mp hk
  apply List.ext_getElem?
  intro i
  by_cases hik : i = k
  · subst hik
    simp [hk, hk1, e2]
  · have hik2 : k ≠ i := fun e => hik e.symm
    rw [List.getElem?_set_ne hik2]
    simp only [List.getElem?_map]
    cases hi : l[i]? with
    | none => rfl
    | some y =>
      obtain ⟨hi1, e1⟩ := List.getElem?_eq_some.mp hi
      have hne : y ≠ x := by
        intro e
        subst e
        exact hik ((List.Nodup.getElem_inj_iff hnd).mp (e1.trans e2.symm))
      simp [hg y hne]

/-- The accounts that the loop of `restoreDatabaseFromLog` builds from a
sequence of records whose ids fit the 20-byte id buffer: one account for each
of the first 100 ids, in order of first occurrence. -/
theorem restore_fold_spec (recs : List (List Char × Int)) :
    (∀ r ∈ recs, r.1.length ≤ 19) → ∀ c0 : Int,
      (recs.foldl (fun st r => restoreRecord st r.1 r.2) ([], c0)).1
        = replayedAccounts recs := by
  induction recs using List.reverseRecOn with
  | nil => intro _ c0; simp [replayedAccounts, firstOccurrences]
  | append_singleton recs r ih =>
    intro hlen c0
    obtain ⟨x, b⟩ := r
    have hx19 : x.length ≤ 19 := hlen (x, b) (by simp)
    have ih2 := ih (fun r hr => hlen r (List.mem_append_left _ hr)) c0
    rw [List.foldl_append, List.foldl_cons, List.foldl_nil]
    generalize hst : recs.foldl (fun st r => restoreRecord st r.1 r.2) ([], c0) = st at ih2 ⊢
    obtain ⟨A, c⟩ := st
    simp only at ih2
    show (restoreRecord (A, c) x b).1 = _
    -- the specification before and after the record
    set F := firstOccurrences (recs.map Prod.fst) with hF
    have hFnd : F.Nodup := nodup_firstOccurrences _
    have hTnd : (F.take 100).Nodup := (List.take_sublist 100 F).nodup hFnd
    have hAids : A.map Account.bankId = F.take 100 := by
      rw [ih2]; simp [replayedAccounts, List.map_map, Function.comp_def]
    have hg : ∀ y, y ≠ x →
        ({ bankId := y, balance := lastBalance (recs ++ [(x, b)]) y,
           active := neverZero (recs ++ [(x, b)]) y } : Account)
        = { bankId := y, balance := lastBalance recs y, active := neverZero recs y } := by
      intro y hy
      rw [lastBalance_snoc, neverZero_snoc]
      simp [hy]
    have hF2 : firstOccurrences ((recs ++ [(x, b)]).map Prod.fst)
        = if x ∈ F then F else F ++ [x] := by
      rw [List.map_append, List.map_singleton, firstOccurrences_snoc]
    by_cases hxT : x ∈ F.take 100
    · -- a further record of an account of the database
      have hxF : x ∈ F := List.mem_of_mem_take hxT
      obtain ⟨k, hk⟩ := List.getElem?_of_mem hxT
      have hkA : A[k]? = some { bankId := x, balance := lastBalance recs x,
                                 active := neverZero recs x } := by
        rw [ih2]
        unfold replayedAccounts
        rw [List.getElem?_map, ← hF, hk]
        rfl
      have hnd : (A.map Account.bankId).Nodup := by rw [hAids]; exact hTnd
      have h1 := restoreRecord_existing c b hkA hnd
      simp only at h1
      rw [h1]
      unfold replayedAccounts
      rw [hF2, if_pos hxF]
      rw [map_set_of_nodup (F.take 100) _ _ k x hk hTnd hg, ih2]
      unfold replayedAccounts
      congr 1
      rw [lastBalance_snoc, neverZero_snoc]
      by_cases hb0 : b = 0 <;> simp [hb0]
    · have hnew : x ∉ A.map Account.bankId := by rw [hAids]; exact hxT
      have hsame : (F.take 100).map (fun y =>
            ({ bankId := y, balance := lastBalance (recs ++ [(x, b)]) y,
               active := neverZero (recs ++ [(x, b)]) y } : Account))
          = A := by
        rw [ih2]
        unfold replayedAccounts
        apply List.map_congr_left
        intro y hy
        exact hg y (fun e => hxT (e ▸ hy))
      by_cases hxF : x ∈ F
      · -- an id beyond the first 100
        have hlong : 100 ≤ F.length := by
          by_contra hc
          have : F.take 100 = F := List.take_of_length_le (by omega)
          rw [this] at hxT
          exact hxT hxF
        have hAlen : 100 ≤ A.length := by
          have : A.length = (F.take 100).length := by rw [← hAids]; simp
          rw [this, List.length_take]; omega
        rw [restoreRecord_full c b hnew hAlen]
        unfold replayedAccounts
        rw [hF2, if_pos hxF]
        exact hsame.symm
      · by_cases hroom : F.length < 100
        · -- a new account
          have hT : F.take 100 = F := List.take_of_length_le (by omega)
          have hAlen : A.length < 100 := by
            have : A.length = (F.take 100).length := by rw [← hAids]; simp
            rw [this, hT]; exact hroom
          rw [restoreRecord_new c b hnew hAlen]
          unfold replayedAccounts
          rw [hF2, if_neg hxF]
          have hT2 : (F ++ [x]).take 100 = F ++ [x] :=
            List.take_of_length_le (by simp; omega)
          rw [hT2, List.map_append, ← hT, hsame, List.map_singleton, lastBalance_snoc,
            neverZero_snoc]
          have hxrec : x ∉ recs.map Prod.fst := fun h =>
            hxF ((mem_firstOccurrences _ _).mpr h)
          simp [List.take_of_length_le hx19, neverZero_of_not_mem recs x hxrec]
        · -- no room for a new account
          have hlong : 100 ≤ F.length := by omega
          have hAlen : 100 ≤ A.length := by
            have : A.length = (F.take 100).length := by rw [← hAids]; simp
            rw [this, List.length_take]; omega
          rw [restoreRecord_full c b hnew hAlen]
          unfold replayedAccounts
          rw [hF2, if_neg hxF, List.take_append_of_le_length hlong]
          exact hsame.symm

theorem restore_fold_entries (es : List LogEntry) (hv : ∀ e ∈ es, e.Valid) :
    ∀ st, (es.map (fun e => cstr e.render)).foldl restoreLine st
      = (LogEntry.records es).foldl (fun st r => restoreRecord st r.1 r.2) st := by
  induction es with
  | nil => intro st; rfl
  | cons e rest ih =>
    intro st
    have he := hv e (List.mem_cons_self _ _)
    have ih2 := ih (fun x hx => hv x (List.mem_cons_of_mem _ hx))
    cases e with
    | comment line =>
      rw [List.map_cons, List.foldl_cons, ih2]
      have h1 : restoreLine st (cstr (LogEntry.comment line).render) = st :=
        restoreLine_comment st he
      rw [h1]
      rfl
    | record n c a b =>
      obtain ⟨_, _, hc, ha, hb⟩ := he
      rw [List.map_cons, List.foldl_cons, ih2]
      have h1 : restoreLine st (cstr (LogEntry.record n c a b).render)
          = restoreRecord st (generateBankId n) b := by
        unfold restoreRecord
        rw [List.take_of_length_le (generateBankId_length_le n)]
        exact restoreLine_record st hc ha hb
      rw [h1]
      rfl

theorem records_append (es es2 : List LogEntry) :
    LogEntry.records (es ++ es2) = LogEntry.records es ++ LogEntry.records es2 := by
  induction es with
  | nil => rfl
  | cons e rest ih =>
    cases e with
    | comment line => simpa [LogEntry.records] using ih
    | record n c a b => simp [LogEntry.records, ih]

theorem records_ids (es : List LogEntry) :
    (LogEntry.records es).map Prod.fst = (LogEntry.nums es).map generateBankId := by
  induction es with
  | nil => rfl
  | cons e rest ih =>
    cases e with
    | comment line => simpa [LogEntry.records, LogEntry.nums] using ih
    | record n c a b => simp [LogEntry.records, LogEntry.nums, ih]

theorem records_valid {es : List LogEntry} (hv : ∀ e ∈ es, e.Valid) :
    ∀ r ∈ LogEntry.records es, r.1.length ≤ 19 ∧ IsInt r.2 := by
  induction es with
  | nil => intro r hr; simp [LogEntry.records] at hr
  | cons e rest ih =>
    have hrest := ih (fun x hx => hv x (List.mem_cons_of_mem _ hx))
    have he := hv e (List.mem_cons_self _ _)
    cases e with
    | comment line => simpa [LogEntry.records] using hrest
    | record n c a b =>
      intro r hr
      simp only [LogEntry.records, List.mem_cons] at hr
      rcases hr with rfl | hr
      · exact ⟨generateBankId_length_le n, he.2.2.2.2⟩
      · exact hrest r hr

theorem mem_replayedAccounts {recs : List (List Char × Int)} {a : Account}
    (h : a ∈ replayedAccounts recs) :
    a.bankId ∈ recs.map Prod.fst ∧ a.balance = lastBalance recs a.bankId ∧
      a.active = neverZero recs a.bankId := by
  unfold replayedAccounts at h
  obtain ⟨id, hid, rfl⟩ := List.mem_map.mp h
  exact ⟨(mem_firstOccurrences _ _).mp (List.mem_of_mem_take hid), rfl, rfl⟩

theorem lastBalance_mem {recs : List (List Char × Int)} {bankId : List Char}
    (h : bankId ∈ recs.map Prod.fst) :
    (bankId, lastBalance recs bankId) ∈ recs ∧
      (neverZero recs bankId = true → lastBalance recs bankId ≠ 0) := by
  obtain ⟨r0, hr0, hid0⟩ := List.mem_map.mp h
  have hne : recs.filter (fun r => decide (r.1 = bankId)) ≠ [] := by
    intro he
    have : r0 ∈ recs.filter (fun r => decide (r.1 = bankId)) := by
      simp [List.mem_filter, hr0, hid0]
    rw [he] at this
    simp at this
  have hlast := List.getLast?_eq_getLast _ hne
  have hmem := List.getLast_mem hne
  rw [List.mem_filter] at hmem
  have hid : ((recs.filter (fun r => decide (r.1 = bankId))).getLast hne).1 = bankId := by
    simpa using hmem.2
  have hb : lastBalance recs bankId
      = ((recs.filter (fun r => decide (r.1 = bankId))).getLast hne).2 := by
    unfold lastBalance
    rw [hlast]
    rfl
  constructor
  · rw [hb]
    have : (bankId, ((recs.filter (fun r => decide (r.1 = bankId))).getLast hne).2)
        = (recs.filter (fun r => decide (r.1 = bankId))).getLast hne :=
      Prod.ext hid.symm rfl
    rw [this]
    exact hmem.1
  · intro hnz
    unfold neverZero at hnz
    rw [List.all_eq_true] at hnz
    have := hnz _ (List.getLast_mem hne)
    rw [hb]
    simpa using this

theorem set_of_getElem? {l : List Account} {k : Nat} {a : Account} (h : l[k]? = some a) :
    l.set k a = l := by
  apply List.ext_getElem?
  intro i
  by_cases hik : k = i
  · subst hik
    have hk := getElem?_lt_length h
    simp [h, hk]
  · rw [List.getElem?_set_ne hik]

/-- Booting on a log in the format of the server: the accounts and the
`lastClientId` in terms of the entries. -/
theorem boot_entries (es : List LogEntry) (hv : ∀ e ∈ es, e.Valid) (db : BankDatabase) :
    (restoreDatabaseFromLog (some (LogEntry.text es)) db).2.accounts
      = replayedAccounts (LogEntry.records es) ∧
    readLogFile (some (LogEntry.text es)) = (1, maxNum 0 (LogEntry.nums es)) := by
  have hlines : fileLines (LogEntry.text es) = es.map (fun e => cstr e.render) :=
    fileLines_entries es hv
  constructor
  · simp only [restoreDatabaseFromLog, hlines]
    rw [restore_fold_entries es hv]
    exact restore_fold_spec _ (fun r hr => (records_valid hv r hr).1) 0
  · simp only [readLogFile, hlines]
    rw [readLog_fold es hv 0]

/-- C14 as stated fails on a log whose record line starts with a blank.  The
database replayed from it holds `BankID_07` and `lastClientId` is 0; the
snapshot that `cleanupServer` writes for this database holds the line
`BankID_07 D 0 5`, and replaying the log followed by the snapshot gives the
same account but `lastClientId` 7. -/
theorem boot_shutdown_counterexample :
    (restoreDatabaseFromLog (some " BankID_07 D 5 5\n".toList) { accounts := [] }).2
      = { accounts := [{ bankId := "BankID_07".toList, balance := 5, active := true }] } ∧
    (readLogFile (some " BankID_07 D 5 5\n".toList)).2 = 0 ∧
    cleanupServer "AdaBank".toList "12:00 May 01 2025".toList
        { bankDb := { accounts := [{ bankId := "BankID_07".toList, balance := 5,
                                     active := true }] },
          lastClientId := 0,
          logFile := " BankID_07 D 5 5\n".toList }
      = (" BankID_07 D 5 5\n# AdaBank Log file updated @12:00 May 01 2025\n\n" ++
          "BankID_07 D 0 5\n\n## end of log.\n\n").toList ∧
    (restoreDatabaseFromLog
      (some (" BankID_07 D 5 5\n# AdaBank Log file updated @12:00 May 01 2025\n\n" ++
          "BankID_07 D 0 5\n\n## end of log.\n\n").toList) { accounts := [] }).2
      = { accounts := [{ bankId := "BankID_07".toList, balance := 5, active := true }] } ∧
    (readLogFile
      (some (" BankID_07 D 5 5\n# AdaBank Log file updated @12:00 May 01 2025\n\n" ++
          "BankID_07 D 0 5\n\n## end of log.\n\n").toList)).2 = 7 := by
  decide

/-! ## What `sscanf` consumes -/

theorem scanToken_spec (s : List Char) :
    s = (scanToken s).1 ++ (scanToken s).2 ∧
    (∀ c ∈ (scanToken s).1, isspace c = false) ∧
    (∀ c ∈ (scanToken s).2.head?, isspace c = true) := by
  induction s with
  | nil => simp [scanToken]
  | cons c cs ih =>
    by_cases hc : isspace c = true
    · simp [scanToken, hc]
    · have hc2 : isspace c = false := by simpa using hc
      obtain ⟨h1, h2, h3⟩ := ih
      refine ⟨?_, ?_, ?_⟩
      · simp only [scanToken, hc2, Bool.false_eq_true, if_false, List.cons_append]
        rw [← h1]
      · intro x hx
        simp only [scanToken, hc2, Bool.false_eq_true, if_false, List.mem_cons] at hx
        rcases hx with rfl | hx
        · exact hc2
        · exact h2 x hx
      · simpa [scanToken, hc2] using h3

theorem skipSpaces_spec (s : List Char) :
    (skipSpaces s).length ≤ s.length ∧ (∀ c ∈ skipSpaces s, c ∈ s) ∧
    (∀ c ∈ (skipSpaces s).head?, isspace c = false) := by
  induction s with
  | nil => simp [skipSpaces]
  | cons c cs ih =>
    by_cases hc : isspace c = true
    · obtain ⟨h1, h2, h3⟩ := ih
      simp only [skipSpaces, hc, if_true]
      exact ⟨by simp; omega, fun x hx => List.mem_cons_of_mem _ (h2 x hx), h3⟩
    · have hc2 : isspace c = false := by simpa using hc
      simp [skipSpaces, hc2]

theorem skipSpaces_of_head (s : List Char) (h : ∀ c ∈ s.head?, isspace c = false) :
    skipSpaces s = s := by
  cases s with
  | nil => rfl
  | cons c cs =>
    have hc : isspace c = false := h c (by simp)
    simp [skipSpaces, hc]

theorem scanStr_spec {s tok r1 : List Char} (h : scanStr s = some (tok, r1)) :
    tok ≠ [] ∧ (∀ c ∈ tok, isspace c = false) ∧ skipSpaces s = tok ++ r1 ∧
    (∀ c ∈ r1.head?, isspace c = true) := by
  unfold scanStr at h
  cases hs : skipSpaces s with
  | nil => simp [hs] at h
  | cons c cs =>
    simp only [hs, Option.some.injEq] at h
    have hspec := scanToken_spec (c :: cs)
    rw [h] at hspec
    obtain ⟨h1, h2, h3⟩ := hspec
    have hc : isspace c = false := (skipSpaces_spec s).2.2 c (by simp [hs])
    refine ⟨?_, h2, h1, h3⟩
    intro ht
    subst ht
    have : (scanToken (c :: cs)).1 ≠ [] := by simp [scanToken, hc]
    rw [h] at this
    exact this rfl

theorem scanChar_spec {r1 r2 : List Char} {c : Char} (h : scanChar r1 = some (c, r2)) :
    r2.length < r1.length := by
  unfold scanChar at h
  have hlen := (skipSpaces_spec r1).1
  cases hs : skipSpaces r1 with
  | nil => simp [hs] at h
  | cons d ds =>
    simp only [hs, Option.some.injEq, Prod.mk.injEq] at h
    rw [hs] at hlen
    rw [← h.2]
    simp only [List.length_cons] at hlen
    omega

theorem scanDigits_length (s : List Char) :
    ∀ acc, (scanDigits s acc).2.length ≤ s.length := by
  induction s with
  | nil => intro acc; simp [scanDigits]
  | cons c cs ih =>
    intro acc
    unfold scanDigits
    split
    · have := ih (acc * 10 + (c.toNat - 48))
      simp only [List.length_cons]
      omega
    · simp

theorem scanInt_spec {r r2 : List Char} {v : Int} (h : scanInt r = some (v, r2)) :
    r2.length < r.length ∧ IsInt v := by
  unfold scanInt at h
  have hlen := (skipSpaces_spec r).1
  cases hs : skipSpaces r with
  | nil => simp [hs] at h
  | cons c cs =>
    rw [hs] at hlen
    simp only [List.length_cons] at hlen
    simp only [hs] at h
    split at h
    · cases cs with
      | nil => simp at h
      | cons d ds =>
        simp only at h
        split at h
        · simp only [Option.some.injEq, Prod.mk.injEq] at h
          have := scanDigits_length (d :: ds) 0
          rw [← h.1, ← h.2]
          exact ⟨by simp only [List.length_cons] at this hlen ⊢; omega, isInt_scanfInt _⟩
        · simp at h
    · split at h
      · cases cs with
        | nil => simp at h
        | cons d ds =>
          simp only at h
          split at h
          · simp only [Option.some.injEq, Prod.mk.injEq] at h
            have := scanDigits_length (d :: ds) 0
            rw [← h.1, ← h.2]
            exact ⟨by simp only [List.length_cons] at this hlen ⊢; omega, isInt_scanfInt _⟩
          · simp at h
      · split at h
        · rename_i hd
          simp only [Option.some.injEq, Prod.mk.injEq] at h
          have hstep : (scanDigits (c :: cs) 0).2.length ≤ cs.length := by
            have := scanDigits_length cs (0 * 10 + (c.toNat - 48))
            simpa [scanDigits, hd] using this
          rw [← h.1, ← h.2]
          exact ⟨by omega, isInt_scanfInt _⟩
        · simp at h

/-- What a line from which `sscanf` reads four fields looks like: after the
white space at its start come the id, a white space character, and at least
two more characters. -/
theorem sscanfRecord_spec {line tok : List Char} {c : Char} {a b : Int}
    (h : sscanfRecord line = some (tok, c, a, b)) :
    tok ≠ [] ∧ (∀ x ∈ tok, isspace x = false) ∧ IsInt b ∧
    ∃ (w : Char) (rest : List Char), skipSpaces line = tok ++ w :: rest ∧ isspace w = true ∧
      2 ≤ rest.length := by
  unfold sscanfRecord at h
  cases h1 : scanStr line with
  | none => simp [h1] at h
  | some p1 =>
    obtain ⟨tok1, r1⟩ := p1
    simp only [h1] at h
    cases h2 : scanChar r1 with
    | none => simp [h2] at h
    | some p2 =>
      obtain ⟨c1, r2⟩ := p2
      simp only [h2] at h
      cases h3 : scanInt r2 with
      | none => simp [h3] at h
      | some p3 =>
        obtain ⟨a1, r3⟩ := p3
        simp only [h3] at h
        cases h4 : scanInt r3 with
        | none => simp [h4] at h
        | some p4 =>
          obtain ⟨b1, r4⟩ := p4
          simp only [h4, Option.some.injEq, Prod.mk.injEq] at h
          obtain ⟨e1, _, _, e4⟩ := h
          subst e1
          subst e4
          obtain ⟨hne, hns, hsplit, hhead⟩ := scanStr_spec h1
          have l2 := scanChar_spec h2
          have l3 := (scanInt_spec h3).1
          have l4 := scanInt_spec h4
          refine ⟨hne, hns, l4.2, ?_⟩
          cases r1 with
          | nil => simp at l2
          | cons w rest =>
            refine ⟨w, rest, hsplit, hhead w (by simp), ?_⟩
            simp only [List.length_cons] at l2
            omega

/-! ## The id at the start of a line -/

theorem isdigit_of_isspace {c : Char} (h : isspace c = true) : isdigit c = false := by
  cases hd : isdigit c with
  | false => rfl
  | true => rw [isspace_of_isdigit hd] at h; cases h

theorem scanLiteral_token (p : List Char) (hp : ∀ c ∈ p, isspace c = false) :
    ∀ (tok x y : List Char), (∀ c ∈ x.head?, isspace c = true) → x ≠ [] →
      scanLiteral p (tok ++ x) = some y → ∃ d, tok = p ++ d ∧ y = d ++ x := by
  induction p with
  | nil =>
    intro tok x y _ _ h
    have hs : scanLiteral [] (tok ++ x) = some (tok ++ x) := by
      cases tok ++ x <;> rfl
    rw [hs] at h
    exact ⟨tok, rfl, (Option.some.inj h).symm⟩
  | cons c ps ih =>
    intro tok x y hx hne h
    have hc : isspace c = false := hp c (List.mem_cons_self _ _)
    cases tok with
    | nil =>
      cases x with
      | nil => exact absurd rfl hne
      | cons w xs =>
        have hw : isspace w = true := hx w (by simp)
        have hcw : c ≠ w := by
          intro e; subst e; rw [hc] at hw; cases hw
        simp [scanLiteral, hcw] at h
    | cons t ts =>
      simp only [List.cons_append, scanLiteral] at h
      split at h
      · rename_i hct
        obtain ⟨d, hd1, hd2⟩ := ih (fun z hz => hp z (List.mem_cons_of_mem _ hz)) ts x y hx hne h
        exact ⟨d, by rw [hct, hd1]; rfl, hd2⟩
      · cases h

theorem scanDigits_value (d x1 x2 : List Char)
    (h1 : ∀ c ∈ x1.head?, isdigit c = false) (h2 : ∀ c ∈ x2.head?, isdigit c = false) :
    ∀ acc, (scanDigits (d ++ x1) acc).1 = (scanDigits (d ++ x2) acc).1 := by
  have hnil : ∀ (x : List Char), (∀ c ∈ x.head?, isdigit c = false) →
      ∀ acc, (scanDigits x acc).1 = acc := by
    intro x hx acc
    cases x with
    | nil => rfl
    | cons c cs =>
      have : isdigit c = false := hx c (by simp)
      simp [scanDigits, this]
  induction d with
  | nil =>
    intro acc
    simp only [List.nil_append]
    rw [hnil x1 h1, hnil x2 h2]
  | cons e ds ih =>
    intro acc
    simp only [List.cons_append, scanDigits]
    split
    · exact ih _
    · rfl

theorem scanInt_token (d r rest : List Char) (w : Char) (v : Int) (y : List Char)
    (hd : ∀ c ∈ d, isspace c = false) (hw : isspace w = true)
    (h : scanInt (d ++ ' ' :: 'D' :: r) = some (v, y)) :
    d ≠ [] ∧ ∃ y2, scanInt (d ++ w :: rest) = some (v, y2) := by
  have hsp : ∀ c ∈ (' ' :: 'D' :: r).head?, isdigit c = false := by
    intro c hc; simp at hc; subst hc; decide
  have hwd : ∀ c ∈ (w :: rest).head?, isdigit c = false := by
    intro c hc; simp at hc; subst hc; exact isdigit_of_isspace hw
  cases d with
  | nil =>
    have hD : isspace 'D' = false := by decide
    have hS : isspace ' ' = true := by decide
    have hDd : isdigit 'D' = false := by decide
    simp [scanInt, skipSpaces, hS, hD, hDd] at h
  | cons c ds =>
    refine ⟨by simp, ?_⟩
    have hc : isspace c = false := hd c (List.mem_cons_self _ _)
    have hsk : ∀ x : List Char, skipSpaces (c :: ds ++ x) = c :: (ds ++ x) := by
      intro x; simp [skipSpaces, hc]
    unfold scanInt at h ⊢
    rw [hsk] at h ⊢
    simp only at h ⊢
    split at h
    · -- a minus sign
      rename_i hminus
      simp only [hminus, if_true]
      cases ds with
      | nil =>
        have : isdigit ' ' = false := by decide
        simp [this] at h
      | cons e es =>
        simp only [List.cons_append] at h ⊢
        split at h
        · rename_i he
          simp only [he, if_true]
          simp only [Option.some.injEq, Prod.mk.injEq] at h
          refine ⟨(scanDigits (e :: (es ++ w :: rest)) 0).2, ?_⟩
          have hv := scanDigits_value (e :: es) _ _ hsp hwd 0
          simp only [List.cons_append] at hv
          rw [← hv, h.1]
        · cases h
    · split at h
      · -- a plus sign
        rename_i hminus hplus
        have hpm : ¬ (('+' : Char) = '-') := by decide
        simp only [hplus, hpm, if_true, if_false]
        cases ds with
        | nil =>
          have : isdigit ' ' = false := by decide
          simp [this] at h
        | cons e es =>
          simp only [List.cons_append] at h ⊢
          split at h
          · rename_i he
            simp only [he, if_true]
            simp only [Option.some.injEq, Prod.mk.injEq] at h
            refine ⟨(scanDigits (e :: (es ++ w :: rest)) 0).2, ?_⟩
            have hv := scanDigits_value (e :: es) _ _ hsp hwd 0
            simp only [List.cons_append] at hv
            rw [← hv, h.1]
          · cases h
      · split at h
        · rename_i hminus hplus hdig
          simp only [hminus, hplus, hdig, if_true, if_false]
          simp only [Option.some.injEq, Prod.mk.injEq] at h
          refine ⟨(scanDigits (c :: (ds ++ w :: rest)) 0).2, ?_⟩
          have hv := scanDigits_value (c :: ds) _ _ hsp hwd 0
          simp only [List.cons_append] at hv
          rw [← hv, h.1]
        · cases h

/-- The number that `sscanf` reads with `"BankID_%d"` at the start of a line
depends only on the id that starts the line: what it reads from the snapshot
line of an id it reads from every line that starts with this id and a white
space character. -/
theorem sscanfBankId_token (tok r rest : List Char) (w : Char) (v : Int)
    (htok : ∀ c ∈ tok, isspace c = false) (hw : isspace w = true)
    (h : sscanfBankId (tok ++ ' ' :: 'D' :: r) = some v) :
    sscanfBankId (tok ++ w :: rest) = some v ∧ 8 ≤ tok.length := by
  unfold sscanfBankId at h
  cases h1 : scanLiteral bankIdPrefix (tok ++ ' ' :: 'D' :: r) with
  | none => simp [h1] at h
  | some y1 =>
    simp only [h1] at h
    obtain ⟨d, hd1, hd2⟩ := scanLiteral_token bankIdPrefix
      (fun c hc => (bankIdPrefix_plain c hc).1) tok _ y1
      (by intro c hc; simp at hc; subst hc; decide) (by simp) h1
    subst hd2
    cases h2 : scanInt (d ++ ' ' :: 'D' :: r) with
    | none => simp [h2] at h
    | some p =>
      obtain ⟨v1, y⟩ := p
      simp only [h2, Option.some.injEq] at h
      subst h
      have hdns : ∀ c ∈ d, isspace c = false := by
        intro c hc
        exact htok c (by rw [hd1]; exact List.mem_append_right _ hc)
      obtain ⟨hne, y2, hy2⟩ := scanInt_token d r rest w v1 y hdns hw h2
      constructor
      · unfold sscanfBankId
        rw [hd1, List.append_assoc, scanLiteral_append]
        simp only [hy2]
      · have : 0 < d.length := List.length_pos.mpr hne
        rw [hd1]
        simp only [List.length_append, bankIdPrefix, List.length_cons, List.length_nil]
        omega

/-! ## Replay of the snapshot after an arbitrary log -/

theorem cstr_no_nul (l : List Char) : ∀ x ∈ cstr l, x ≠ Char.ofNat 0 := by
  intro x hx
  unfold cstr at hx
  have := List.mem_takeWhile_imp hx
  simpa using this

theorem readLinesAux_no_nul :
    ∀ (fuel : Nat) (t : List Char), ∀ line ∈ readLinesAux fuel t,
      ∀ x ∈ line, x ≠ Char.ofNat 0 := by
  intro fuel
  induction fuel with
  | zero => intro t line hl; simp [readLinesAux] at hl
  | succ f ih =>
    intro t line hl
    cases t with
    | nil => simp [readLinesAux] at hl
    | cons c cs =>
      rw [readLinesAux_succ f _ (by simp)] at hl
      rcases List.mem_cons.mp hl with h | h
      · rw [h]; exact cstr_no_nul _
      · exact ih _ line h

theorem snapshotLines_eq (l : List Account) :
    snapshotLines l = (snapshotLineList l).flatten := by
  induction l with
  | nil => rfl
  | cons a rest ih =>
    unfold snapshotLines
    by_cases hact : a.active = true
    · rw [if_pos hact, snapshot_line_eq, ih]
      simp [snapshotLineList, hact]
    · rw [if_neg hact, ih]
      simp [snapshotLineList, hact]

/-- What is known of a line of a log from which replay reads a record. -/
theorem record_line_facts {text line tok : List Char} {b : Int}
    (hl : line ∈ fileLines text) (hp : parsedRecord line = some (tok, b)) :
    tok ≠ [] ∧ (∀ x ∈ tok, isspace x = false) ∧ (∀ x ∈ tok, x ≠ Char.ofNat 0) ∧ IsInt b ∧
    line.head? ≠ some '#' ∧
    ∃ (w : Char) (rest : List Char), skipSpaces line = tok ++ w :: rest ∧ isspace w = true ∧
      2 ≤ rest.length := by
  unfold parsedRecord at hp
  split at hp
  · cases hp
  · rename_i hskip
    cases hs : sscanfRecord line with
    | none => simp [hs] at hp
    | some q =>
      obtain ⟨tok1, c, a, b1⟩ := q
      simp only [hs, Option.some.injEq, Prod.mk.injEq] at hp
      obtain ⟨e1, e2⟩ := hp
      subst e1
      subst e2
      obtain ⟨h1, h2, h3, w, rest, h4, h5, h6⟩ := sscanfRecord_spec hs
      refine ⟨h1, h2, ?_, h3, fun h => hskip (Or.inl h), w, rest, h4, h5, h6⟩
      intro x hx
      have hx2 : x ∈ skipSpaces line := by rw [h4]; exact List.mem_append_left _ hx
      exact readLinesAux_no_nul _ _ line hl x ((skipSpaces_spec line).2.1 x hx2)

theorem snapshot_goodLine {bankId : List Char} {b : Int}
    (hns : ∀ x ∈ bankId, isspace x = false) (hlen : bankId.length ≤ 19) (hb : IsInt b) :
    GoodLine (logRecord bankId 'D' 0 b) := by
  refine ⟨_, logRecord_body _ _ _ _, ?_, ?_⟩
  · intro hmem
    simp only [List.mem_append, List.mem_cons] at hmem
    rcases hmem with h | h | h | h | h | h | h
    · have := hns _ h
      revert this; decide
    · revert h; decide
    · revert h; decide
    · revert h; decide
    · exact (numChar_plain (fmtInt_chars 0 _ h)).2.1 rfl
    · revert h; decide
    · exact (numChar_plain (fmtInt_chars b _ h)).2.1 rfl
  · have h2 := fmtInt_length_le (show IsInt 0 by decide)
    have h3 := fmtInt_length_le hb
    simp only [List.length_append, List.length_cons]
    omega

theorem snapshot_cstr {bankId : List Char} {b : Int}
    (hnn : ∀ x ∈ bankId, x ≠ Char.ofNat 0) :
    cstr (logRecord bankId 'D' 0 b) = logRecord bankId 'D' 0 b := by
  apply cstr_of_no_nul
  intro x hx
  rw [logRecord_eq] at hx
  simp only [List.mem_append, List.mem_cons, List.mem_singleton, List.not_mem_nil,
    or_false] at hx
  rcases hx with h | h | h | h | h | h | h | h
  · exact hnn _ h
  · subst h; decide
  · subst h; decide
  · subst h; decide
  · exact (numChar_plain (fmtInt_chars 0 _ h)).2.2
  · subst h; decide
  · exact (numChar_plain (fmtInt_chars b _ h)).2.2
  · subst h; decide

theorem snapshot_parsed {bankId : List Char} {b : Int} (hne : bankId ≠ [])
    (hns : ∀ x ∈ bankId, isspace x = false) (hb : IsInt b) :
    parsedRecord (logRecord bankId 'D' 0 b)
      = if bankId.head? = some '#' then none else some (bankId, b) := by
  have hparse := sscanfRecord_logRecord bankId 'D' hne hns (by decide)
    (show IsInt 0 by decide) hb
  have hhead : (logRecord bankId 'D' 0 b).head? = bankId.head? := by
    rw [logRecord_eq]
    cases bankId with
    | nil => exact absurd rfl hne
    | cons c cs => rfl
  have hlen : ¬ ((logRecord bankId 'D' 0 b).length ≤ 1) := by
    rw [logRecord_eq]
    simp only [List.length_append, List.length_cons]
    omega
  unfold parsedRecord
  rw [hhead, hparse]
  by_cases hh : bankId.head? = some '#'
  · simp [hh]
  · simp [hh, hlen]

theorem foldl_restore_noop (A : List Account) (lines : List (List Char))
    (h : ∀ l ∈ lines, ∀ c : Int, (restoreLine (A, c) l).1 = A) :
    ∀ c : Int, (lines.foldl restoreLine (A, c)).1 = A := by
  induction lines with
  | nil => intro c; rfl
  | cons l rest ih =>
    intro c
    rw [List.foldl_cons]
    have h1 := h l (List.mem_cons_self _ _) c
    have h2 : restoreLine (A, c) l = (A, (restoreLine (A, c) l).2) := Prod.ext h1 rfl
    rw [h2]
    exact ih (fun x hx => h x (List.mem_cons_of_mem _ hx)) _

theorem foldl_readLog_noop (m : Int) (lines : List (List Char))
    (h : ∀ l ∈ lines, readLogLine m l = m) : lines.foldl readLogLine m = m := by
  induction lines with
  | nil => rfl
  | cons l rest ih =>
    rw [List.foldl_cons, h l (List.mem_cons_self _ _)]
    exact ih (fun x hx => h x (List.mem_cons_of_mem _ hx))

theorem readLogLine_eq (m : Int) (line : List Char) :
    readLogLine m line
      = match lineNumber line with
        | some n => if n > m then n else m
        | none => m := by
  unfold readLogLine lineNumber
  split
  · rfl
  · rfl

theorem readLog_fold_lines (lines : List (List Char)) :
    ∀ m, lines.foldl readLogLine m = maxNum m (lines.filterMap lineNumber) := by
  induction lines with
  | nil => intro m; rfl
  | cons l rest ih =>
    intro m
    rw [List.foldl_cons, readLogLine_eq, ih]
    cases h : lineNumber l with
    | none => simp [List.filterMap_cons, h]
    | some n => simp [List.filterMap_cons, h, maxNum]

/-- What the accounts replayed from a sequence of records are. -/
theorem replayedAccounts_facts (recs : List (List Char × Int)) :
    ((replayedAccounts recs).map Account.bankId).Nodup ∧
    (∀ a ∈ replayedAccounts recs, a.active = true → a.balance ≠ 0) ∧
    (∀ a ∈ replayedAccounts recs, (a.bankId, a.balance) ∈ recs) := by
  refine ⟨?_, ?_, ?_⟩
  · have : (replayedAccounts recs).map Account.bankId
        = (firstOccurrences (recs.map Prod.fst)).take 100 := by
      simp [replayedAccounts, List.map_map, Function.comp_def]
    rw [this]
    exact (List.take_sublist 100 _).nodup (nodup_firstOccurrences _)
  · intro a ha hact
    obtain ⟨h1, h2, h3⟩ := mem_replayedAccounts ha
    rw [h2]
    exact (lastBalance_mem h1).2 (by rw [← h3]; exact hact)
  · intro a ha
    obtain ⟨h1, h2, _⟩ := mem_replayedAccounts ha
    rw [h2]
    exact (lastBalance_mem h1).1

/-- Replay of the log that `cleanupServer` leaves, for an arbitrary log so far
that ends with a newline and whose record ids fit the id buffer, when the
database is the one replayed from that log: the accounts are the same; and
`readLogFile` delivers the same number if no record line of the log starts with
white space. -/
theorem cleanup_replay_text (T : List Char) (s : ServerState) (hterm : Terminated T)
    (hids : ∀ r ∈ logRecords T, r.1.length ≤ 19)
    (hlog : s.logFile = T) (hdb : s.bankDb.accounts = replayedAccounts (logRecords T))
    (name timeStr : List Char) (h1 : '\n' ∉ name) (h2 : '\n' ∉ timeStr) (db : BankDatabase) :
    (restoreDatabaseFromLog (some (cleanupServer name timeStr s)) db).2.accounts
      = s.bankDb.accounts ∧
    ((∀ line ∈ fileLines T, parsedRecord line ≠ none → skipSpaces line = line) →
      readLogFile (some (cleanupServer name timeStr s)) = readLogFile (some T)) := by
  obtain ⟨hnd, hnz, hrec⟩ := replayedAccounts_facts (logRecords T)
  rw [← hdb] at hnd hnz hrec
  -- every account comes from a line of the log
  have horigin : ∀ a ∈ s.bankDb.accounts, ∃ line ∈ fileLines T,
      parsedRecord line = some (a.bankId, a.balance) := by
    intro a ha
    have := hrec a ha
    unfold logRecords at this
    obtain ⟨line, hl, hp⟩ := List.mem_filterMap.mp this
    exact ⟨line, hl, hp⟩
  have hlen19 : ∀ a ∈ s.bankDb.accounts, a.bankId.length ≤ 19 :=
    fun a ha => hids _ (hrec a ha)
  -- the text that is appended, line by line
  have hhdr : CommentLine (logHeaderLine (name.take 49) (timeStr.take 29)) :=
    logHeaderLine_comment (not_mem_take _ h1) (not_mem_take _ h2)
      (by simp [List.length_take]) (by simp [List.length_take])
  let pre : List (List Char) := [logHeaderLine (name.take 49) (timeStr.take 29), ['\n']]
  let post : List (List Char) := [['\n'], "## end of log.".toList ++ ['\n'], ['\n']]
  have hpre : ∀ l ∈ pre, CommentLine l := by
    intro l hl
    simp only [pre, List.mem_cons, List.mem_singleton, List.not_mem_nil, or_false] at hl
    rcases hl with rfl | rfl
    · exact hhdr
    · exact blank_comment
  have hpost : ∀ l ∈ post, CommentLine l := by
    intro l hl
    simp only [post, List.mem_cons, List.mem_singleton, List.not_mem_nil, or_false] at hl
    rcases hl with rfl | rfl | rfl
    · exact blank_comment
    · exact endMarker_comment
    · exact blank_comment
  have hsnap : ∀ l ∈ snapshotLineList s.bankDb.accounts, ∃ a ∈ s.bankDb.accounts,
      a.active = true ∧ l = logRecord a.bankId 'D' 0 a.balance := by
    intro l hl
    unfold snapshotLineList at hl
    obtain ⟨a, ha, rfl⟩ := List.mem_map.mp hl
    rw [List.mem_filter] at ha
    exact ⟨a, ha.1, ha.2, rfl⟩
  have hgood : ∀ l ∈ pre ++ snapshotLineList s.bankDb.accounts ++ post, GoodLine l := by
    intro l hl
    simp only [List.mem_append] at hl
    rcases hl with (hl | hl) | hl
    · exact commentLine_good (hpre l hl)
    · obtain ⟨a, ha, _, rfl⟩ := hsnap l hl
      obtain ⟨line, hline, hp⟩ := horigin a ha
      obtain ⟨_, hns, _, hb, _⟩ := record_line_facts hline hp
      exact snapshot_goodLine hns (hlen19 a ha) hb
    · exact commentLine_good (hpost l hl)
  have htext : cleanupServer name timeStr s
      = T ++ (pre ++ snapshotLineList s.bankDb.accounts ++ post).flatten := by
    simp only [cleanupServer, hlog, snapshotLines_eq, endOfLog, pre, post,
      List.flatten_append, List.flatten_cons, List.flatten_nil, List.append_assoc,
      List.append_nil, List.cons_append, List.nil_append]
  have hlines : fileLines (cleanupServer name timeStr s)
      = fileLines T ++ (pre ++ snapshotLineList s.bankDb.accounts ++ post).map cstr := by
    rw [htext, fileLines_append _ _ hterm, fileLines_flatten _ hgood]
  constructor
  · simp only [restoreDatabaseFromLog, hlines, List.foldl_append]
    have hA : ((fileLines T).foldl restoreLine ([], 0)).1 = s.bankDb.accounts := by
      rw [restore_fold_records, hdb]
      exact restore_fold_spec (logRecords T) hids 0
    have hst : (fileLines T).foldl restoreLine ([], 0)
        = (s.bankDb.accounts, ((fileLines T).foldl restoreLine ([], 0)).2) :=
      Prod.ext hA rfl
    rw [hst]
    apply foldl_restore_noop
    intro l hl c
    obtain ⟨x, hx, rfl⟩ := List.mem_map.mp hl
    simp only [List.mem_append] at hx
    rcases hx with (hx | hx) | hx
    · rw [restoreLine_comment _ (hpre x hx)]
    · obtain ⟨a, ha, hact, rfl⟩ := hsnap x hx
      obtain ⟨line, hline, hp⟩ := horigin a ha
      obtain ⟨hne, hns, hnn, hb, _⟩ := record_line_facts hline hp
      rw [snapshot_cstr hnn, restoreLine_eq_record, snapshot_parsed hne hns hb]
      by_cases hh : a.bankId.head? = some '#'
      · simp [hh]
      · simp only [hh, if_false]
        obtain ⟨k, hk⟩ := List.getElem?_of_mem ha
        rw [restoreRecord_existing c a.balance hk hnd]
        have hb0 : a.balance ≠ 0 := hnz a ha hact
        simp only [hb0, if_false]
        exact set_of_getElem? hk
    · rw [restoreLine_comment _ (hpost x hx)]
  · intro hcol
    have hspec := maxNum_spec (lineNumbers T) 0
    simp only [readLogFile, hlines, List.foldl_append]
    rw [readLog_fold_lines (fileLines T) 0]
    congr 1
    apply foldl_readLog_noop
    intro l hl
    obtain ⟨x, hx, rfl⟩ := List.mem_map.mp hl
    simp only [List.mem_append] at hx
    rcases hx with (hx | hx) | hx
    · exact readLogLine_comment _ (hpre x hx)
    · obtain ⟨a, ha, hact, rfl⟩ := hsnap x hx
      obtain ⟨line, hline, hp⟩ := horigin a ha
      obtain ⟨hne, hns, hnn, hb, hhash, w, rest, hsk, hw, hrest⟩ :=
        record_line_facts hline hp
      rw [snapshot_cstr hnn, readLogLine_eq]
      cases hn : lineNumber (logRecord a.bankId 'D' 0 a.balance) with
      | none => rfl
      | some v =>
        simp only
        have hsb : sscanfBankId (logRecord a.bankId 'D' 0 a.balance) = some v := by
          unfold lineNumber at hn
          split at hn
          · exact hn
          · cases hn
        rw [logRecord_eq] at hsb
        have hline2 : line = a.bankId ++ w :: rest := by
          rw [← hsk]
          exact (hcol line hline (by rw [hp]; simp)).symm
        obtain ⟨hv, h8⟩ := sscanfBankId_token a.bankId _ rest w v hns hw hsb
        have hnum : lineNumber line = some v := by
          unfold lineNumber
          have hl10 : line.length > 10 := by
            rw [hline2]
            simp only [List.length_append, List.length_cons]
            omega
          rw [if_pos ⟨hhash, hl10⟩, hline2]
          exact hv
        have hmem : v ∈ lineNumbers T := by
          unfold lineNumbers
          exact List.mem_filterMap.mpr ⟨line, hline, hnum⟩
        have hle := hspec.2.1 v hmem
        have : ¬ (v > maxNum 0 (lineNumbers T)) := by omega
        simp only [lineNumbers] at this
        simp [this]
    · exact readLogLine_comment _ (hpost x hx)

/-! ## Logs in the format of the server, read as arbitrary logs -/

theorem parsedRecord_comment {l : List Char} (h : CommentLine l) :
    parsedRecord (cstr l) = none := by
  rcases cstr_comment h with h1 | h1
  · rw [h1]; simp [parsedRecord]
  · simp [parsedRecord, h1]

theorem lineNumber_comment {l : List Char} (h : CommentLine l) :
    lineNumber (cstr l) = none := by
  rcases cstr_comment h with h1 | h1
  · rw [h1]; simp [lineNumber]
  · simp [lineNumber, h1]

theorem parsedRecord_record {n : Int} {c : Char} {a b : Int}
    (hc : c = 'D' ∨ c = 'W') (ha : IsInt a) (hb : IsInt b) :
    parsedRecord (cstr (logRecord (generateBankId n) c a b)) = some (generateBankId n, b) := by
  rw [cstr_of_no_nul _ (record_no_nul n c a b hc)]
  have hhead := record_head n c a b
  have hlen := record_length_gt n c a b
  have hne : generateBankId n ≠ [] := by
    obtain ⟨rest, hr⟩ := generateBankId_cons n
    rw [hr]; simp
  have hparse := sscanfRecord_logRecord (generateBankId n) c hne
    (fun x hx => (generateBankId_plain n x hx).1) (isspace_opType hc) ha hb
  have hh : ¬ ((logRecord (generateBankId n) c a b).head? = some '#' ∨
      (logRecord (generateBankId n) c a b).length ≤ 1) := by
    rw [hhead]
    intro h
    rcases h with h | h
    · revert h; decide
    · omega
  simp only [parsedRecord, hh, if_false, hparse]

theorem lineNumber_record {n : Int} (c : Char) (a b : Int)
    (h1 : 1 ≤ n) (hn : IsInt n) (hc : c = 'D' ∨ c = 'W') :
    lineNumber (cstr (logRecord (generateBankId n) c a b)) = some n := by
  rw [cstr_of_no_nul _ (record_no_nul n c a b hc)]
  have hhead := record_head n c a b
  have hlen := record_length_gt n c a b
  have hparse : sscanfBankId (logRecord (generateBankId n) c a b) = some n := by
    rw [logRecord_eq]
    apply sscanfBankId_generateBankId hn (by omega)
    intro x hx; simp at hx; subst hx; decide
  have hh : (logRecord (generateBankId n) c a b).head? ≠ some '#' := by
    rw [hhead]; decide
  simp only [lineNumber, hh, hlen, hparse, ne_eq, not_false_eq_true, gt_iff_lt, and_self,
    if_true]

/-- On a log in the format of the server the records that replay reads are the
records of the entries, and the numbers that `readLogFile` reads are their
account numbers. -/
theorem server_log_records (es : List LogEntry) (hv : ∀ e ∈ es, e.Valid) :
    logRecords (LogEntry.text es) = LogEntry.records es ∧
    lineNumbers (LogEntry.text es) = LogEntry.nums es := by
  have hlines : fileLines (LogEntry.text es) = es.map (fun e => cstr e.render) :=
    fileLines_entries es hv
  unfold logRecords lineNumbers
  rw [hlines]
  clear hlines
  induction es with
  | nil => exact ⟨rfl, rfl⟩
  | cons e rest ih =>
    have he := hv e (List.mem_cons_self _ _)
    obtain ⟨ih1, ih2⟩ := ih (fun x hx => hv x (List.mem_cons_of_mem _ hx))
    cases e with
    | comment line =>
      have p1 : parsedRecord (cstr (LogEntry.comment line).render) = none :=
        parsedRecord_comment he
      have p2 : lineNumber (cstr (LogEntry.comment line).render) = none :=
        lineNumber_comment he
      constructor
      · rw [List.map_cons, List.filterMap_cons, p1]
        exact ih1
      · rw [List.map_cons, List.filterMap_cons, p2]
        exact ih2
    | record n c a b =>
      obtain ⟨h1, hn, hc, ha, hb⟩ := he
      have p1 : parsedRecord (cstr (LogEntry.record n c a b).render)
          = some (generateBankId n, b) := parsedRecord_record hc ha hb
      have p2 : lineNumber (cstr (LogEntry.record n c a b).render) = some n :=
        lineNumber_record c a b h1 hn hc
      constructor
      · rw [List.map_cons, List.filterMap_cons, p1]
        simp only [LogEntry.records]
        rw [← ih1]
      · rw [List.map_cons, List.filterMap_cons, p2]
        simp only [LogEntry.nums]
        rw [← ih2]

/-- A log in the format of the server meets the conditions under which replay
is characterised: it ends with a newline, its ids fit the id buffer, and no
record line starts with white space. -/
theorem server_log_shape (es : List LogEntry) (hv : ∀ e ∈ es, e.Valid) :
    Terminated (LogEntry.text es) ∧
    (∀ r ∈ logRecords (LogEntry.text es), r.1.length ≤ 19) ∧
    (∀ line ∈ fileLines (LogEntry.text es), parsedRecord line ≠ none →
      skipSpaces line = line) := by
  refine ⟨?_, ?_, ?_⟩
  · cases hes : es.getLast? with
    | none =>
      have : es = [] := List.getLast?_eq_none_iff.mp hes
      subst this
      exact Or.inl rfl
    | some e =>
      obtain ⟨l, hl⟩ : ∃ l, es = l ++ [e] := by
        have hne : es ≠ [] := by
          intro h; subst h; simp at hes
        refine ⟨es.dropLast, ?_⟩
        have h1 := List.dropLast_append_getLast hne
        have h2 : es.getLast hne = e := by
          rw [List.getLast?_eq_getLast _ hne] at hes
          exact Option.some.inj hes
        rw [h2] at h1
        exact h1.symm
      obtain ⟨body, hb, _, _⟩ := valid_goodLine (hv e (by rw [hl]; simp))
      right
      refine ⟨(l.map LogEntry.render).flatten ++ body, ?_⟩
      unfold LogEntry.text
      rw [hl, List.map_append, List.flatten_append]
      simp [hb]
  · rw [(server_log_records es hv).1]
    exact fun r hr => (records_valid hv r hr).1
  · intro line hline hp
    apply skipSpaces_of_head
    intro c hc
    rw [show fileLines (LogEntry.text es) = es.map (fun e => cstr e.render) from
      fileLines_entries es hv] at hline
    obtain ⟨e, he, rfl⟩ := List.mem_map.mp hline
    have hve := hv e he
    cases e with
    | comment l => exact absurd (parsedRecord_comment hve) hp
    | record n op a b =>
      obtain ⟨_, _, hop, _, _⟩ := hve
      have h1 : cstr (LogEntry.record n op a b).render = logRecord (generateBankId n) op a b :=
        cstr_of_no_nul _ (record_no_nul n op a b hop)
      rw [h1, record_head] at hc
      simp at hc
      subst hc
      decide

/-! ## Replay of arbitrary logs whose ids fit the id buffer -/

theorem parsedRecord_firstWord {line tok : List Char} {b : Int}
    (h : parsedRecord line = some (tok, b)) :
    ¬ (line.head? = some '#' ∨ line.length ≤ 1) ∧ firstWord line = tok := by
  unfold parsedRecord at h
  split at h
  · cases h
  · rename_i hskip
    refine ⟨hskip, ?_⟩
    unfold sscanfRecord at h
    cases h1 : scanStr line with
    | none => simp [h1] at h
    | some p1 =>
      obtain ⟨tok1, r1⟩ := p1
      simp only [h1] at h
      have htok : tok1 = tok := by
        cases h2 : scanChar r1 with
        | none => simp [h2] at h
        | some p2 =>
          obtain ⟨c1, r2⟩ := p2
          simp only [h2] at h
          cases h3 : scanInt r2 with
          | none => simp [h3] at h
          | some p3 =>
            obtain ⟨a1, r3⟩ := p3
            simp only [h3] at h
            cases h4 : scanInt r3 with
            | none => simp [h4] at h
            | some p4 =>
              obtain ⟨b1, r4⟩ := p4
              simp only [h4, Option.some.injEq, Prod.mk.injEq] at h
              exact h.1
      subst htok
      unfold scanStr at h1
      unfold firstWord
      cases hs : skipSpaces line with
      | nil => simp [hs] at h1
      | cons c cs =>
        simp only [hs, Option.some.injEq] at h1
        rw [h1]

theorem idsFit_records {text : List Char} (h : IdsFit text) :
    ∀ r ∈ logRecords text, r.1.length ≤ 19 := by
  intro r hr
  unfold logRecords at hr
  obtain ⟨line, hl, hp⟩ := List.mem_filterMap.mp hr
  obtain ⟨hskip, hw⟩ := parsedRecord_firstWord (show parsedRecord line = some (r.1, r.2) from hp)
  rcases h line hl with h1 | h1 | h1
  · exact absurd (Or.inl h1) hskip
  · exact absurd (Or.inr h1) hskip
  · rw [← hw]; exact h1

/-- The ids of a log in the format of the server fit the id buffer. -/
theorem server_log_fit (es : List LogEntry) (hv : ∀ e ∈ es, e.Valid) :
    IdsFit (LogEntry.text es) := by
  intro line hline
  rw [show fileLines (LogEntry.text es) = es.map (fun e => cstr e.render) from
    fileLines_entries es hv] at hline
  obtain ⟨e, he, rfl⟩ := List.mem_map.mp hline
  have hve := hv e he
  cases e with
  | comment l =>
    rcases cstr_comment hve with h | h
    · right; left
      show (cstr l).length ≤ 1
      rw [h]; simp
    · exact Or.inl h
  | record n op a b =>
    obtain ⟨_, _, hop, _, _⟩ := hve
    right; right
    have h1 : cstr (LogEntry.record n op a b).render = logRecord (generateBankId n) op a b :=
      cstr_of_no_nul _ (record_no_nul n op a b hop)
    rw [h1, logRecord_eq]
    unfold firstWord
    have hsk : skipSpaces (generateBankId n ++ ' ' :: op :: ' ' ::
        (fmtInt a ++ ' ' :: (fmtInt b ++ ['\n'])))
        = generateBankId n ++ ' ' :: op :: ' ' :: (fmtInt a ++ ' ' :: (fmtInt b ++ ['\n'])) := by
      apply skipSpaces_of_head
      obtain ⟨rest, hr⟩ := generateBankId_cons n
      rw [hr]
      intro c hc
      simp at hc
      subst hc
      decide
    rw [hsk, scanToken_append _ _ (fun x hx => (generateBankId_plain n x hx).1)]
    exact generateBankId_length_le n

/-- C15, amended.  Let a whole line (one that ends with its only newline and
fits the buffer of `fgets`) stand between two parts of a log, the first of
which is empty or ends with a newline, and let the ids of the whole log fit
the id buffer.  If the line is a `#` line, a blank line, or a line from which
`sscanf` does not read four fields, then `restoreDatabaseFromLog` gives the
same result with and without it.  If the line is a `#` line, has at most 10
characters, or does not begin with `BankID_` and a number, then `readLogFile`
gives the same result with and without it.  And every log is read to its end:
more fuel for the loop of `fgets` than the length of the text does not change
the lines read. -/
theorem ignored_lines (pre line post : List Char) (db : BankDatabase)
    (hpre : Terminated pre) (hline : GoodLine line)
    (_hfit : IdsFit (pre ++ line ++ post)) :
    (IgnoredByRestore line →
      restoreDatabaseFromLog (some (pre ++ line ++ post)) db
        = restoreDatabaseFromLog (some (pre ++ post)) db) ∧
    (IgnoredByReadLog line →
      readLogFile (some (pre ++ line ++ post)) = readLogFile (some (pre ++ post))) ∧
    (∀ (text : List Char) (fuel : Nat), text.length ≤ fuel →
      readLinesAux fuel text = fileLines text) := by
  have hsplit := fileLines_insert pre line post hpre hline
  have hsplit0 : fileLines (pre ++ post) = fileLines pre ++ fileLines post :=
    fileLines_append pre post hpre
  refine ⟨?_, ?_, ?_⟩
  · intro h
    simp only [restoreDatabaseFromLog, hsplit, hsplit0, List.foldl_append, List.foldl_cons,
      restoreLine_ignored _ h]
  · intro h
    simp only [readLogFile, hsplit, hsplit0, List.foldl_append, List.foldl_cons,
      readLogLine_ignored _ h]
  · intro text fuel hf
    exact readLinesAux_fuel fuel text text.length hf (le_refl _)

theorem ignored_lines_witness :
    restoreDatabaseFromLog
        (some ("BankID_01 D 5 5\n".toList ++ "# comment\n".toList ++ "BankID_02 D 7 7\n".toList))
        { accounts := [] }
      = restoreDatabaseFromLog
        (some ("BankID_01 D 5 5\n".toList ++ "BankID_02 D 7 7\n".toList)) { accounts := [] } :=
  (ignored_lines "BankID_01 D 5 5\n".toList "# comment\n".toList "BankID_02 D 7 7\n".toList
    { accounts := [] } (Or.inr ⟨"BankID_01 D 5 5".toList, by decide⟩)
    ⟨"# comment".toList, by decide, by decide, by decide⟩ (by decide)).1 (Or.inl (by decide))

/-! ## Boot after shutdown -/

/-- C14, amended.  Let L be a log that is empty or ends with a newline, whose
ids fit the id buffer and in which no record line starts with white space, and
let the bank name and the time strings be single-line texts.  Replaying L followed by the snapshot that `cleanupServer`
writes for the database replayed from L gives the same database (same accounts
in the same order, same balances, same active flags) and the same
`lastClientId`; and so does the sequence boot, shutdown, boot of the server
itself, in which boot appends its header line to the log. -/
theorem boot_shutdown_boot (L name buildTime timeStr timeStr2 timeStr3 : List Char)
    (hterm : Terminated L) (hfit : IdsFit L)
    (hcol : ∀ line ∈ fileLines L, parsedRecord line ≠ none → skipSpaces line = line)
    (h1 : '\n' ∉ name) (h2 : '\n' ∉ buildTime) (h3 : '\n' ∉ timeStr2) :
    (restoreDatabaseFromLog
      (some (cleanupServer name timeStr2
        { bankDb := (restoreDatabaseFromLog (some L) { accounts := [] }).2,
          lastClientId := (readLogFile (some L)).2,
          logFile := L })) { accounts := [] }).2
      = (restoreDatabaseFromLog (some L) { accounts := [] }).2 ∧
    (readLogFile
      (some (cleanupServer name timeStr2
        { bankDb := (restoreDatabaseFromLog (some L) { accounts := [] }).2,
          lastClientId := (readLogFile (some L)).2,
          logFile := L }))).2
      = (readLogFile (some L)).2 ∧
    (initializeServer name buildTime timeStr3
      (some (cleanupServer name timeStr2
        (initializeServer name buildTime timeStr (some L))))).bankDb
      = (initializeServer name buildTime timeStr (some L)).bankDb ∧
    (initializeServer name buildTime timeStr3
      (some (cleanupServer name timeStr2
        (initializeServer name buildTime timeStr (some L))))).lastClientId
      = (initializeServer name buildTime timeStr (some L)).lastClientId := by
  have hids : ∀ r ∈ logRecords L, r.1.length ≤ 19 := idsFit_records hfit
  have hrestore : ∀ text : List Char, (∀ r ∈ logRecords text, r.1.length ≤ 19) →
      (restoreDatabaseFromLog (some text) { accounts := [] }).2.accounts
        = replayedAccounts (logRecords text) := by
    intro text ht
    simp only [restoreDatabaseFromLog]
    rw [restore_fold_records]
    exact restore_fold_spec (logRecords text) ht 0
  have hdbext : ∀ d1 d2 : BankDatabase, d1.accounts = d2.accounts → d1 = d2 := by
    intro d1 d2 h
    cases d1; cases d2
    simp only at h
    rw [h]
  -- the claim as it reads: the log followed by the snapshot
  have hA := cleanup_replay_text L
    { bankDb := (restoreDatabaseFromLog (some L) { accounts := [] }).2,
      lastClientId := (readLogFile (some L)).2,
      logFile := L } hterm hids rfl (hrestore L hids) name timeStr2 h1 h3 { accounts := [] }
  -- the server: boot appends a header line before the snapshot is written
  have hhdr : CommentLine (logHeaderLine (name.take 49) (buildTime.take 8)) :=
    logHeaderLine_comment (not_mem_take _ h1) (not_mem_take _ h2)
      (by simp [List.length_take]) (by simp [List.length_take])
  have hlinesT : fileLines (L ++ logHeaderLine (name.take 49) (buildTime.take 8))
      = fileLines L ++ [cstr (logHeaderLine (name.take 49) (buildTime.take 8))] := by
    rw [fileLines_append _ _ hterm, fileLines_goodLine (commentLine_good hhdr)]
  have hrecT : logRecords (L ++ logHeaderLine (name.take 49) (buildTime.take 8))
      = logRecords L := by
    unfold logRecords
    rw [hlinesT, List.filterMap_append]
    simp [parsedRecord_comment hhdr]
  have hnumT : readLogFile (some (L ++ logHeaderLine (name.take 49) (buildTime.take 8)))
      = readLogFile (some L) := by
    simp only [readLogFile, hlinesT, List.foldl_append, List.foldl_cons, List.foldl_nil,
      readLogLine_comment _ hhdr]
  have htermT : Terminated (L ++ logHeaderLine (name.take 49) (buildTime.take 8)) :=
    terminated_append hterm (goodLine_terminated (commentLine_good hhdr))
  have hidsT : ∀ r ∈ logRecords (L ++ logHeaderLine (name.take 49) (buildTime.take 8)),
      r.1.length ≤ 19 := by
    rw [hrecT]; exact hids
  have hcolT : ∀ line ∈ fileLines (L ++ logHeaderLine (name.take 49) (buildTime.take 8)),
      parsedRecord line ≠ none → skipSpaces line = line := by
    intro line hl hp
    rw [hlinesT] at hl
    rcases List.mem_append.mp hl with h | h
    · exact hcol line h hp
    · simp only [List.mem_singleton] at h
      subst h
      exact absurd (parsedRecord_comment hhdr) hp
  have hB := cleanup_replay_text _
    (initializeServer name buildTime timeStr (some L)) htermT hidsT rfl
    (by rw [hrecT]; exact hrestore L hids) name timeStr2 h1 h3 { accounts := [] }
  refine ⟨?_, ?_, ?_, ?_⟩
  · exact hdbext _ _ hA.1
  · rw [hA.2 hcol]
  · exact hdbext _ _ hB.1
  · show (readLogFile _).2 = (readLogFile _).2
    rw [hB.2 hcolT, hnumT]

theorem boot_shutdown_boot_witness :
    (initializeServer "AdaBank".toList "12:00:00".toList "12:10 May 01 2025".toList
      (some (cleanupServer "AdaBank".toList "12:05 May 01 2025".toList
        (initializeServer "AdaBank".toList "12:00:00".toList "12:00 May 01 2025".toList
          (some "BankID_01 D 5 5\nBankID_02 D 7 7\nBankID_01 W 5 0\n".toList))))).bankDb
      = (initializeServer "AdaBank".toList "12:00:00".toList "12:00 May 01 2025".toList
          (some "BankID_01 D 5 5\nBankID_02 D 7 7\nBankID_01 W 5 0\n".toList)).bankDb :=
  (boot_shutdown_boot "BankID_01 D 5 5\nBankID_02 D 7 7\nBankID_01 W 5 0\n".toList
    "AdaBank".toList "12:00:00".toList "12:00 May 01 2025".toList
    "12:05 May 01 2025".toList "12:10 May 01 2025".toList
    (Or.inr ⟨"BankID_01 D 5 5\nBankID_02 D 7 7\nBankID_01 W 5 0".toList, by decide⟩)
    (by decide) (by decide) (by decide) (by decide) (by decide)).2.2.1

/-- C27 fails in the code: after `N deposit 2147483647` the request
`BankID_01 deposit 1` is answered with the non-zero status
`ERR_INVALID_OPERATION`, yet the balance of `BankID_01` has changed from
2147483647 to -2147483648 and a record has been appended to the log. -/
theorem failed_deposit_is_committed :
    (processDatabaseRequest (depositReq "BankID_01".toList 1) zeroResponse
      (serveAll initialState [openReq 2147483647])).1.status = ERR_INVALID_OPERATION ∧
    (serveAll initialState [openReq 2147483647]).bankDb.accounts
      = [{ bankId := "BankID_01".toList, balance := 2147483647, active := true }] ∧
    (processDatabaseRequest (depositReq "BankID_01".toList 1) zeroResponse
      (serveAll initialState [openReq 2147483647])).2.bankDb.accounts
      = [{ bankId := "BankID_01".toList, balance := -2147483648, active := true }] ∧
    (serveAll initialState [openReq 2147483647]).logFile
      = "BankID_01 D 2147483647 2147483647\n".toList ∧
    (processDatabaseRequest (depositReq "BankID_01".toList 1) zeroResponse
      (serveAll initialState [openReq 2147483647])).2.logFile
      = ("BankID_01 D 2147483647 2147483647\n" ++ "BankID_01 D 1 -2147483648\n").toList := by
  decide

/-- Apart from a deposit or withdrawal whose new balance is negative, a
request answered with a non-zero status leaves the globals as they were: with
a positive amount and every active balance between 0 and `INT_MAX - amount`,
a non-zero status means that the accounts, `lastClientId` and the log are
unchanged. -/
theorem error_leaves_state_without_overflow (req : TellerRequest) (resp : ServerResponse)
    (s : ServerState) (hpos : 0 < req.amount)
    (hbal : ∀ a ∈ s.bankDb.accounts, a.active = true →
      0 ≤ a.balance ∧ a.balance + req.amount ≤ INT_MAX)
    (hst : (processDatabaseRequest req resp s).1.status ≠ 0) :
    (processDatabaseRequest req resp s).2 = s := by
  rcases processDatabaseRequest_cases req resp s _ rfl with h | h | h | h
  · exact h.1
  · exact absurd h.2.2.1 hst
  · obtain ⟨k, acc, _, _, _, hk, hact, _, _, h2⟩ := h
    have hm : acc ∈ s.bankDb.accounts := List.mem_iff_getElem?.mpr ⟨k, hk⟩
    have hb := hbal acc hm hact
    rcases h2 with h2 | h2
    · exact absurd h2.2.1 hst
    · exfalso
      have : wrapInt (acc.balance + req.amount) = acc.balance + req.amount :=
        wrapInt_of_isInt (by unfold IsInt INT_MIN INT_MAX at *; omega)
      omega
  · obtain ⟨k, acc, _, _, _, hk, hact, _, hle, _, h2⟩ := h
    have hm : acc ∈ s.bankDb.accounts := List.mem_iff_getElem?.mpr ⟨k, hk⟩
    have hb := hbal acc hm hact
    rcases h2 with h2 | h2
    · exact absurd h2.2.1 hst
    · exfalso
      have : wrapInt (acc.balance - req.amount) = acc.balance - req.amount :=
        wrapInt_of_isInt (by unfold IsInt INT_MIN INT_MAX at *; omega)
      omega

/-- C28 fails in the code: after `N deposit 2147483647` the request
`BankID_01 deposit 1` changes the balance of `BankID_01` from 2147483647 to
-2147483648, but the response (status `ERR_INVALID_OPERATION`) returns no id:
its `bankId` is still the empty string of the zeroed buffer. -/
theorem changed_account_not_returned :
    (serveAll initialState [openReq 2147483647]).bankDb.accounts
      = [{ bankId := "BankID_01".toList, balance := 2147483647, active := true }] ∧
    (processDatabaseRequest (depositReq "BankID_01".toList 1) zeroResponse
      (serveAll initialState [openReq 2147483647])).2.bankDb.accounts
      = [{ bankId := "BankID_01".toList, balance := -2147483648, active := true }] ∧
    (processDatabaseRequest (depositReq "BankID_01".toList 1) zeroResponse
      (serveAll initialState [openReq 2147483647])).1.bankId = [] ∧
    (processDatabaseRequest (depositReq "BankID_01".toList 1) zeroResponse
      (serveAll initialState [openReq 2147483647])).1.status = ERR_INVALID_OPERATION := by
  decide

/-- Frame of `processDatabaseRequest` in every state whose `lastClientId` can
be incremented: the ids of the accounts keep their places, a successful open
appends one account with the returned id and adds 1 to `numAccounts` and
`lastClientId`, every other request leaves both as they were, at most one
existing account changes, that account carries the id named in the request,
and when the status is 0 that id is the one returned in the response. -/
theorem request_frame (req : TellerRequest) (resp : ServerResponse) (s : ServerState)
    (hlast : IsInt (s.lastClientId + 1)) :
    ((processDatabaseRequest req resp s).2.bankDb.accounts.map Account.bankId
        = s.bankDb.accounts.map Account.bankId ++
          (if isOpen req = true ∧ (processDatabaseRequest req resp s).1.status = 0
            then [(processDatabaseRequest req resp s).1.bankId] else [])) ∧
    (if isOpen req = true ∧ (processDatabaseRequest req resp s).1.status = 0 then
        (processDatabaseRequest req resp s).2.bankDb.numAccounts = s.bankDb.numAccounts + 1 ∧
        (processDatabaseRequest req resp s).2.lastClientId = s.lastClientId + 1
      else
        (processDatabaseRequest req resp s).2.bankDb.numAccounts = s.bankDb.numAccounts ∧
        (processDatabaseRequest req resp s).2.lastClientId = s.lastClientId) ∧
    (∀ k a b, s.bankDb.accounts[k]? = some a →
        (processDatabaseRequest req resp s).2.bankDb.accounts[k]? = some b → b ≠ a →
        findAccount s req.bankId = some k ∧ b.bankId = req.bankId ∧
        ((processDatabaseRequest req resp s).1.status = 0 →
          (processDatabaseRequest req resp s).1.bankId = b.bankId)) := by
  rcases processDatabaseRequest_cases req resp s _ rfl with h | h | h | h
  · obtain ⟨h1, h2, _, _⟩ := h
    have hno : ¬ (isOpen req = true ∧ (processDatabaseRequest req resp s).1.status = 0) :=
      fun hc => h2 hc.2
    rw [if_neg hno, if_neg hno, h1]
    refine ⟨by simp, ⟨rfl, rfl⟩, ?_⟩
    intro k a b ha hb hne
    rw [ha] at hb
    exact absurd (Option.some.inj hb).symm hne
  · obtain ⟨ho, hlen, hst, hid, _, h2⟩ := h
    have hyes : isOpen req = true ∧ (processDatabaseRequest req resp s).1.status = 0 :=
      ⟨ho, hst⟩
    rw [if_pos hyes, if_pos hyes, h2, hid]
    refine ⟨by simp [wrapInt_of_isInt hlast], ?_, ?_⟩
    · simp [BankDatabase.numAccounts, wrapInt_of_isInt hlast]
    · intro k a b ha hb hne
      rw [List.getElem?_append_left (getElem?_lt_length ha), ha] at hb
      exact absurd (Option.some.inj hb).symm hne
  · obtain ⟨k, acc, ho, _, hf, hk, _, hid, h2, h3⟩ := h
    have hno : ¬ (isOpen req = true ∧ (processDatabaseRequest req resp s).1.status = 0) := by
      simp [ho]
    rw [if_neg hno, if_neg hno, h2]
    refine ⟨by simpa using map_bankId_set _ hk rfl, ?_, ?_⟩
    · simp [BankDatabase.numAccounts]
    · intro j a b ha hb hne
      by_cases hjk : k = j
      · subst hjk
        rw [List.getElem?_set_self (getElem?_lt_length hk)] at hb
        have hb2 := (Option.some.inj hb).symm
        refine ⟨hf, by rw [hb2]; exact hid, ?_⟩
        intro hst
        rcases h3 with h3 | h3
        · rw [h3.2.2.1, hb2]; exact hid.symm
        · rw [h3.2] at hst; exact absurd hst (by decide)
      · rw [List.getElem?_set_ne hjk, ha] at hb
        exact absurd (Option.some.inj hb).symm hne
  · obtain ⟨k, acc, ho, _, hf, hk, _, hid, _, h2, h3⟩ := h
    have hno : ¬ (isOpen req = true ∧ (processDatabaseRequest req resp s).1.status = 0) := by
      simp [ho]
    rw [if_neg hno, if_neg hno, h2]
    refine ⟨by simpa using map_bankId_set _ hk rfl, ?_, ?_⟩
    · simp [BankDatabase.numAccounts]
    · intro j a b ha hb hne
      by_cases hjk : k = j
      · subst hjk
        rw [List.getElem?_set_self (getElem?_lt_length hk)] at hb
        have hb2 := (Option.some.inj hb).symm
        refine ⟨hf, by rw [hb2]; exact hid, ?_⟩
        intro hst
        rcases h3 with h3 | h3
        · rw [h3.2.2.1, hb2]; exact hid.symm
        · exact absurd hst h3.2
      · rw [List.getElem?_set_ne hjk, ha] at hb
        exact absurd (Option.some.inj hb).symm hne

/-! ## Requests that find their account -/

/-- A deposit to an account that `findAccount` finds, with a new balance that
is not negative: the response and the new globals. -/
theorem deposit_found (req : TellerRequest) (resp : ServerResponse) (s : ServerState)
    {k : Nat} {acc : Account}
    (hd : req.operation = OP_DEPOSIT) (hn : req.isNewClient = 0)
    (hf : findAccountIn s.bankDb.accounts req.bankId = some k)
    (hacc : s.bankDb.accounts[k]? = some acc)
    (hnb : 0 ≤ wrapInt (acc.balance + req.amount)) :
    (processDatabaseRequest req resp s).1.status = 0 ∧
    (processDatabaseRequest req resp s).1.bankId = req.bankId ∧
    (processDatabaseRequest req resp s).1.balance = wrapInt (acc.balance + req.amount) ∧
    (processDatabaseRequest req resp s).2 =
      { bankDb := { accounts := s.bankDb.accounts.set k
                      { acc with balance := wrapInt (acc.balance + req.amount) } },
        lastClientId := s.lastClientId,
        logFile := updateLogFile s.logFile req.bankId 'D' req.amount
          (wrapInt (acc.balance + req.amount)) } := by
  have hbal := balanceAt_eq hacc
  simp only [processDatabaseRequest, hd, hn, if_true, ne_eq, not_true_eq_false,
    if_false, findAccount, hf, depositToAccount, hbal, ge_iff_le, hnb, setMessage]
  rw [modifyAt_eq_set _ hacc]
  simp

/-- A withdrawal from an account that `findAccount` finds, with an amount that
the balance covers and a new balance that is not negative: the response and
the new globals; the account is closed when the new balance is 0. -/
theorem withdraw_found (req : TellerRequest) (resp : ServerResponse) (s : ServerState)
    {k : Nat} {acc : Account}
    (hw : req.operation = OP_WITHDRAW)
    (hf : findAccountIn s.bankDb.accounts req.bankId = some k)
    (hacc : s.bankDb.accounts[k]? = some acc)
    (hle : req.amount ≤ acc.balance)
    (hnb : 0 ≤ wrapInt (acc.balance - req.amount)) :
    (processDatabaseRequest req resp s).1.status = 0 ∧
    (processDatabaseRequest req resp s).1.bankId = req.bankId ∧
    (processDatabaseRequest req resp s).1.balance = wrapInt (acc.balance - req.amount) ∧
    (processDatabaseRequest req resp s).2 =
      { bankDb := { accounts := s.bankDb.accounts.set k
                      { acc with balance := wrapInt (acc.balance - req.amount),
                                 active := decide (wrapInt (acc.balance - req.amount) ≠ 0) } },
        lastClientId := s.lastClientId,
        logFile := updateLogFile s.logFile req.bankId 'W' req.amount
          (wrapInt (acc.balance - req.amount)) } := by
  rcases processDatabaseRequest_cases req resp s _ rfl with h | h | h | h
  · exfalso
    obtain ⟨h1, h2, _, _⟩ := h
    have hne : OP_WITHDRAW ≠ OP_DEPOSIT := by decide
    have hbal := balanceAt_eq hacc
    have hlt : ¬ acc.balance < req.amount := by omega
    have hst : (withdrawFromAccount s req.bankId req.amount) =
        (wrapInt (acc.balance - req.amount),
         { bankDb := { accounts := s.bankDb.accounts.set k
                                  { acc with balance := wrapInt (acc.balance - req.amount) } },
           lastClientId := s.lastClientId,
           logFile := updateLogFile s.logFile req.bankId 'W' req.amount
             (wrapInt (acc.balance - req.amount)) }) := by
      simp only [withdrawFromAccount, findAccount, hf, hbal, hlt, if_false]
      rw [modifyAt_eq_set _ hacc]
    apply h2
    simp only [processDatabaseRequest, hw, hne, if_true, if_false, findAccount, hf,
      hst, ge_iff_le, hnb, setMessage]
    split <;> rfl
  · obtain ⟨ho, _⟩ := h
    simp only [isOpen, hw, decide_eq_true_eq] at ho
    exact absurd ho.1 (by decide)
  · obtain ⟨_, _, _, hd, _⟩ := h
    rw [hw] at hd
    exact absurd hd (by decide)
  · obtain ⟨k2, acc2, _, _, hf2, hk2, _, _, _, h2, h3⟩ := h
    rw [hf] at hf2
    cases hf2
    rw [hacc] at hk2
    cases hk2
    rcases h3 with h3 | h3
    · exact ⟨h3.2.1, h3.2.2.1, h3.2.2.2, h2⟩
    · omega


/-- With distinct ids, `findAccount` finds an active account at its own index. -/
theorem findAccountIn_of_nodup {l : List Account} {k : Nat} {acc : Account}
    (hacc : l[k]? = some acc) (hact : acc.active = true)
    (hnd : (l.map Account.bankId).Nodup) :
    findAccountIn l acc.bankId = some k := by
  induction l generalizing k with
  | nil => simp at hacc
  | cons a rest ih =>
    cases k with
    | zero =>
      simp at hacc
      subst hacc
      simp [findAccountIn, hact]
    | succ j =>
      simp at hacc
      simp only [List.map_cons, List.nodup_cons] at hnd
      have hne : a.bankId ≠ acc.bankId := by
        intro e
        apply hnd.1
        rw [e]
        exact List.mem_map.mpr ⟨acc, List.mem_iff_getElem?.mpr ⟨j, hacc⟩, rfl⟩
      simp [findAccountIn, hne, ih hacc hnd.2]

/-- An active account appended to accounts that do not carry its id is found
at the index `numAccounts`. -/
theorem findAccountIn_append_new (l : List Account) (a : Account) (hact : a.active = true)
    (hfresh : a.bankId ∉ l.map Account.bankId) :
    findAccountIn (l ++ [a]) a.bankId = some l.length := by
  induction l with
  | nil => simp [findAccountIn, hact]
  | cons b rest ih =>
    simp only [List.map_cons, List.mem_cons, not_or] at hfresh
    have hne : b.bankId ≠ a.bankId := fun e => hfresh.1 e.symm
    simp [findAccountIn, hne, ih hfresh.2]

/-- Setting an account to a value with the same id and flag does not change
what `findAccount` finds. -/
theorem findAccountIn_set {l : List Account} {k : Nat} {acc : Account} (v : Account)
    (hacc : l[k]? = some acc) (hid : v.bankId = acc.bankId) (hact : v.active = acc.active)
    (bankId : List Char) :
    findAccountIn (l.set k v) bankId = findAccountIn l bankId := by
  induction l generalizing k with
  | nil => simp
  | cons b rest ih =>
    cases k with
    | zero =>
      simp at hacc
      subst hacc
      simp [findAccountIn, hid, hact]
    | succ j =>
      simp at hacc
      simp [findAccountIn, ih hacc]

/-- C21 fails in the code: after `N deposit 2147483647`, `BankID_01 deposit 1`
and `BankID_01 deposit 2147483647` the account `BankID_01` is active with
balance -1; a deposit of 5 succeeds (balance 4), and the withdrawal of 5 that
should undo it is refused with `ERR_INSUFFICIENT_FUNDS`, so the account is left
with balance 4 instead of -1. -/
theorem undo_refused_after_overflow :
    (serveAll initialState [openReq 2147483647, depositReq "BankID_01".toList 1,
      depositReq "BankID_01".toList 2147483647]).bankDb.accounts
      = [{ bankId := "BankID_01".toList, balance := -1, active := true }] ∧
    (processDatabaseRequest (depositReq "BankID_01".toList 5) zeroResponse
      (serveAll initialState [openReq 2147483647, depositReq "BankID_01".toList 1,
        depositReq "BankID_01".toList 2147483647])).1.status = 0 ∧
    (processDatabaseRequest (withdrawReq "BankID_01".toList 5) zeroResponse
      (processDatabaseRequest (depositReq "BankID_01".toList 5) zeroResponse
        (serveAll initialState [openReq 2147483647, depositReq "BankID_01".toList 1,
          depositReq "BankID_01".toList 2147483647])).2).1.status = ERR_INSUFFICIENT_FUNDS ∧
    (processDatabaseRequest (withdrawReq "BankID_01".toList 5) zeroResponse
      (processDatabaseRequest (depositReq "BankID_01".toList 5) zeroResponse
        (serveAll initialState [openReq 2147483647, depositReq "BankID_01".toList 1,
          depositReq "BankID_01".toList 2147483647])).2).2.bankDb.accounts
      = [{ bankId := "BankID_01".toList, balance := 4, active := true }] := by
  decide

/-- The undo round trip on the accounts that satisfy I1: in every reachable
state and for every amount `a > 0`, (i) a deposit of `a` to an active account
with a positive balance `b`, `b + a ≤ INT_MAX`, succeeds, the withdrawal of `a`
from the same id succeeds, and the database is then exactly as before; (ii) if
fewer than 100 accounts exist, an open with `a` followed by a withdrawal of `a`
from the id returned leaves the database as before with one more account,
which carries that id, has balance 0 and is closed. -/
theorem undo_round_trip (s : ServerState) (hs : Reachable s) (a : Int) (ha : 0 < a)
    (resp1 resp2 : ServerResponse) :
    (∀ (k : Nat) (acc : Account), s.bankDb.accounts[k]? = some acc → acc.active = true → 0 < acc.balance →
      acc.balance + a ≤ INT_MAX →
      (processDatabaseRequest (depositReq acc.bankId a) resp1 s).1.status = 0 ∧
      (processDatabaseRequest (withdrawReq acc.bankId a) resp2
        (processDatabaseRequest (depositReq acc.bankId a) resp1 s).2).1.status = 0 ∧
      (processDatabaseRequest (withdrawReq acc.bankId a) resp2
        (processDatabaseRequest (depositReq acc.bankId a) resp1 s).2).2.bankDb = s.bankDb) ∧
    (s.bankDb.numAccounts < 100 →
      (processDatabaseRequest (openReq a) resp1 s).1.status = 0 ∧
      (processDatabaseRequest
        (withdrawReq (processDatabaseRequest (openReq a) resp1 s).1.bankId a) resp2
        (processDatabaseRequest (openReq a) resp1 s).2).1.status = 0 ∧
      (processDatabaseRequest
        (withdrawReq (processDatabaseRequest (openReq a) resp1 s).1.bankId a) resp2
        (processDatabaseRequest (openReq a) resp1 s).2).2.bankDb.accounts
        = s.bankDb.accounts ++
          [{ bankId := (processDatabaseRequest (openReq a) resp1 s).1.bankId,
             balance := 0, active := false }]) := by
  obtain ⟨es, hinv⟩ := hs.inv
  constructor
  · intro k acc hacc hact hb hsum
    have hf := findAccountIn_of_nodup hacc hact hinv.db_nodup
    have hw1 : wrapInt (acc.balance + a) = acc.balance + a :=
      wrapInt_of_isInt (by unfold IsInt INT_MIN; unfold INT_MAX at *; omega)
    have hd := deposit_found (depositReq acc.bankId a) resp1 s rfl rfl hf hacc
      (by show 0 ≤ wrapInt (acc.balance + a); omega)
    obtain ⟨hd1, _, _, hd4⟩ := hd
    have hd4b : (processDatabaseRequest (depositReq acc.bankId a) resp1 s).2 =
        { bankDb := { accounts := s.bankDb.accounts.set k
                        { acc with balance := acc.balance + a } },
          lastClientId := s.lastClientId,
          logFile := updateLogFile s.logFile acc.bankId 'D' a (acc.balance + a) } := by
      rw [hd4]
      show _ = _
      simp only [depositReq, hw1]
    rw [hd4b]
    have hk := getElem?_lt_length hacc
    have hacc2 : (s.bankDb.accounts.set k { acc with balance := acc.balance + a })[k]?
        = some { acc with balance := acc.balance + a } := by
      simp [hk]
    have hf2 : findAccountIn (s.bankDb.accounts.set k { acc with balance := acc.balance + a })
        acc.bankId = some k := by
      rw [findAccountIn_set { acc with balance := acc.balance + a } hacc rfl rfl]
      exact hf
    have hw2 : wrapInt (acc.balance + a - a) = acc.balance :=
      by
        have : acc.balance + a - a = acc.balance := by omega
        rw [this]
        exact wrapInt_of_isInt (by unfold IsInt INT_MIN; unfold INT_MAX at *; omega)
    have hwd := withdraw_found (withdrawReq acc.bankId a) resp2
      { bankDb := { accounts := s.bankDb.accounts.set k
                        { acc with balance := acc.balance + a } },
        lastClientId := s.lastClientId,
        logFile := updateLogFile s.logFile acc.bankId 'D' a (acc.balance + a) }
      rfl hf2 hacc2 (by show a ≤ acc.balance + a; omega)
      (by show 0 ≤ wrapInt (acc.balance + a - a); omega)
    obtain ⟨hw1, _, _, hw4⟩ := hwd
    refine ⟨hd1, hw1, ?_⟩
    rw [hw4]
    have hne : decide (wrapInt (acc.balance + a - a) ≠ 0) = true := by
      rw [hw2]; simp; omega
    have hv : ({ bankId := acc.bankId, balance := wrapInt (acc.balance + a - a),
                 active := decide (wrapInt (acc.balance + a - a) ≠ 0) } : Account) = acc := by
      rw [hne, hw2, ← hact]
    have hacc3 : List.set (s.bankDb.accounts.set k { acc with balance := acc.balance + a }) k
        { bankId := acc.bankId, balance := wrapInt (acc.balance + a - a),
          active := decide (wrapInt (acc.balance + a - a) ≠ 0) } = s.bankDb.accounts := by
      rw [hv, List.set_set, set_of_getElem? hacc]
    exact congrArg BankDatabase.mk hacc3
  · intro hlen
    have hlen2 : s.bankDb.accounts.length < 100 := hlen
    have hopen : isOpen (openReq a) = true := by simp [isOpen, openReq]
    have hlast : wrapInt (s.lastClientId + 1) = s.lastClientId + 1 :=
      wrapInt_of_isInt hinv.isInt_succ
    rcases processDatabaseRequest_cases (openReq a) resp1 s _ rfl with h | h | h | h
    · have := h.2.2.1 hopen
      omega
    · obtain ⟨_, _, hst, hid, _, h2⟩ := h
      have hamt : (openReq a).amount = a := rfl
      rw [hlast] at hid h2
      rw [hamt] at h2
      rw [h2, hid]
      have hfresh := hinv.fresh_id
      have hf := findAccountIn_append_new s.bankDb.accounts
        { bankId := generateBankId (s.lastClientId + 1), balance := a, active := true }
        rfl hfresh
      have hacc : (s.bankDb.accounts ++
          [({ bankId := generateBankId (s.lastClientId + 1), balance := a,
              active := true } : Account)])[s.bankDb.accounts.length]?
          = some { bankId := generateBankId (s.lastClientId + 1), balance := a,
                   active := true } := by
        simp
      have hz : wrapInt (a - a) = 0 := by
        have : a - a = 0 := by omega
        rw [this]; rfl
      have hwd := withdraw_found (withdrawReq (generateBankId (s.lastClientId + 1)) a) resp2
        { bankDb := { accounts := s.bankDb.accounts ++
            [{ bankId := generateBankId (s.lastClientId + 1), balance := a, active := true }] },
          lastClientId := s.lastClientId + 1,
          logFile := updateLogFile s.logFile (generateBankId (s.lastClientId + 1)) 'D' a a }
        rfl hf hacc (le_refl _) (by show 0 ≤ wrapInt (a - a); omega)
      obtain ⟨hw1, _, _, hw4⟩ := hwd
      refine ⟨hst, hw1, ?_⟩
      rw [hw4]
      show List.set _ _ _ = _
      simp only [withdrawReq, hz]
      simp
    · obtain ⟨_, _, ho, _⟩ := h
      rw [hopen] at ho
      cases ho
    · obtain ⟨_, _, ho, _⟩ := h
      rw [hopen] at ho
      cases ho

/-! ## Closed accounts -/

/-- A property of accounts that `f` preserves is kept at every index by
`modifyAt f`. -/
theorem modifyAt_preserves (P : Account → Prop) (f : Account → Account)
    (hP : ∀ a, P a → P (f a)) (l : List Account) (i k : Nat) (a : Account)
    (hk : l[k]? = some a) (ha : P a) :
    ∃ b, (modifyAt f l i)[k]? = some b ∧ P b := by
  induction l generalizing i k with
  | nil => simp at hk
  | cons x rest ih =>
    cases i with
    | zero =>
      cases k with
      | zero =>
        simp at hk
        subst hk
        exact ⟨f x, by simp [modifyAt], hP x ha⟩
      | succ j =>
        simp at hk
        exact ⟨a, by simp [modifyAt, hk], ha⟩
    | succ i2 =>
      cases k with
      | zero =>
        simp at hk
        subst hk
        exact ⟨x, by simp [modifyAt], ha⟩
      | succ j =>
        simp at hk
        obtain ⟨b, hb, hPb⟩ := ih i2 j hk
        exact ⟨b, by simp [modifyAt, hb], hPb⟩

/-- The tail of the loop body of `restoreDatabaseFromLog` never marks an
account active: an inactive account keeps its place, its id and its flag. -/
theorem restoreBalance_inactive (accounts : List Account) (r : Int) (index : Nat) (b : Int)
    (k : Nat) (a : Account) (hk : accounts[k]? = some a) (hin : a.active = false) :
    ∃ c, (restoreBalance accounts r index b).1[k]? = some c ∧
      (c.bankId = a.bankId ∧ c.active = false) := by
  have h1 := modifyAt_preserves (fun c => c.bankId = a.bankId ∧ c.active = false)
    (fun x => { x with balance := b }) (fun _ h => h) accounts index k a hk ⟨rfl, hin⟩
  obtain ⟨c1, hc1, hP1⟩ := h1
  have h2 := modifyAt_preserves (fun c => c.bankId = a.bankId ∧ c.active = false)
    (fun x => { x with active := false }) (fun _ h => ⟨h.1, rfl⟩)
    (modifyAt (fun x => { x with balance := b }) accounts index) index k c1 hc1 hP1
  unfold restoreBalance
  simp only
  split
  · exact h2
  · split <;> exact ⟨c1, hc1, hP1⟩

/-- One line of the log never marks an account active again. -/
theorem restoreLine_inactive (st : List Account × Int) (line : List Char)
    (k : Nat) (a : Account) (hk : st.1[k]? = some a) (hin : a.active = false) :
    ∃ c, (restoreLine st line).1[k]? = some c ∧ (c.bankId = a.bankId ∧ c.active = false) := by
  unfold restoreLine
  split
  · exact ⟨a, hk, rfl, hin⟩
  · split
    · exact ⟨a, hk, rfl, hin⟩
    · split
      · exact restoreBalance_inactive _ _ _ _ k a hk hin
      · split
        · exact ⟨a, hk, rfl, hin⟩
        · apply restoreBalance_inactive _ _ _ _ k a _ hin
          rw [List.getElem?_append_left (getElem?_lt_length hk)]
          exact hk

/-- No sequence of lines marks an inactive account active again. -/
theorem restore_fold_inactive (lines : List (List Char)) (st : List Account × Int)
    (k : Nat) (a : Account) (hk : st.1[k]? = some a) (hin : a.active = false) :
    ∃ c, (lines.foldl restoreLine st).1[k]? = some c ∧
      (c.bankId = a.bankId ∧ c.active = false) := by
  induction lines generalizing st a with
  | nil => exact ⟨a, hk, rfl, hin⟩
  | cons line rest ih =>
    obtain ⟨c, hc, hid, hact⟩ := restoreLine_inactive st line k a hk hin
    obtain ⟨d, hd, hid2, hact2⟩ := ih (restoreLine st line) c hc hact
    exact ⟨d, hd, hid2.trans hid, hact2⟩

/-- A request leaves every inactive account as it is. -/
theorem inactive_unchanged (req : TellerRequest) (resp : ServerResponse) (s : ServerState)
    (k : Nat) (acc : Account) (hacc : s.bankDb.accounts[k]? = some acc)
    (hin : acc.active = false) :
    (processDatabaseRequest req resp s).2.bankDb.accounts[k]? = some acc := by
  rcases processDatabaseRequest_cases req resp s _ rfl with h | h | h | h
  · rw [h.1]; exact hacc
  · obtain ⟨_, _, _, _, _, h2⟩ := h
    rw [h2]
    show (s.bankDb.accounts ++ _)[k]? = _
    rw [List.getElem?_append_left (getElem?_lt_length hacc)]
    exact hacc
  · obtain ⟨j, a, _, _, _, hj, hact, _, h2, _⟩ := h
    rw [h2]
    have hjk : j ≠ k := by
      intro e
      subst e
      rw [hacc] at hj
      cases hj
      rw [hin] at hact
      cases hact
    show (s.bankDb.accounts.set j _)[k]? = _
    rw [List.getElem?_set_ne hjk]
    exact hacc
  · obtain ⟨j, a, _, _, _, hj, hact, _, _, h2, _⟩ := h
    rw [h2]
    have hjk : j ≠ k := by
      intro e
      subst e
      rw [hacc] at hj
      cases hj
      rw [hin] at hact
      cases hact
    show (s.bankDb.accounts.set j _)[k]? = _
    rw [List.getElem?_set_ne hjk]
    exact hacc

theorem inactive_unchanged_all (reqs : List TellerRequest) (s : ServerState)
    (k : Nat) (acc : Account) (hacc : s.bankDb.accounts[k]? = some acc)
    (hin : acc.active = false) :
    (serveAll s reqs).bankDb.accounts[k]? = some acc := by
  induction reqs generalizing s with
  | nil => exact hacc
  | cons req rest ih =>
    exact ih _ (inactive_unchanged req zeroResponse s k acc hacc hin)

/-- A deposit to an existing account or a withdrawal whose id `findAccount`
does not find is answered `ERR_INVALID_ACCOUNT` and changes nothing. -/
theorem request_not_found (req : TellerRequest) (resp : ServerResponse) (s : ServerState)
    (ho : isOpen req = false)
    (hop : req.operation = OP_DEPOSIT ∨ req.operation = OP_WITHDRAW)
    (hf : findAccountIn s.bankDb.accounts req.bankId = none) :
    (processDatabaseRequest req resp s).1.status = ERR_INVALID_ACCOUNT ∧
    (processDatabaseRequest req resp s).2 = s := by
  have hne : OP_WITHDRAW ≠ OP_DEPOSIT := by decide
  rcases hop with hd | hw
  · have hn : req.isNewClient = 0 := by
      simp only [isOpen, hd, true_and, decide_eq_false_iff_not, ne_eq, not_not] at ho
      exact ho
    simp only [processDatabaseRequest, hd, hn, if_true, ne_eq, not_true_eq_false,
      if_false, findAccount, hf, and_self]
  · simp only [processDatabaseRequest, hw, hne, if_true, if_false, findAccount, hf, and_self]

/-- With distinct ids, the id of an inactive account is not found. -/
theorem findAccountIn_inactive {l : List Account} {k : Nat} {acc : Account}
    (hacc : l[k]? = some acc) (hin : acc.active = false)
    (hnd : (l.map Account.bankId).Nodup) :
    findAccountIn l acc.bankId = none := by
  cases hf : findAccountIn l acc.bankId with
  | none => rfl
  | some j =>
    exfalso
    obtain ⟨a, ha, hact, hid⟩ := findAccountIn_some hf
    have h1 := findById_of_nodup ha hnd
    have h2 := findById_of_nodup hacc hnd
    rw [hid, h2] at h1
    cases h1
    rw [hacc] at ha
    cases ha
    rw [hin] at hact
    cases hact

/-- C22: closed stays closed.  An account whose active flag is false keeps its
place, id, balance and flag through every sequence of requests served by
`processDatabaseRequest`; in every reachable state, after any such sequence, a
deposit to an existing account or a withdrawal that names its id is answered
`ERR_INVALID_ACCOUNT` and changes nothing; and during replay an account that
some line of the log has left inactive is still inactive, under the same id,
in the database that `restoreDatabaseFromLog` returns. -/
theorem closed_stays_closed (s : ServerState) (k : Nat) (acc : Account)
    (hacc : s.bankDb.accounts[k]? = some acc) (hin : acc.active = false)
    (reqs : List TellerRequest) :
    (serveAll s reqs).bankDb.accounts[k]? = some acc ∧
    (Reachable s → (∀ r ∈ reqs, IsInt r.amount) →
      ∀ (req : TellerRequest) (resp : ServerResponse), req.bankId = acc.bankId →
        isOpen req = false → (req.operation = OP_DEPOSIT ∨ req.operation = OP_WITHDRAW) →
        (processDatabaseRequest req resp (serveAll s reqs)).1.status = ERR_INVALID_ACCOUNT ∧
        (processDatabaseRequest req resp (serveAll s reqs)).2 = serveAll s reqs) ∧
    (∀ (text : List Char) (db : BankDatabase) (n j : Nat) (a : Account),
      (((fileLines text).take n).foldl restoreLine ([], 0)).1[j]? = some a →
      a.active = false →
      ∃ c, (restoreDatabaseFromLog (some text) db).2.accounts[j]? = some c ∧
        c.bankId = a.bankId ∧ c.active = false) := by
  have hA := inactive_unchanged_all reqs s k acc hacc hin
  refine ⟨hA, ?_, ?_⟩
  · intro hs hreqs req resp hid ho hop
    obtain ⟨es, hinv⟩ := (hs.serve_all reqs hreqs).inv
    have hf := findAccountIn_inactive hA hin hinv.db_nodup
    rw [← hid] at hf
    exact request_not_found req resp _ ho hop hf
  · intro text db n j a hj ha
    have h := restore_fold_inactive ((fileLines text).drop n) _ j a hj ha
    rw [← List.foldl_append, List.take_append_drop] at h
    exact h

/-- Witness of `closed_stays_closed`: `BankID_01`, opened with 300 and closed by
a withdrawal of 300, is unchanged by a later deposit of 5 and open of 7. -/
theorem closed_stays_closed_witness :
    (serveAll (serveAll initialState [openReq 300, withdrawReq "BankID_01".toList 300])
      [depositReq "BankID_01".toList 5, openReq 7]).bankDb.accounts[0]?
      = some { bankId := "BankID_01".toList, balance := 0, active := false } :=
  (closed_stays_closed
    (serveAll initialState [openReq 300, withdrawReq "BankID_01".toList 300]) 0
    { bankId := "BankID_01".toList, balance := 0, active := false }
    (by decide) rfl [depositReq "BankID_01".toList 5, openReq 7]).1

/-- C23: the teller always answers.  Whatever the outcomes of its system calls,
a teller that has opened the client FIFO issues exactly one `write` of a
`ServerResponse` to it before it exits; when the teller makes the response up
itself (new-client withdrawal, pipe not writable within the timeout, short
write to the dispatcher, reply timeout, short read of the reply) the response
has status `ERR_INVALID_OPERATION` (-2) and `clientIndex` equal to the
`operationIndex` of the request; otherwise it is the reply of the dispatcher. -/
theorem teller_always_answers (calls : TellerCalls) (reply : ServerResponse)
    (req : ClientRequest) (isDeposit : Bool) (hopen : calls.fifoOpened = true) :
    ∃ r, (tellerProcess calls reply req isDeposit).responses = [r] ∧
      (if (isDeposit = false ∧ req.isNewClient ≠ 0) ∨ calls.writeReady = false ∨
          calls.requestWritten = false ∨ calls.replyReady = false ∨ calls.replyRead = false
        then r.status = ERR_INVALID_OPERATION ∧ r.clientIndex = req.operationIndex
        else r = reply) := by
  unfold tellerProcess
  rw [if_neg (by simp [hopen])]
  by_cases h1 : isDeposit = false ∧ req.isNewClient ≠ 0
  · rw [if_pos h1]
    refine ⟨_, rfl, ?_⟩
    rw [if_pos (Or.inl h1)]
    exact ⟨rfl, rfl⟩
  · rw [if_neg h1]
    by_cases h2 : calls.writeReady = false
    · rw [if_pos h2]
      refine ⟨_, rfl, ?_⟩
      rw [if_pos (Or.inr (Or.inl h2))]
      exact ⟨rfl, rfl⟩
    · rw [if_neg h2]
      by_cases h3 : calls.requestWritten = false
      · rw [if_pos h3]
        refine ⟨_, rfl, ?_⟩
        rw [if_pos (Or.inr (Or.inr (Or.inl h3)))]
        exact ⟨rfl, rfl⟩
      · rw [if_neg h3]
        by_cases h4 : calls.replyReady = false
        · rw [if_pos h4]
          refine ⟨_, rfl, ?_⟩
          rw [if_pos (Or.inr (Or.inr (Or.inr (Or.inl h4))))]
          exact ⟨rfl, rfl⟩
        · rw [if_neg h4]
          by_cases h5 : calls.replyRead = false
          · rw [if_pos h5]
            refine ⟨_, rfl, ?_⟩
            rw [if_pos (Or.inr (Or.inr (Or.inr (Or.inr h5))))]
            exact ⟨rfl, rfl⟩
          · rw [if_neg h5]
            refine ⟨reply, rfl, ?_⟩
            rw [if_neg]
            rintro (h | h | h | h | h)
            · exact h1 h
            · exact h2 h
            · exact h3 h
            · exact h4 h
            · exact h5 h

/-- Witness of `teller_always_answers`: the reply of the dispatcher does not
arrive within the timeout; the teller still writes one response to the client
FIFO. -/
theorem teller_always_answers_witness :
    (tellerProcess { allCallsSucceed with replyReady := false } zeroResponse
      (sampleRecord 7 5 4) true).responses.length = 1 := by
  obtain ⟨r, hr, _⟩ := teller_always_answers { allCallsSucceed with replyReady := false }
    zeroResponse (sampleRecord 7 5 4) true rfl
  rw [hr]
  rfl

/-- A read that fails or is interrupted leaves the read loop, and the outer
loop resets the descriptor: whatever was buffered, the next record starts a new
batch that holds this record alone, and nothing is dispatched for the records
buffered before. -/
theorem ingress_failed_read_drops (st : IngressState) (req : ClientRequest)
    (hbs : 1 < req.batchSize) :
    (ingressStep st .failed).currentBatch = { pid := 0, total := 0, received := 0 } ∧
    (waitForClients st [.failed, .record req]).dispatched = st.dispatched ∧
    (waitForClients st [.failed, .record req]).currentBatch
      = { pid := req.pid, total := req.batchSize, received := 1 } ∧
    batchRecords (waitForClients st [.failed, .record req]) = [req] := by
  have hcb : (ingressStep st .failed).currentBatch = { pid := 0, total := 0, received := 0 } :=
    rfl
  have hge : ¬ ((1 : Int) ≥ req.batchSize) := by omega
  have hw : waitForClients st [.failed, .record req]
      = completeBatch (storeRequest (ingressStep st .failed) req) := rfl
  have hrange : List.range 1 = [0] := rfl
  rw [hw, storeRequest_first _ req hcb]
  refine ⟨hcb, ?_, ?_, ?_⟩
  · simp [completeBatch, hge, ingressStep]
  · simp [completeBatch, hge]
  · simp [completeBatch, hge, batchRecords, hrange]

/-- C24 fails in the code: client 7 sends a batch of two records and the read
between them fails (or is interrupted).  Without the failure the batch is
dispatched with both records; with it, the first record is forgotten, the
second starts a new batch of announced size 2 that holds one record, and
nothing is dispatched. -/
theorem interrupted_read_loses_batch :
    (waitForClients ingressInit
      [.record (sampleRecord 7 2 1), .record (sampleRecord 7 2 2)]).dispatched
      = [[sampleRecord 7 2 1, sampleRecord 7 2 2]] ∧
    batchRecords (waitForClients ingressInit [.record (sampleRecord 7 2 1)])
      = [sampleRecord 7 2 1] ∧
    batchRecords (waitForClients ingressInit [.record (sampleRecord 7 2 1), .failed]) = [] ∧
    (waitForClients ingressInit
      [.record (sampleRecord 7 2 1), .failed, .record (sampleRecord 7 2 2)]).dispatched = [] ∧
    (waitForClients ingressInit
      [.record (sampleRecord 7 2 1), .failed, .record (sampleRecord 7 2 2)]).currentBatch
      = { pid := 7, total := 2, received := 1 } ∧
    batchRecords (waitForClients ingressInit
      [.record (sampleRecord 7 2 1), .failed, .record (sampleRecord 7 2 2)])
      = [sampleRecord 7 2 2] := by
  decide

/-- C25 as stated fails: a response with status 0 and balance 0 to a withdraw
operation whose target is "N" is reported as "account closed", and the id
returned (`BankID_01`) is not adopted: the target stays "N". -/
theorem response_counterexample :
    (processResponse
      { status := 0, balance := 0, bankId := "BankID_01".toList, message := [],
        clientIndex := 1 }
      { operation := "withdraw".toList, amount := 100, bankId := ['N'] } 1).op.bankId
      = ['N'] ∧
    (processResponse
      { status := 0, balance := 0, bankId := "BankID_01".toList, message := [],
        clientIndex := 1 }
      { operation := "withdraw".toList, amount := 100, bankId := ['N'] } 1).report
      = .accountClosed ∧
    (processResponse
      { status := 0, balance := 0, bankId := "BankID_01".toList, message := [],
        clientIndex := 1 }
      { operation := "withdraw".toList, amount := 100, bankId := ['N'] } 1).printed
      = "Client01 served.. account closed\n".toList := by
  decide

/-- C25, amended.  For every response whose id fits the 20-byte field and
every operation record, `processResponse` adopts the returned id as the id of
the operation when the status is 0, the target was "N" and the response is not
reported as "account closed"; in every other case it leaves the id as it was;
it never changes the kind or the amount of the operation; and it reports
"account closed" exactly when the status is 0, the balance is 0 and the
operation is a withdraw. -/
theorem response_processing (resp : ServerResponse) (op : ClientOperation) (clientIndex : Int)
    (hfit : resp.bankId.length ≤ 19) :
    (processResponse resp op clientIndex).op.bankId
      = (if resp.status = 0 ∧ op.bankId = ['N'] ∧
            ¬ (resp.balance = 0 ∧ op.operation = "withdraw".toList)
          then resp.bankId else op.bankId) ∧
    (processResponse resp op clientIndex).op.operation = op.operation ∧
    (processResponse resp op clientIndex).op.amount = op.amount ∧
    ((processResponse resp op clientIndex).report = .accountClosed ↔
      resp.status = 0 ∧ resp.balance = 0 ∧ op.operation = "withdraw".toList) ∧
    (processResponse resp op clientIndex).printed
      = reportLine clientIndex (processResponse resp op clientIndex).report := by
  have htake : resp.bankId.take 19 = resp.bankId := List.take_of_length_le hfit
  unfold processResponse
  by_cases hs : resp.status = 0
  · by_cases hc : resp.balance = 0 ∧ op.operation = "withdraw".toList
    · rw [if_pos hs, if_pos hc, if_neg (fun h => h.2.2 hc)]
      exact ⟨rfl, rfl, rfl, ⟨fun _ => ⟨hs, hc⟩, fun _ => rfl⟩, rfl⟩
    · rw [if_pos hs, if_neg hc]
      dsimp only
      by_cases hn : op.bankId = ['N']
      · rw [if_pos hn, if_pos ⟨hs, hn, hc⟩]
        exact ⟨htake, rfl, rfl, ⟨fun h => ClientReport.noConfusion h, fun h => absurd h.2 hc⟩, rfl⟩
      · rw [if_neg hn, if_neg (fun h => hn h.2.1)]
        exact ⟨rfl, rfl, rfl, ⟨fun h => ClientReport.noConfusion h, fun h => absurd h.2 hc⟩, rfl⟩
  · rw [if_neg hs, if_neg (fun h => hs h.1)]
    exact ⟨rfl, rfl, rfl, ⟨fun h => ClientReport.noConfusion h, fun h => absurd h.1 hs⟩, rfl⟩

/-- Witness of `response_processing`: the response to `N deposit 300` carries
the new id, which becomes the id of the operation. -/
theorem response_processing_witness :
    (processResponse
      { status := 0, balance := 300, bankId := "BankID_01".toList, message := [],
        clientIndex := 1 }
      { operation := "deposit".toList, amount := 300, bankId := ['N'] } 1).op.bankId
      = "BankID_01".toList :=
  (response_processing
    { status := 0, balance := 300, bankId := "BankID_01".toList, message := [],
      clientIndex := 1 }
    { operation := "deposit".toList, amount := 300, bankId := ['N'] } 1 (by decide)).1

/-! ## Conservation of records in the ingress loop -/

/-- Lines 315 to 332 on a record of another client while a batch with a
non-zero pid is in progress: the partial batch is dispatched and the record
starts a new batch. -/
theorem storeRequest_other (st : IngressState) (r : ClientRequest)
    (hne : st.currentBatch.pid ≠ r.pid) (hpid : st.currentBatch.pid ≠ 0)
    (hpos : 0 < st.currentBatch.received) :
    storeRequest st r =
      { dispatched := st.dispatched ++ [batchRecords st],
        batchRequests := fun i => if i = 0 then r else st.batchRequests i,
        currentBatch := { pid := r.pid, total := r.batchSize, received := 1 } } := by
  have h0 : st.currentBatch.received ≠ 0 := by omega
  unfold storeRequest
  simp [hne, hpid, hpos, processBatch, h0, MAX_BATCH_SIZE]

/-- The completion test on a batch with a non-zero pid and at least one record. -/
theorem completeBatch_eval (st : IngressState) (hpid : st.currentBatch.pid ≠ 0)
    (hpos : 0 < st.currentBatch.received) :
    completeBatch st =
      if st.currentBatch.received ≥ st.currentBatch.total then
        { dispatched := st.dispatched ++ [batchRecords st],
          batchRequests := st.batchRequests,
          currentBatch := { pid := 0, total := 0, received := 0 } }
      else st := by
  have h0 : st.currentBatch.received ≠ 0 := by omega
  unfold completeBatch
  split
  · simp [processBatch, hpid, h0, resetBatchInfo]
  · rfl

/-- One record read by the ingress loop while the buffer has room: the
batches dispatched followed by the records buffered are the stream read so far,
the descriptor is either reset or names a batch with a non-zero pid and
`1 ≤ received < total`, and its `total` is 0, the former one or the `batchSize`
of the record. -/
theorem ingress_conserve_step (st : IngressState) (stream : List ClientRequest)
    (req : ClientRequest)
    (hcons : st.dispatched.flatten ++ batchRecords st = stream)
    (hshape : st.currentBatch = { pid := 0, total := 0, received := 0 } ∨
      (st.currentBatch.pid ≠ 0 ∧ 1 ≤ st.currentBatch.received ∧
        st.currentBatch.received < st.currentBatch.total))
    (hroom : st.currentBatch.received < (MAX_BATCH_SIZE : Int))
    (hpid : req.pid ≠ 0) :
    (ingressStep st (.record req)).dispatched.flatten
        ++ batchRecords (ingressStep st (.record req)) = stream ++ [req] ∧
    ((ingressStep st (.record req)).currentBatch = { pid := 0, total := 0, received := 0 } ∨
      ((ingressStep st (.record req)).currentBatch.pid ≠ 0 ∧
        1 ≤ (ingressStep st (.record req)).currentBatch.received ∧
        (ingressStep st (.record req)).currentBatch.received
          < (ingressStep st (.record req)).currentBatch.total)) ∧
    ((ingressStep st (.record req)).currentBatch.total = 0 ∨
      (ingressStep st (.record req)).currentBatch.total = st.currentBatch.total ∨
      (ingressStep st (.record req)).currentBatch.total = req.batchSize) := by
  -- the completion test, after lines 315 to 332
  have key : ∀ (st1 : IngressState) (pre : List ClientRequest) (t : Int),
      st1.currentBatch.pid ≠ 0 → 1 ≤ st1.currentBatch.received →
      st1.currentBatch.total = t →
      st1.dispatched.flatten ++ batchRecords st1 = pre →
      (completeBatch st1).dispatched.flatten ++ batchRecords (completeBatch st1) = pre ∧
      ((completeBatch st1).currentBatch = { pid := 0, total := 0, received := 0 } ∨
        ((completeBatch st1).currentBatch.pid ≠ 0 ∧
          1 ≤ (completeBatch st1).currentBatch.received ∧
          (completeBatch st1).currentBatch.received
            < (completeBatch st1).currentBatch.total)) ∧
      ((completeBatch st1).currentBatch.total = 0 ∨
        (completeBatch st1).currentBatch.total = t) := by
    intro st1 pre t h1 h2 h3 h4
    rw [completeBatch_eval st1 h1 (by omega)]
    split
    · refine ⟨?_, Or.inl rfl, Or.inl rfl⟩
      simp only [batchRecords, List.flatten_append, List.flatten_cons, List.flatten_nil,
        List.append_nil]
      simpa [batchRecords] using h4
    · exact ⟨h4, Or.inr ⟨h1, h2, by omega⟩, Or.inr h3⟩
  have hstep : ingressStep st (.record req) = completeBatch (storeRequest st req) := rfl
  have hrange : List.range 1 = [0] := rfl
  rw [hstep]
  rcases hshape with hcb | ⟨hp, hr1, hlt⟩
  · have hB : batchRecords st = [] := by simp [batchRecords, hcb]
    rw [hB, List.append_nil] at hcons
    rw [storeRequest_first st req hcb]
    have := key { st with
        batchRequests := fun i => if i = 0 then req else st.batchRequests i,
        currentBatch := { pid := req.pid, total := req.batchSize, received := 1 } }
      (stream ++ [req]) req.batchSize hpid (le_refl _) rfl
      (by simp [batchRecords, hcons, hrange])
    exact ⟨this.1, this.2.1, this.2.2.elim Or.inl (fun h => Or.inr (Or.inr h))⟩
  · by_cases hsame : st.currentBatch.pid = req.pid
    · obtain ⟨k, hk⟩ := Int.eq_ofNat_of_zero_le (show 0 ≤ st.currentBatch.received by omega)
      have hcb : st.currentBatch
          = { pid := req.pid, total := st.currentBatch.total, received := (k : Int) } := by
        rw [← hsame, ← hk]
      have hklt : k < MAX_BATCH_SIZE := by
        have : (k : Int) < (MAX_BATCH_SIZE : Int) := by omega
        exact_mod_cast this
      rw [storeRequest_same st req req.pid st.currentBatch.total k hcb rfl (by omega) hklt]
      have hBk : batchRecords st = (List.range k).map st.batchRequests := by
        simp [batchRecords, hk]
      have h1 : ((k : Int) + 1).toNat = k + 1 := by omega
      have := key { st with
          batchRequests := fun i => if i = k then req else st.batchRequests i,
          currentBatch := { pid := req.pid, total := st.currentBatch.total,
                            received := (k : Int) + 1 } }
        (stream ++ [req]) st.currentBatch.total hpid (by show 1 ≤ (k : Int) + 1; omega) rfl
        (by
          simp only [batchRecords, h1, batchRecords_store2]
          rw [← hcons, hBk, List.append_assoc])
      exact ⟨this.1, this.2.1, this.2.2.elim Or.inl (fun h => Or.inr (Or.inl h))⟩
    · rw [storeRequest_other st req hsame hp (by omega)]
      have := key
        { dispatched := st.dispatched ++ [batchRecords st],
          batchRequests := fun i => if i = 0 then req else st.batchRequests i,
          currentBatch := { pid := req.pid, total := req.batchSize, received := 1 } }
        (stream ++ [req]) req.batchSize hpid (le_refl _) rfl
        (by simp [batchRecords, ← hcons, hrange])
      exact ⟨this.1, this.2.1, this.2.2.elim Or.inl (fun h => Or.inr (Or.inr h))⟩

/-- Conservation for a stream in which every record has a non-zero pid and a
`batchSize` of at most `MAX_BATCH_SIZE`, from any state that satisfies the
invariant. -/
theorem ingress_conserve_fold (recs : List ClientRequest)
    (hrecs : ∀ r ∈ recs, r.pid ≠ 0 ∧ r.batchSize ≤ (MAX_BATCH_SIZE : Int)) :
    ∀ (st : IngressState) (stream : List ClientRequest),
      st.dispatched.flatten ++ batchRecords st = stream →
      (st.currentBatch = { pid := 0, total := 0, received := 0 } ∨
        (st.currentBatch.pid ≠ 0 ∧ 1 ≤ st.currentBatch.received ∧
          st.currentBatch.received < st.currentBatch.total)) →
      st.currentBatch.total ≤ (MAX_BATCH_SIZE : Int) →
      (waitForClients st (recs.map ReadResult.record)).dispatched.flatten
          ++ batchRecords (waitForClients st (recs.map ReadResult.record)) = stream ++ recs ∧
      (waitForClients st (recs.map ReadResult.record)).currentBatch.received
        < (MAX_BATCH_SIZE : Int) := by
  induction recs with
  | nil =>
    intro st stream hcons hshape htot
    refine ⟨by simpa [waitForClients] using hcons, ?_⟩
    show st.currentBatch.received < _
    rcases hshape with h | h
    · rw [h]; unfold MAX_BATCH_SIZE; norm_num
    · omega
  | cons r rest ih =>
    intro st stream hcons hshape htot
    have hr := hrecs r (List.mem_cons_self _ _)
    have hroom : st.currentBatch.received < (MAX_BATCH_SIZE : Int) := by
      rcases hshape with h | h
      · rw [h]; unfold MAX_BATCH_SIZE; norm_num
      · omega
    obtain ⟨h1, h2, h3⟩ := ingress_conserve_step st stream r hcons hshape hroom hr.1
    have htot2 : (ingressStep st (.record r)).currentBatch.total ≤ (MAX_BATCH_SIZE : Int) := by
      rcases h3 with h | h | h
      · rw [h]; unfold MAX_BATCH_SIZE; norm_num
      · rw [h]; exact htot
      · rw [h]; exact hr.2
    have := ih (fun x hx => hrecs x (List.mem_cons_of_mem _ hx)) _ _ h1 h2 htot2
    simp only [List.append_assoc, List.singleton_append] at this
    exact this

/-- While a client that announced more than `MAX_BATCH_SIZE` records fills the
buffer, nothing is lost: after `n ≤ MAX_BATCH_SIZE` records the batches
dispatched followed by the records buffered are these `n` records. -/
theorem ingress_filling_conserved (pid total : Int) (f : Nat → ClientRequest)
    (hf : ∀ i, (f i).pid = pid ∧ (f i).batchSize = total) (hpid : pid ≠ 0)
    (htot : (MAX_BATCH_SIZE : Int) < total) :
    ∀ n, n ≤ MAX_BATCH_SIZE →
      (waitForClients ingressInit
        ((List.range n).map (fun i => ReadResult.record (f i)))).dispatched.flatten
      ++ batchRecords (waitForClients ingressInit
        ((List.range n).map (fun i => ReadResult.record (f i))))
      = (List.range n).map f := by
  intro n
  induction n with
  | zero => intro _; rfl
  | succ n ih =>
    intro hn
    have hprev := ih (by omega)
    have hshape : (waitForClients ingressInit
          ((List.range n).map (fun i => ReadResult.record (f i)))).currentBatch
          = { pid := 0, total := 0, received := 0 } ∨
        ((waitForClients ingressInit
          ((List.range n).map (fun i => ReadResult.record (f i)))).currentBatch.pid ≠ 0 ∧
         1 ≤ (waitForClients ingressInit
          ((List.range n).map (fun i => ReadResult.record (f i)))).currentBatch.received ∧
         (waitForClients ingressInit
          ((List.range n).map (fun i => ReadResult.record (f i)))).currentBatch.received
          < (waitForClients ingressInit
          ((List.range n).map (fun i => ReadResult.record (f i)))).currentBatch.total) := by
      rcases Nat.eq_zero_or_pos n with h0 | hpos
      · subst h0; exact Or.inl rfl
      · right
        rw [ingress_filling pid total f hf htot n hpos (by omega)]
        have : (n : Int) ≤ (MAX_BATCH_SIZE : Int) := by exact_mod_cast (by omega : n ≤ MAX_BATCH_SIZE)
        refine ⟨hpid, ?_, ?_⟩
        · show 1 ≤ (n : Int); omega
        · show (n : Int) < total; omega
    have hroom : (waitForClients ingressInit
          ((List.range n).map (fun i => ReadResult.record (f i)))).currentBatch.received
          < (MAX_BATCH_SIZE : Int) := by
      rcases Nat.eq_zero_or_pos n with h0 | hpos
      · subst h0; show (0 : Int) < _; unfold MAX_BATCH_SIZE; norm_num
      · rw [ingress_filling pid total f hf htot n hpos (by omega)]
        show (n : Int) < _
        exact_mod_cast (by omega : n < MAX_BATCH_SIZE)
    have hstep := ingress_conserve_step _ _ (f n) hprev hshape hroom
      (by rw [(hf n).1]; exact hpid)
    have hS : waitForClients ingressInit
        ((List.range (n + 1)).map (fun i => ReadResult.record (f i)))
        = ingressStep (waitForClients ingressInit
            ((List.range n).map (fun i => ReadResult.record (f i)))) (.record (f n)) := by
      unfold waitForClients
      rw [List.range_succ, List.map_append, List.foldl_append]
      rfl
    rw [hS, hstep.1, List.range_succ, List.map_append]
    rfl

/-- The record that arrives when the buffer holds `MAX_BATCH_SIZE` records of
an unfinished batch of the same client leaves the whole state as it was. -/
theorem ingressStep_full (st : IngressState) (r : ClientRequest)
    (hr : r.pid = st.currentBatch.pid)
    (hfull : (MAX_BATCH_SIZE : Int) ≤ st.currentBatch.received)
    (hlt : st.currentBatch.received < st.currentBatch.total) :
    ingressStep st (.record r) = st := by
  have hstore := storeRequest_full st r hr (by unfold MAX_BATCH_SIZE at hfull; omega) hfull
  have hge : ¬ (st.currentBatch.received ≥ st.currentBatch.total) := by omega
  show completeBatch (storeRequest st r) = st
  rw [hstore]
  unfold completeBatch
  rw [if_neg hge]

/-- C29 as stated fails: a client (pid 7) announces 600 records.  After its
first 500 records the descriptor is (7, 600, 500), so the buffer index has
reached `MAX_BATCH_SIZE`; the 501st record is dropped: the state is the one
after 500 records, and the batches dispatched followed by the records buffered
are the first 500 records, not the 501 read so far. -/
theorem ingress_drop_counterexample :
    (waitForClients ingressInit
      ((List.range 500).map
        (fun (i : Nat) => ReadResult.record (sampleRecord 7 600 ((i : Int) + 1))))).currentBatch
      = { pid := 7, total := 600, received := 500 } ∧
    waitForClients ingressInit
      ((List.range 501).map
        (fun (i : Nat) => ReadResult.record (sampleRecord 7 600 ((i : Int) + 1))))
      = waitForClients ingressInit
      ((List.range 500).map
        (fun (i : Nat) => ReadResult.record (sampleRecord 7 600 ((i : Int) + 1)))) ∧
    (waitForClients ingressInit
      ((List.range 501).map
        (fun (i : Nat) => ReadResult.record (sampleRecord 7 600 ((i : Int) + 1))))).dispatched.flatten
      ++ batchRecords (waitForClients ingressInit
      ((List.range 501).map
        (fun (i : Nat) => ReadResult.record (sampleRecord 7 600 ((i : Int) + 1)))))
      = (List.range 500).map (fun (i : Nat) => sampleRecord 7 600 ((i : Int) + 1)) ∧
    (waitForClients ingressInit
      ((List.range 501).map
        (fun (i : Nat) => ReadResult.record (sampleRecord 7 600 ((i : Int) + 1))))).dispatched.flatten
      ++ batchRecords (waitForClients ingressInit
      ((List.range 501).map
        (fun (i : Nat) => ReadResult.record (sampleRecord 7 600 ((i : Int) + 1)))))
      ≠ (List.range 501).map (fun (i : Nat) => sampleRecord 7 600 ((i : Int) + 1)) := by
  have h := ingress_filling 7 600 (fun (i : Nat) => sampleRecord 7 600 ((i : Int) + 1))
    (fun _ => ⟨rfl, rfl⟩) (by decide) 500 (by decide) (by decide)
  have hc : ((500 : Nat) : Int) = 500 := by norm_num
  rw [hc] at h
  beta_reduce at h
  have hcons := ingress_filling_conserved 7 600
    (fun (i : Nat) => sampleRecord 7 600 ((i : Int) + 1))
    (fun _ => ⟨rfl, rfl⟩) (by decide) (by decide) 500 (by decide)
  beta_reduce at hcons
  have hS : waitForClients ingressInit
      ((List.range 501).map
        (fun (i : Nat) => ReadResult.record (sampleRecord 7 600 ((i : Int) + 1))))
      = waitForClients ingressInit
      ((List.range 500).map
        (fun (i : Nat) => ReadResult.record (sampleRecord 7 600 ((i : Int) + 1)))) := by
    have h501 : List.range 501 = List.range 500 ++ [500] := List.range_succ 500
    unfold waitForClients at h ⊢
    rw [h501, List.map_append, List.foldl_append, List.map_cons, List.map_nil,
      List.foldl_cons, List.foldl_nil]
    exact ingressStep_full _ _ (by rw [h]; rfl) (by rw [h]; unfold MAX_BATCH_SIZE; norm_num)
      (by rw [h]; norm_num)
  refine ⟨h, hS, ?_, ?_⟩
  · rw [hS]; exact hcons
  · rw [hS, hcons]
    intro heq
    have := congrArg List.length heq
    rw [List.length_map, List.length_map, List.length_range, List.length_range] at this
    omega

/-- C29, amended.  For every stream of records with non-zero pid whose
`batchSize` values are at most `MAX_BATCH_SIZE`, after each record read the
batches dispatched so far, concatenated, followed by the records buffered in
`batchRequests[0..received-1]` are exactly the records read so far (none
dropped, duplicated or reordered), and `received` is below `MAX_BATCH_SIZE`. -/
theorem ingress_conserves_records (recs : List ClientRequest)
    (hrecs : ∀ r ∈ recs, r.pid ≠ 0 ∧ r.batchSize ≤ (MAX_BATCH_SIZE : Int)) (n : Nat) :
    (waitForClients ingressInit ((recs.take n).map ReadResult.record)).dispatched.flatten
      ++ batchRecords (waitForClients ingressInit ((recs.take n).map ReadResult.record))
      = recs.take n ∧
    (waitForClients ingressInit ((recs.take n).map ReadResult.record)).currentBatch.received
      < (MAX_BATCH_SIZE : Int) := by
  have h := ingress_conserve_fold (recs.take n)
    (fun r hr => hrecs r (List.mem_of_mem_take hr)) ingressInit [] rfl (Or.inl rfl)
    (by show (0 : Int) ≤ _; unfold MAX_BATCH_SIZE; norm_num)
  simpa using h

/-- Witness of `ingress_conserves_records`: two records of a batch of client 7
followed by the first of three records of client 9. -/
theorem ingress_conserves_records_witness :
    (waitForClients ingressInit
        (([sampleRecord 7 2 1, sampleRecord 7 2 2, sampleRecord 9 3 1].take 3).map
          ReadResult.record)).dispatched.flatten
      ++ batchRecords (waitForClients ingressInit
        (([sampleRecord 7 2 1, sampleRecord 7 2 2, sampleRecord 9 3 1].take 3).map
          ReadResult.record))
      = [sampleRecord 7 2 1, sampleRecord 7 2 2, sampleRecord 9 3 1].take 3 :=
  (ingress_conserves_records [sampleRecord 7 2 1, sampleRecord 7 2 2, sampleRecord 9 3 1]
    (by decide) 3).1

/-- C30 fails in the code: after `N deposit 5` and `BankID_01 deposit 3` the
log holds two records of `BankID_01`.  `restoreDatabaseFromLog` restores one
account, active with balance 8, but returns 2: `accountsRestored` is
incremented for every record with a non-zero balance, not once per account. -/
theorem replay_count_counts_records :
    (serveAll initialState [openReq 5, depositReq "BankID_01".toList 3]).logFile
      = ("BankID_01 D 5 5\n" ++ "BankID_01 D 3 8\n").toList ∧
    (restoreDatabaseFromLog
      (some (serveAll initialState [openReq 5, depositReq "BankID_01".toList 3]).logFile)
      { accounts := [] }).1 = 2 ∧
    (restoreDatabaseFromLog
      (some (serveAll initialState [openReq 5, depositReq "BankID_01".toList 3]).logFile)
      { accounts := [] }).2.accounts
      = [{ bankId := "BankID_01".toList, balance := 8, active := true }] ∧
    (liveAccounts (restoreDatabaseFromLog
      (some (serveAll initialState [openReq 5, depositReq "BankID_01".toList 3]).logFile)
      { accounts := [] }).2).length = 1 := by
  decide

/-- The counter of `restoreDatabaseFromLog` after the first record of an id:
it is incremented when the balance of the record is not 0. -/
theorem restoreRecord_new_count {accounts : List Account} (r : Int) {bankId : List Char}
    (b : Int) (hnew : bankId ∉ accounts.map Account.bankId) (hlen : accounts.length < 100) :
    (restoreRecord (accounts, r) bankId b).2 = if b = 0 then r else wrapInt (r + 1) := by
  have hfind : findById accounts bankId = none := findById_none.mpr hnew
  have hl : ¬ (accounts.length ≥ 100) := by omega
  have hget : (accounts ++ [(⟨bankId.take 19, 0, true⟩ : Account)])[accounts.length]?
      = some ⟨bankId.take 19, 0, true⟩ := by
    simp
  have hget2 : (modifyAt (fun a => { a with balance := b })
      (accounts ++ [(⟨bankId.take 19, 0, true⟩ : Account)]) accounts.length)[accounts.length]?
      = some ⟨bankId.take 19, b, true⟩ := by
    rw [modifyAt_eq_set _ hget]
    simp
  unfold restoreRecord
  simp only [hfind, hl, if_false]
  unfold restoreBalance
  simp only [activeAt_eq hget2]
  by_cases hb0 : b = 0 <;> simp [hb0]

/-- When every id has one record and there are at most 100 records, the
counter of `restoreDatabaseFromLog` ends as the number of active accounts. -/
theorem restore_count_one_record_each (recs : List (List Char × Int)) :
    ∀ (accounts : List Account) (c : Int),
      (recs.map Prod.fst).Nodup → (∀ r ∈ recs, r.1.length ≤ 19) →
      (∀ r ∈ recs, r.1 ∉ accounts.map Account.bankId) →
      accounts.length + recs.length ≤ 100 →
      c = ((accounts.filter (fun a => a.active)).length : Int) →
      (recs.foldl (fun st r => restoreRecord st r.1 r.2) (accounts, c)).2
        = (((recs.foldl (fun st r => restoreRecord st r.1 r.2) (accounts, c)).1.filter
            (fun a => a.active)).length : Int) := by
  induction recs with
  | nil => intro accounts c _ _ _ _ hc; exact hc
  | cons r rest ih =>
    intro accounts c hnd hfit hnew hlen hc
    obtain ⟨x, b⟩ := r
    simp only [List.map_cons, List.nodup_cons] at hnd
    simp only [List.length_cons] at hlen
    have hx : x ∉ accounts.map Account.bankId := hnew (x, b) (List.mem_cons_self _ _)
    have hx19 : x.take 19 = x :=
      List.take_of_length_le (hfit (x, b) (List.mem_cons_self _ _))
    have h1 := restoreRecord_new c b hx (by omega)
    have h2 := restoreRecord_new_count c b hx (by omega)
    rw [hx19] at h1
    have hle : (accounts.filter (fun a => a.active)).length ≤ accounts.length :=
      List.length_filter_le _ _
    rw [List.foldl_cons]
    have hst : restoreRecord (accounts, c) x b
        = (accounts ++ [{ bankId := x, balance := b, active := decide (b ≠ 0) }],
           if b = 0 then c else wrapInt (c + 1)) := Prod.ext h1 h2
    show (rest.foldl _ (restoreRecord (accounts, c) x b)).2 = _
    rw [hst]
    apply ih _ _ hnd.2 (fun r hr => hfit r (List.mem_cons_of_mem _ hr))
    · intro r hr
      simp only [List.map_append, List.map_cons, List.map_nil, List.mem_append,
        List.mem_singleton, not_or]
      refine ⟨hnew r (List.mem_cons_of_mem _ hr), ?_⟩
      intro e
      apply hnd.1
      rw [← e]
      exact List.mem_map.mpr ⟨r, hr, rfl⟩
    · simp only [List.length_append, List.length_singleton]
      omega
    · by_cases hb0 : b = 0
      · simp [hb0, hc, List.filter_append]
      · have hw : wrapInt (c + 1) = c + 1 :=
          wrapInt_of_isInt (by unfold IsInt INT_MIN INT_MAX; omega)
        rw [if_neg hb0, hw, hc]
        simp [hb0, List.filter_append]

/-- On a log in which every id has one record and which has at most 100
records, the value returned by `restoreDatabaseFromLog` is the number of active
accounts restored. -/
theorem replay_count_one_record_each (text : List Char) (db : BankDatabase)
    (hfit : IdsFit text) (hnd : ((logRecords text).map Prod.fst).Nodup)
    (hlen : (logRecords text).length ≤ 100) :
    (restoreDatabaseFromLog (some text) db).1
      = ((liveAccounts (restoreDatabaseFromLog (some text) db).2).length : Int) := by
  have h := restore_count_one_record_each (logRecords text) [] 0 hnd (idsFit_records hfit)
    (by simp) (by simpa using hlen) rfl
  simp only [restoreDatabaseFromLog, liveAccounts, List.length_map, restore_fold_records]
  exact h

/-- An instance of `undo_round_trip`: on the account opened with 300, a deposit
of 5 followed by a withdrawal of 5 gives back the database. -/
theorem undo_round_trip_example :
    (processDatabaseRequest (withdrawReq "BankID_01".toList 5) zeroResponse
      (processDatabaseRequest (depositReq "BankID_01".toList 5) zeroResponse
        (serveAll initialState [openReq 300])).2).2.bankDb
      = (serveAll initialState [openReq 300]).bankDb :=
  ((undo_round_trip (serveAll initialState [openReq 300])
      (Reachable.serve_all Reachable.empty [openReq 300] (by decide)) 5 (by decide)
      zeroResponse zeroResponse).1 0
    { bankId := "BankID_01".toList, balance := 300, active := true }
    (by decide) rfl (by decide) (by decide)).2.2

/-- An instance of `replay_count_one_record_each`: two accounts, one record
each, one of them closed. -/
theorem replay_count_example :
    (restoreDatabaseFromLog (some ("BankID_01 D 5 5\n" ++ "BankID_02 W 7 0\n").toList)
      { accounts := [] }).1
      = ((liveAccounts (restoreDatabaseFromLog
          (some ("BankID_01 D 5 5\n" ++ "BankID_02 W 7 0\n").toList)
          { accounts := [] }).2).length : Int) :=
  replay_count_one_record_each ("BankID_01 D 5 5\n" ++ "BankID_02 W 7 0\n").toList
    { accounts := [] } (by decide) (by decide) (by decide)

/-! ## The directives of `sscanf` and the words of the log format -/

theorem skipSpaces_split (s : List Char) : ∃ ws, Blank ws ∧ s = ws ++ skipSpaces s := by
  induction s with
  | nil => exact ⟨[], by intro c hc; simp at hc, rfl⟩
  | cons c cs ih =>
    by_cases hc : isspace c = true
    · obtain ⟨ws, hws, hs⟩ := ih
      refine ⟨c :: ws, ?_, ?_⟩
      · intro x hx
        rcases List.mem_cons.mp hx with rfl | hx
        · exact hc
        · exact hws x hx
      · simp only [skipSpaces, hc, if_true, List.cons_append]
        rw [← hs]
    · have hc2 : isspace c = false := by simpa using hc
      exact ⟨[], by intro x hx; simp at hx, by simp [skipSpaces, hc2]⟩

theorem skipSpaces_blank (ws s : List Char) (hws : Blank ws)
    (hs : ∀ c ∈ s.head?, isspace c = false) : skipSpaces (ws ++ s) = s := by
  induction ws with
  | nil => exact skipSpaces_of_head s hs
  | cons c cs ih =>
    have hc : isspace c = true := hws c (List.mem_cons_self _ _)
    simp only [List.cons_append, skipSpaces, hc, if_true]
    exact ih (fun x hx => hws x (List.mem_cons_of_mem _ hx))

theorem scanToken_word (tok rest : List Char) (h : ∀ c ∈ tok, isspace c = false)
    (hrest : ∀ c ∈ rest.head?, isspace c = true) :
    scanToken (tok ++ rest) = (tok, rest) := by
  induction tok with
  | nil =>
    cases rest with
    | nil => rfl
    | cons w r =>
      have hw : isspace w = true := hrest w (by simp)
      simp [scanToken, hw]
  | cons c cs ih =>
    have hc : isspace c = false := h c (List.mem_cons_self _ _)
    have := ih (fun d hd => h d (List.mem_cons_of_mem _ hd))
    simp [scanToken, hc, this]

/-- The directive `%s` reads a word: the input is white space, the word, and
a rest that is empty or starts with white space. -/
theorem scanStr_iff (s tok r : List Char) :
    scanStr s = some (tok, r) ↔
      ∃ ws, Blank ws ∧ Word tok ∧ s = ws ++ (tok ++ r) ∧ (∀ c ∈ r.head?, isspace c = true) := by
  constructor
  · intro h
    obtain ⟨hne, hns, hsplit, hhead⟩ := scanStr_spec h
    obtain ⟨ws, hws, hs⟩ := skipSpaces_split s
    exact ⟨ws, hws, ⟨hne, hns⟩, by rw [← hsplit]; exact hs, hhead⟩
  · rintro ⟨ws, hws, ⟨hne, hns⟩, hs, hhead⟩
    cases tok with
    | nil => exact absurd rfl hne
    | cons c cs =>
      have hc : isspace c = false := hns c (List.mem_cons_self _ _)
      have hsk : skipSpaces s = c :: (cs ++ r) := by
        rw [hs]
        exact skipSpaces_blank ws _ hws (by intro x hx; simp at hx; subst hx; exact hc)
      unfold scanStr
      rw [hsk]
      have := scanToken_word (c :: cs) r hns hhead
      simp only [List.cons_append] at this
      simp only [this]

/-- The directive ` %c` reads one character that is not white space, after
optional white space. -/
theorem scanChar_iff (s r : List Char) (c : Char) :
    scanChar s = some (c, r) ↔ ∃ ws, Blank ws ∧ isspace c = false ∧ s = ws ++ c :: r := by
  constructor
  · intro h
    obtain ⟨ws, hws, hs⟩ := skipSpaces_split s
    unfold scanChar at h
    cases hsk : skipSpaces s with
    | nil => simp [hsk] at h
    | cons d ds =>
      simp only [hsk, Option.some.injEq, Prod.mk.injEq] at h
      obtain ⟨h1, h2⟩ := h
      subst h1
      subst h2
      have hd : isspace d = false := (skipSpaces_spec s).2.2 d (by simp [hsk])
      exact ⟨ws, hws, hd, by rw [← hsk]; exact hs⟩
  · rintro ⟨ws, hws, hc, hs⟩
    have hsk : skipSpaces s = c :: r := by
      rw [hs]
      exact skipSpaces_blank ws _ hws (by intro x hx; simp at hx; subst hx; exact hc)
    unfold scanChar
    rw [hsk]

theorem scanDigits_split (s : List Char) :
    ∀ acc, ∃ ds, (∀ c ∈ ds, isdigit c = true) ∧ s = ds ++ (scanDigits s acc).2 ∧
      (scanDigits s acc).1 = ds.foldl (fun a c => a * 10 + (c.toNat - 48)) acc ∧
      (∀ c ∈ (scanDigits s acc).2.head?, isdigit c = false) := by
  induction s with
  | nil => intro acc; exact ⟨[], by simp, by simp [scanDigits], by simp [scanDigits], by simp [scanDigits]⟩
  | cons c cs ih =>
    intro acc
    by_cases hc : isdigit c = true
    · obtain ⟨ds, h1, h2, h3, h4⟩ := ih (acc * 10 + (c.toNat - 48))
      refine ⟨c :: ds, ?_, ?_, ?_, ?_⟩
      · intro x hx
        rcases List.mem_cons.mp hx with rfl | hx
        · exact hc
        · exact h1 x hx
      · simp only [scanDigits, hc, if_true, List.cons_append]
        rw [← h2]
      · simp only [scanDigits, hc, if_true, List.foldl_cons]
        exact h3
      · simp only [scanDigits, hc, if_true]
        exact h4
    · have hc2 : isdigit c = false := by simpa using hc
      refine ⟨[], by simp, ?_, ?_, ?_⟩
      · simp [scanDigits, hc2]
      · simp [scanDigits, hc2]
      · simp [scanDigits, hc2]

theorem numeral_head {n : List Char} {v : Int} (h : Numeral n v) (r : List Char) :
    ∀ c ∈ (n ++ r).head?, isspace c = false := by
  obtain ⟨ds, hne, hds, h⟩ := h
  cases ds with
  | nil => exact absurd rfl hne
  | cons d ds2 =>
    have hd : isspace d = false := isspace_of_isdigit (hds d (List.mem_cons_self _ _))
    rcases h with ⟨h, _⟩ | ⟨h, _⟩ | ⟨h, _⟩ <;> subst h <;> intro c hc <;> simp at hc <;> subst hc
    · exact hd
    · decide
    · decide

/-- The directive `%d` reads a numeral: the input is white space, the numeral,
and a rest that does not start with a digit. -/
theorem scanInt_iff (s r : List Char) (v : Int) :
    scanInt s = some (v, r) ↔
      ∃ ws n, Blank ws ∧ Numeral n v ∧ s = ws ++ (n ++ r) ∧
        (∀ c ∈ r.head?, isdigit c = false) := by
  constructor
  · intro h
    obtain ⟨ws, hws, hs⟩ := skipSpaces_split s
    unfold scanInt at h
    cases hsk : skipSpaces s with
    | nil => simp [hsk] at h
    | cons c cs =>
      rw [hsk] at hs
      simp only [hsk] at h
      split at h
      · rename_i hminus
        subst hminus
        cases cs with
        | nil => simp at h
        | cons d ds =>
          simp only at h
          split at h
          · rename_i hdig
            simp only [Option.some.injEq, Prod.mk.injEq] at h
            obtain ⟨ds2, h1, h2, h3, h4⟩ := scanDigits_split (d :: ds) 0
            rw [h.2] at h2 h4
            have hne : ds2 ≠ [] := by
              intro e
              subst e
              simp only [List.nil_append] at h2
              have := h4 d (by rw [← h2]; simp)
              rw [hdig] at this
              cases this
            refine ⟨ws, '-' :: ds2, hws, ⟨ds2, hne, h1, Or.inr (Or.inr ⟨rfl, ?_⟩)⟩, ?_, h4⟩
            · rw [← h.1, h3]; rfl
            · rw [hs, h2]; rfl
          · simp at h
      · split at h
        · rename_i hplus
          subst hplus
          cases cs with
          | nil => simp at h
          | cons d ds =>
            simp only at h
            split at h
            · rename_i hdig
              simp only [Option.some.injEq, Prod.mk.injEq] at h
              obtain ⟨ds2, h1, h2, h3, h4⟩ := scanDigits_split (d :: ds) 0
              rw [h.2] at h2 h4
              have hne : ds2 ≠ [] := by
                intro e
                subst e
                simp only [List.nil_append] at h2
                have := h4 d (by rw [← h2]; simp)
                rw [hdig] at this
                cases this
              refine ⟨ws, '+' :: ds2, hws, ⟨ds2, hne, h1, Or.inr (Or.inl ⟨rfl, ?_⟩)⟩, ?_, h4⟩
              · rw [← h.1, h3]; rfl
              · rw [hs, h2]; rfl
            · simp at h
        · split at h
          · rename_i hdig
            simp only [Option.some.injEq, Prod.mk.injEq] at h
            obtain ⟨ds2, h1, h2, h3, h4⟩ := scanDigits_split (c :: cs) 0
            rw [h.2] at h2 h4
            have hne : ds2 ≠ [] := by
              intro e
              subst e
              simp only [List.nil_append] at h2
              have := h4 c (by rw [← h2]; simp)
              rw [hdig] at this
              cases this
            refine ⟨ws, ds2, hws, ⟨ds2, hne, h1, Or.inl ⟨rfl, ?_⟩⟩, ?_, h4⟩
            · rw [← h.1, h3]; rfl
            · rw [hs, h2]
          · simp at h
  · rintro ⟨ws, n, hws, hn, hs, hr⟩
    have hsk : skipSpaces s = n ++ r := by
      rw [hs]
      exact skipSpaces_blank ws _ hws (numeral_head hn r)
    obtain ⟨ds, hne, hds, h⟩ := hn
    cases ds with
    | nil => exact absurd rfl hne
    | cons d ds2 =>
      have hdig : isdigit d = true := hds d (List.mem_cons_self _ _)
      have hscan := scanDigits_append (d :: ds2) r 0 hds hr
      simp only [List.cons_append] at hscan
      unfold scanInt
      rw [hsk]
      rcases h with ⟨h, hv⟩ | ⟨h, hv⟩ | ⟨h, hv⟩
      · subst h
        have hpm := ne_minus_of_isdigit hdig
        simp only [List.cons_append, hpm.1, hpm.2, if_false, hdig, if_true, hscan, hv]
        rfl
      · subst h
        have h1 : ('+' : Char) ≠ '-' := by decide
        simp only [List.cons_append, h1, if_false, if_true, hdig, hscan, hv]
        rfl
      · subst h
        simp only [List.cons_append, if_true, hdig, hscan, hv]
        rfl

/-- The lines from which `restoreDatabaseFromLog` reads a record are the
record lines of the log format, with the same id and balance. -/
theorem parsedRecord_iff (line id : List Char) (balance : Int) :
    parsedRecord line = some (id, balance) ↔ IsRecordLine line id balance := by
  constructor
  · intro h
    unfold parsedRecord at h
    split at h
    · cases h
    · rename_i hskip
      have hhead : line.head? ≠ some '#' := fun e => hskip (Or.inl e)
      have hlen : 1 < line.length := by
        have : ¬ line.length ≤ 1 := fun e => hskip (Or.inr e)
        omega
      unfold sscanfRecord at h
      cases h1 : scanStr line with
      | none => simp [h1] at h
      | some p1 =>
        obtain ⟨tok, r1⟩ := p1
        simp only [h1] at h
        cases h2 : scanChar r1 with
        | none => simp [h2] at h
        | some p2 =>
          obtain ⟨op, r2⟩ := p2
          simp only [h2] at h
          cases h3 : scanInt r2 with
          | none => simp [h3] at h
          | some p3 =>
            obtain ⟨a, r3⟩ := p3
            simp only [h3] at h
            cases h4 : scanInt r3 with
            | none => simp [h4] at h
            | some p4 =>
              obtain ⟨b, r4⟩ := p4
              simp only [h4, Option.some.injEq, Prod.mk.injEq] at h
              obtain ⟨e1, e2⟩ := h
              subst e1
              subst e2
              obtain ⟨ws0, hws0, hword, hs0, hr1⟩ := (scanStr_iff line tok r1).mp h1
              obtain ⟨ws1, hws1, hop, hs1⟩ := (scanChar_iff r1 r2 op).mp h2
              obtain ⟨ws2, n1, hws2, hn1, hs2, hd1⟩ := (scanInt_iff r2 r3 a).mp h3
              obtain ⟨ws3, n2, hws3, hn2, hs3, hd2⟩ := (scanInt_iff r3 r4 b).mp h4
              have hne1 : ws1 ≠ [] := by
                intro e
                subst e
                have := hr1 op (by rw [hs1]; simp)
                rw [hop] at this
                cases this
              refine ⟨hhead, hlen, ws0, ws1, ws2, n1, ws3, n2, r4, op, a, ?_, hws0, hword,
                hws1, hne1, hop, hws2, hn1, hws3, hn2, ?_, hd2⟩
              · rw [hs0, hs1, hs2, hs3]
              · intro c hc
                apply hd1 c
                rw [hs3]
                cases hw : ws3 ++ n2 with
                | nil =>
                  obtain ⟨ds, hne, _, hcase⟩ := hn2
                  have : n2 = [] := (List.append_eq_nil.mp hw).2
                  rcases hcase with ⟨e, _⟩ | ⟨e, _⟩ | ⟨e, _⟩
                  · exact absurd (e.symm.trans this) hne
                  · rw [e] at this; cases this
                  · rw [e] at this; cases this
                | cons x xs =>
                  rw [hw] at hc
                  rw [← List.append_assoc, hw]
                  exact hc
  · rintro ⟨hhead, hlen, ws0, ws1, ws2, n1, ws3, n2, rest, op, a, hline, hws0, hword, hws1,
      hne1, hop, hws2, hn1, hws3, hn2, hsep, hrest⟩
    have hskip : ¬ (line.head? = some '#' ∨ line.length ≤ 1) := by
      rintro (h | h)
      · exact hhead h
      · omega
    have h4 : scanInt (ws3 ++ (n2 ++ rest)) = some (balance, rest) :=
      (scanInt_iff _ _ _).mpr ⟨ws3, n2, hws3, hn2, rfl, hrest⟩
    have hsep2 : ∀ c ∈ (ws3 ++ (n2 ++ rest)).head?, isdigit c = false := by
      intro c hc
      apply hsep c
      cases hw : ws3 ++ n2 with
      | nil =>
        obtain ⟨ds, hne, _, hcase⟩ := hn2
        have : n2 = [] := (List.append_eq_nil.mp hw).2
        rcases hcase with ⟨e, _⟩ | ⟨e, _⟩ | ⟨e, _⟩
        · exact absurd (e.symm.trans this) hne
        · rw [e] at this; cases this
        · rw [e] at this; cases this
      | cons x xs =>
        rw [← List.append_assoc, hw] at hc
        exact hc
    have h3 : scanInt (ws2 ++ (n1 ++ (ws3 ++ (n2 ++ rest))))
        = some (a, ws3 ++ (n2 ++ rest)) :=
      (scanInt_iff _ _ _).mpr ⟨ws2, n1, hws2, hn1, rfl, hsep2⟩
    have h2 : scanChar (ws1 ++ op :: (ws2 ++ (n1 ++ (ws3 ++ (n2 ++ rest)))))
        = some (op, ws2 ++ (n1 ++ (ws3 ++ (n2 ++ rest)))) :=
      (scanChar_iff _ _ _).mpr ⟨ws1, hws1, hop, rfl⟩
    have hr1 : ∀ c ∈ (ws1 ++ op :: (ws2 ++ (n1 ++ (ws3 ++ (n2 ++ rest))))).head?,
        isspace c = true := by
      cases ws1 with
      | nil => exact absurd rfl hne1
      | cons w ws =>
        intro c hc
        simp at hc
        subst hc
        exact hws1 _ (List.mem_cons_self _ _)
    have h1 : scanStr line
        = some (id, ws1 ++ op :: (ws2 ++ (n1 ++ (ws3 ++ (n2 ++ rest))))) :=
      (scanStr_iff _ _ _).mpr ⟨ws0, hws0, hword, hline, hr1⟩
    unfold parsedRecord
    rw [if_neg hskip]
    unfold sscanfRecord
    simp only [h1, h2, h3, h4]

/-- The lines of a log that are not read as a record are not record lines. -/
theorem parsedRecord_none (line : List Char) (h : parsedRecord line = none) :
    ∀ (id : List Char) (balance : Int), ¬ IsRecordLine line id balance := by
  intro id balance hrec
  rw [(parsedRecord_iff line id balance).mpr hrec] at h
  cases h

/-- A record line of the server, taken apart: no white space at the start, the
id `BankID_01`, one blank, the operation `D`, one blank, the amount 3, one
blank, the balance 8, and the newline as rest. -/
theorem record_line_example : IsRecordLine "BankID_01 D 3 8\n".toList "BankID_01".toList 8 :=
  ⟨by decide, by decide, [], [' '], [' '], ['3'], [' '], ['8'], ['\n'], 'D', 3, by decide,
    by unfold Blank; decide, by unfold Word; decide, by unfold Blank; decide, by decide,
    by decide, by unfold Blank; decide,
    ⟨['3'], by decide, by decide, Or.inl ⟨rfl, by decide⟩⟩,
    by unfold Blank; decide,
    ⟨['8'], by decide, by decide, Or.inl ⟨rfl, by decide⟩⟩,
    by decide, by decide⟩

/-- A line with three fields only is not a record line. -/
theorem not_record_line_example :
    ∀ (id : List Char) (balance : Int), ¬ IsRecordLine "BankID_01 D 3\n".toList id balance :=
  parsedRecord_none _ (by decide)

/-- Numerals beyond the range of `long`: `%d` stores -1 for 2^64 and 0 for
-(2^64 + 1), so the first account is restored active with balance -1 and the
second closed; and the number of the line `BankID_ 99999999999999999999` is
read as -1, which leaves `lastClientId` at 0. -/
theorem overlong_numerals_example :
    (restoreDatabaseFromLog
      (some ("BankID_01 D 5 18446744073709551616\n" ++
        "BankID_02 D 5 -18446744073709551617\n").toList)
      { accounts := [] }).2.accounts
      = [{ bankId := "BankID_01".toList, balance := -1, active := true },
         { bankId := "BankID_02".toList, balance := 0, active := false }] ∧
    readLogFile (some "BankID_ 99999999999999999999\n".toList) = (1, 0) ∧
    scanInt "4294967301".toList = some (5, []) := by
  decide

end Bank
